import Mathlib

/-! # vebben: form decoding (forms.go)

A shallow embedding of the form-decoding engine of `forms.go`:
the type registry, `FormSpec` with `Init` / `initLimit` / `Convert`,
the built-in converters and validators, `MultiError` and `DecodeForm`.

Conventions of the embedding.

* Go strings are Lean strings; Go `int` and `int64` values are `Int`
  (the 32/64-bit width is enforced where the source enforces it, in
  `strconv.ParseInt`).
* A Go `float64` is its IEEE-754 bit pattern, compared as IEEE prescribes.
* A panic is an explicit outcome (`Except String _` for `Init`, the
  constructor `Outcome.panic` for `DecodeForm`).
* Library code outside the repository (Unicode normalisation, `time`,
  `regexp`, `strconv.ParseFloat`, `strconv.Quote`, `encoding/json`) and the
  package-level variables are fields of `Env`.
-/

set_option autoImplicit false

namespace Vebben

deriving instance DecidableEq for Except

/-! ## Strings and numbers (package `strings`, `strconv`, `unicode`) -/

/-- Go `unicode.IsSpace`: the characters with the Unicode White_Space property. -/
def isSpace (c : Char) : Bool :=
  let n := c.toNat
  (9 ≤ n && n ≤ 13) || n = 32 || n = 0x85 || n = 0xA0 || n = 0x1680 ||
  (0x2000 ≤ n && n ≤ 0x200A) || n = 0x2028 || n = 0x2029 || n = 0x202F ||
  n = 0x205F || n = 0x3000

/-- Go `strings.TrimSpace`: remove leading and trailing white space. -/
def TrimSpace (s : String) : String :=
  ⟨((s.data.dropWhile isSpace).reverse.dropWhile isSpace).reverse⟩

/-- Go `strings.HasPrefix`. -/
def HasPrefix (s p : String) : Bool := p.data.isPrefixOf s.data

/-- Go `strings.TrimPrefix`. -/
def TrimPrefix (s p : String) : String :=
  if HasPrefix s p then ⟨s.data.drop p.data.length⟩ else s

/-- Pieces of a character list between occurrences of the separator `sep`. -/
def splitChars (sep : Char) : List Char → List (List Char)
  | [] => [[]]
  | c :: cs =>
    if c = sep then [] :: splitChars sep cs
    else
      match splitChars sep cs with
      | [] => [[c]]
      | p :: ps => (c :: p) :: ps

/-- Go `strings.Split(s, sep)` for a one-character separator. -/
def Split (s : String) (sep : Char) : List String :=
  (splitChars sep s.data).map String.mk

/-- Go `strings.Join`. -/
def Join : List String → String → String
  | [], _ => ""
  | [a], _ => a
  | a :: b :: rest, sep => a ++ sep ++ Join (b :: rest) sep

/-- An ASCII decimal digit, as matched by `[0-9]`. -/
def isDigit (c : Char) : Bool := 48 ≤ c.toNat && c.toNat ≤ 57

/-- Value of a decimal digit character. -/
def digitVal (c : Char) : Nat := c.toNat - 48

/-- The character of a decimal digit. -/
def digitChar : Nat → Char
  | 0 => '0' | 1 => '1' | 2 => '2' | 3 => '3' | 4 => '4'
  | 5 => '5' | 6 => '6' | 7 => '7' | 8 => '8' | _ => '9'

/-- Decimal digits of `n`, least significant first; `fuel` bounds the number of digits. -/
def natDigitsRev : Nat → Nat → List Char
  | 0, _ => []
  | fuel + 1, n =>
    if n < 10 then [digitChar n]
    else digitChar (n % 10) :: natDigitsRev fuel (n / 10)

/-- Decimal form of a natural number (Go `strconv.FormatUint(n, 10)`). -/
def formatNat (n : Nat) : String := ⟨(natDigitsRev (n + 1) n).reverse⟩

/-- Decimal form of an integer (Go `fmt.Sprintf("%d", i)`). -/
def formatInt : Int → String
  | Int.ofNat n => formatNat n
  | Int.negSucc n => "-" ++ formatNat (n + 1)

/-- Go `strconv.NumError`. -/
structure NumError where
  Func : String
  Num : String
  Err : String
  deriving DecidableEq, Repr

/-- The digit loop of Go `strconv.ParseUint(s, 10, bitSize)` with `maxVal = 2^bitSize - 1`:
a character that is not a decimal digit is a syntax error, and a range error is raised as
soon as the accumulated value leaves the 64 bits of the accumulator or exceeds `maxVal`. -/
def parseUintLoop (maxVal : Nat) : List Char → Nat → Except String Nat
  | [], n => .ok n
  | c :: cs, n =>
    if !isDigit c then .error "invalid syntax"
    else if (2 ^ 64 - 1) / 10 + 1 ≤ n then .error "value out of range"
    else if maxVal < n * 10 + digitVal c then .error "value out of range"
    else parseUintLoop maxVal cs (n * 10 + digitVal c)

/-- Go `strconv.ParseInt(s, 10, bitSize)`: an optional sign and decimal digits,
with a range error outside `[-2^(bitSize-1), 2^(bitSize-1) - 1]`. -/
def ParseInt (s : String) (bitSize : Nat) : Except NumError Int :=
  let syntaxErr : NumError := ⟨"ParseInt", s, "invalid syntax"⟩
  let rangeErr : NumError := ⟨"ParseInt", s, "value out of range"⟩
  match s.data with
  | [] => .error syntaxErr
  | c :: cs =>
    let neg := decide (c = '-')
    let ds := if c = '+' ∨ c = '-' then cs else c :: cs
    match ds with
    | [] => .error syntaxErr
    | d :: ds1 =>
      let maxVal := 2 ^ bitSize - 1
      let cutoff := 2 ^ (bitSize - 1)
      -- on a range error of the digit loop the unsigned value is `maxVal`
      let un : Except String Nat :=
        match parseUintLoop maxVal (d :: ds1) 0 with
        | .ok un => .ok un
        | .error e => if e = "value out of range" then .ok maxVal else .error e
      match un with
      | .error _ => .error syntaxErr
      | .ok un =>
        if !neg && cutoff ≤ un then .error rangeErr
        else if neg && cutoff < un then .error rangeErr
        else .ok (if neg then -(un : Int) else (un : Int))

/-! ## Values -/

/-- A Go `float64`, as its IEEE-754 binary64 bit pattern. -/
structure Float64 where
  bits : Nat
  deriving DecidableEq, Repr

namespace Float64

/-- The value `float64(0)`. -/
def zero : Float64 := ⟨0⟩

/-- NaN: exponent all ones, mantissa non-zero. -/
def isNaN (x : Float64) : Bool :=
  (x.bits / 2 ^ 52) % 2 ^ 11 = 2047 && x.bits % 2 ^ 52 ≠ 0

/-- Order-preserving integer key of a non-NaN pattern (both zeros map to 0). -/
def key (x : Float64) : Int :=
  if (x.bits / 2 ^ 63) % 2 = 1 then -((x.bits % 2 ^ 63 : Nat) : Int)
  else ((x.bits % 2 ^ 63 : Nat) : Int)

/-- Go `a < b` on `float64`. -/
def lt (a b : Float64) : Bool := !a.isNaN && !b.isNaN && decide (a.key < b.key)

end Float64

/-- A Go `time.Time` (wall and monotonic-free extension words, location name). -/
structure Time where
  wall : Nat
  ext : Int
  loc : Option String
  deriving DecidableEq, Repr

/-- The zero value `time.Time{}`. -/
def Time.zero : Time := ⟨0, 0, none⟩

/-- The `interface{}` values that flow from converters to validators. -/
inductive Value where
  | nil
  | bool (b : Bool)
  | int (i : Int)
  | int64 (i : Int)
  | float64 (f : Float64)
  | string (s : String)
  | time (t : Time)
  | other (goType : String) (repr : String)
  deriving DecidableEq, Repr

/-- What `%T` prints for a value. -/
def Value.typeName : Value → String
  | .nil => "<nil>"
  | .bool _ => "bool"
  | .int _ => "int"
  | .int64 _ => "int64"
  | .float64 _ => "float64"
  | .string _ => "string"
  | .time _ => "time.Time"
  | .other t _ => t

/-- A Go `error`, by its message. -/
structure GoError where
  msg : String
  deriving DecidableEq, Repr

/-- `MultiError` is a type of error that contains a slice of errors. -/
structure MultiError where
  Errors : List GoError
  deriving DecidableEq, Repr

/-- `MultiError.Error`: the messages joined with a newline. -/
def MultiError.Error (e : MultiError) : String :=
  Join (e.Errors.map (fun err => err.msg)) "\n"

/-! ## FormSpec -/

/-- A compiled `*regexp.Regexp`, by its source expression. -/
structure Regexp where
  expr : String
  deriving DecidableEq, Repr

/-- A validator function value `func(*FormSpec, interface{}) error`:
one of the four standard validators, or a caller-supplied one (by name). -/
inductive ValidatorFn where
  | stringValidator
  | intValidator
  | int64Validator
  | floatValidator
  | custom (name : String)
  deriving DecidableEq, Repr

/-- `FormSpec` defines a single specification item for validating a form value. -/
structure FormSpec where
  Key : String
  /-- The field `Type` of the source (a reserved word here). -/
  Typ : String
  Required : Bool
  Limit : String
  Name : String
  Validator : Option ValidatorFn
  limitLength : Int
  limitRangeInt : List Int
  limitRangeFloat : List Float64
  limitListString : List String
  limitListInt : List Int
  limitRegexp : Option Regexp
  deriving DecidableEq, Repr

/-- The struct literal `&FormSpec{Key, Type, Required, Limit, Name}`: every other field zero. -/
def FormSpec.literal (key typ : String) (required : Bool) (limit name : String) : FormSpec :=
  { Key := key, Typ := typ, Required := required, Limit := limit, Name := name,
    Validator := none, limitLength := 0, limitRangeInt := [], limitRangeFloat := [],
    limitListString := [], limitListInt := [], limitRegexp := none }

/-- Package-level variables and the library functions the package calls. -/
structure Env where
  /-- `DecodeFormTrimSpace`. -/
  DecodeFormTrimSpace : Bool
  /-- `GlyphLength` (utils.go): the number of NFKD segments `norm.Iter` yields. -/
  GlyphLength : String → Nat
  /-- `time.ParseInLocation(layout, value, FormValueTimeLocation)`. -/
  ParseInLocation : String → String → Option Time
  /-- `strconv.ParseFloat(s, 64)`, with the error text on failure. -/
  ParseFloat : String → Except String Float64
  /-- `regexp.Compile`, with the error text on failure. -/
  regexpCompile : String → Except String Regexp
  /-- `(*regexp.Regexp).MatchString`. -/
  MatchString : Regexp → String → Bool
  /-- `strconv.Quote`. -/
  Quote : String → String
  /-- Caller-supplied validators, by name. -/
  customValidator : String → FormSpec → Value → Option GoError
  /-- `json.Marshal` of the value map. -/
  jsonMarshal : List (String × Value) → Except String String

/-- `(*strconv.NumError).Error`. -/
def NumError.Error (env : Env) (e : NumError) : String :=
  "strconv." ++ e.Func ++ ": parsing " ++ env.Quote e.Num ++ ": " ++ e.Err

/-! ## The limit patterns -/

/-- The pattern `formSpecLimitMatchLength`, `^[1-9][0-9]*$`. -/
def formSpecLimitMatchLength (s : String) : Bool :=
  match s.data with
  | [] => false
  | c :: cs => (49 ≤ c.toNat && c.toNat ≤ 57) && cs.all isDigit

/-- The pattern `formSpecLimitMatchRangeInt`, `^([0-9]+)-([0-9]+)$`:
the two submatches when the string matches. -/
def formSpecLimitMatchRangeInt (s : String) : Option (String × String) :=
  match s.data.span (fun c => c ≠ '-') with
  | (_, []) => none
  | (a, _ :: b) =>
    if !a.isEmpty && a.all isDigit && !b.isEmpty && b.all isDigit
    then some (⟨a⟩, ⟨b⟩) else none

/-- The fragment `[0-9]*[.][0-9]+` of the float range pattern. -/
def matchFloatLiteral (cs : List Char) : Bool :=
  match cs.span (fun c => c ≠ '.') with
  | (_, []) => false
  | (a, _ :: b) => a.all isDigit && !b.isEmpty && b.all isDigit

/-- The pattern `formSpecLimitMatchRangeFloat`,
`^([0-9]*[.][0-9]+)-([0-9]*[.][0-9]+)$`: the two submatches when the string matches. -/
def formSpecLimitMatchRangeFloat (s : String) : Option (String × String) :=
  match s.data.span (fun c => c ≠ '-') with
  | (_, []) => none
  | (a, _ :: b) =>
    if matchFloatLiteral a && matchFloatLiteral b then some (⟨a⟩, ⟨b⟩) else none

/-- The loop over `vals` in `initLimit` that parses each entry as a 64-bit integer. -/
def parseIntList (env : Env) : List String → Except String (List Int)
  | [] => .ok []
  | s :: rest =>
    match ParseInt s 64 with
    | .error e => .error ("Bad integer in list: " ++ e.Error env)
    | .ok i =>
      match parseIntList env rest with
      | .error p => .error p
      | .ok ints => .ok (i :: ints)

/-- `(*FormSpec).initLimit`: parse `Limit` into the helper fields; `.error` is a panic. -/
def FormSpec.initLimit (env : Env) (fs : FormSpec) : Except String FormSpec :=
  let val := fs.Limit
  if val = "" then .ok fs
  -- Regexp limit:
  else if HasPrefix val "re:" then
    match env.regexpCompile (TrimPrefix val "re:") with
    | .error e => .error ("Error compiling limit regexp: " ++ e)
    | .ok re => .ok { fs with limitRegexp := some re }
  -- Length limit:
  else if formSpecLimitMatchLength val then
    if fs.Typ ≠ "string" ∧ fs.Typ ≠ "int" ∧ fs.Typ ≠ "int64" then
      .error ("Length limit does not apply to " ++ fs.Typ)
    else
      match ParseInt val 32 with
      | .error e => .error ("Error parsing int for length limit: " ++ e.Error env)
      | .ok i => .ok { fs with limitLength := i }
  else
    -- Range limit (numeric or for strings, length) as integers:
    match formSpecLimitMatchRangeInt val with
    | some (m1, m2) =>
      let bits := if fs.Typ = "int64" ∨ fs.Typ = "float" then 64 else 32
      match ParseInt m1 bits with
      | .error e => .error ("Error parsing int for range limit: " ++ e.Error env)
      | .ok lower =>
        match ParseInt m2 bits with
        | .error e => .error ("Error parsing int for range limit: " ++ e.Error env)
        | .ok upper =>
          if upper < lower then .error "Bad range limit: upper < lower."
          else .ok { fs with limitRangeInt := [lower, upper] }
    | none =>
      -- Range limit as floats (only for float values):
      match formSpecLimitMatchRangeFloat val with
      | some (m1, m2) =>
        if fs.Typ ≠ "float" then
          .error ("Float limit requires float type, not " ++ fs.Typ)
        else
          match env.ParseFloat m1 with
          | .error e => .error ("Error parsing float for range limit: " ++ e)
          | .ok lower =>
            match env.ParseFloat m2 with
            | .error e => .error ("Error parsing float for range limit: " ++ e)
            | .ok upper =>
              if Float64.lt upper lower then .error "Bad range limit: upper < lower."
              else .ok { fs with limitRangeFloat := [lower, upper] }
      | none =>
        -- Set of strings limit:
        let vals := Split val ','
        if vals.length > 0 then
          if fs.Typ = "string" then .ok { fs with limitListString := vals }
          else if fs.Typ = "int" ∨ fs.Typ = "int64" then
            -- the parsed `ints` are not stored in the spec
            match parseIntList env vals with
            | .error p => .error p
            | .ok _ => .ok fs
          else .error ("Value list not compatible with type " ++ fs.Typ)
        else .error ("Unknown limit: " ++ val)

/-! ## Validators -/

/-- The standard validator of type `string`. -/
def stringValidator (env : Env) (fs : FormSpec) (v : Value) : Option GoError :=
  match v with
  | .string s =>
    let slen : Int := (env.GlyphLength s : Int)
    if fs.limitLength > 0 ∧ slen ≠ fs.limitLength then
      some ⟨fs.Name ++ " has the wrong length."⟩
    else
      let rangeErr : Option GoError :=
        match fs.limitRangeInt with
        | [lo, hi] =>
          if slen < lo then some ⟨fs.Name ++ " is too short."⟩
          else if slen > hi then some ⟨fs.Name ++ " is too long."⟩
          else none
        | _ => none
      match rangeErr with
      | some e => some e
      | none =>
        let reFails : Bool :=
          match fs.limitRegexp with
          | some re => !env.MatchString re s
          | none => false
        if reFails then some ⟨fs.Name ++ " has the wrong format."⟩
        else if fs.limitListString.length > 0 ∧
            !fs.limitListString.any (fun item => decide (s = item)) then
          some ⟨fs.Name ++ " has the wrong value."⟩
        else none
  | _ => some ⟨fs.Name ++ " (" ++ v.typeName ++ ") is not a string."⟩

/-- The standard validator of type `int64` (also the tail of `intValidator`). -/
def int64Validator (fs : FormSpec) (v : Value) : Option GoError :=
  let io : Int × Bool := match v with
    | .int64 i => (i, true)
    | _ => (0, false)
  let i := io.1
  let ok := io.2
  if !ok ∧ fs.Typ = "int" then
    some ⟨fs.Name ++ " (" ++ v.typeName ++ ") is not a 64-bit integer."⟩
  else if fs.limitLength > 0 ∧ ((formatInt i).length : Int) ≠ fs.limitLength then
    some ⟨fs.Name ++ " has the wrong length."⟩
  else
    let rangeErr : Option GoError :=
      match fs.limitRangeInt with
      | [lo, hi] =>
        if i < lo then some ⟨fs.Name ++ " is too low."⟩
        else if i > hi then some ⟨fs.Name ++ " is too high."⟩
        else none
      | _ => none
    match rangeErr with
    | some e => some e
    | none =>
      if fs.limitListInt.length > 0 ∧ !fs.limitListInt.any (fun item => decide (i = item)) then
        some ⟨fs.Name ++ " has the wrong value."⟩
      else none

/-- The standard validator of type `int`: everything after the type assertion is
`int64Validator` (the statements after that `return` are never reached). -/
def intValidator (fs : FormSpec) (v : Value) : Option GoError :=
  let io : Int × Bool := match v with
    | .int i => (i, true)
    | _ => (0, false)
  let i := io.1
  let ok := io.2
  if !ok ∧ fs.Typ = "int" then
    some ⟨fs.Name ++ " (" ++ v.typeName ++ ") is not an integer."⟩
  else int64Validator fs (.int64 i)

/-- The standard validator of type `float`. -/
def floatValidator (fs : FormSpec) (v : Value) : Option GoError :=
  match v with
  | .float64 f =>
    match fs.limitRangeFloat with
    | [lo, hi] =>
      if Float64.lt f lo then some ⟨fs.Name ++ " is too low."⟩
      else if Float64.lt hi f then some ⟨fs.Name ++ " is too high."⟩
      else none
    | _ => none
  | _ => some ⟨fs.Name ++ " is not a 64-bit floating point number, but a " ++ v.typeName ++ "."⟩

/-- Calling a validator function value `vf(fs, v)`. -/
def ValidatorFn.call (env : Env) : ValidatorFn → FormSpec → Value → Option GoError
  | .stringValidator, fs, v => Vebben.stringValidator env fs v
  | .intValidator, fs, v => Vebben.intValidator fs v
  | .int64Validator, fs, v => Vebben.int64Validator fs v
  | .floatValidator, fs, v => Vebben.floatValidator fs v
  | .custom name, fs, v => env.customValidator name fs v

/-! ## Converters -/

/-- `DateFormats` holds the date formats accepted in forms. -/
def DateFormats : List String :=
  ["2006. 01. 02.", "2006. 01. 02", "2006. 1. 2.", "2006. 1. 2",
   "2006.01.02.", "2006.01.02", "2006.1.2.", "2006.1.2",
   "2006-01-02", "2006-1-2", "2006 01 02", "2006 1 2", "20060102",
   "02.01.2006", "2.1.2006", "01/02/2006", "1/2/2006"]

/-- `DateTimeFormats` holds the datetime formats accepted in forms. -/
def DateTimeFormats : List String :=
  ["2006. 01. 02. 15:04", "2006. 01. 02 15:04", "2006. 1. 2. 15:04", "2006. 1. 2 15:04",
   "2006.01.02. 15:04", "2006.01.02 15:04", "2006.1.2. 15:04", "2006.1.2 15:04",
   "2006-01-02 15:04", "2006-1-2 15:04", "2006 01 02 15:04", "2006 1 2 15:04",
   "20060102150405", "02.01.2006 15:04", "2.1.2006 15:04",
   "01/02/2006 15:04", "1/2/2006 15:04"]

/-- The loop `for _, layout := range layouts`: the parse under the first layout that parses. -/
def parseLayouts (env : Env) : List String → String → Option Time
  | [], _ => none
  | layout :: rest, raw =>
    match env.ParseInLocation layout raw with
    | some d => some d
    | none => parseLayouts env rest raw

/-- Converter of type `bool`. -/
def boolConverter (raw : String) : Value × Bool :=
  if raw = "true" then (.bool true, true)
  else if raw = "false" ∨ raw = "" then (.bool false, true)
  else (.nil, false)

/-- Converter of type `string`. -/
def stringConverter (raw : String) : Value × Bool := (.string raw, true)

/-- Converter of type `int`. -/
def intConverter (raw : String) : Value × Bool :=
  if raw = "" then (.int 0, true)
  else
    match ParseInt raw 32 with
    | .error _ => (.nil, false)
    | .ok i64 => (.int i64, true)

/-- Converter of type `int64`. -/
def int64Converter (raw : String) : Value × Bool :=
  if raw = "" then (.int64 0, true)
  else
    match ParseInt raw 64 with
    | .error _ => (.nil, false)
    | .ok i64 => (.int64 i64, true)

/-- Converter of type `float`. -/
def floatConverter (env : Env) (raw : String) : Value × Bool :=
  if raw = "" then (.float64 Float64.zero, true)
  else
    match env.ParseFloat raw with
    | .error _ => (.nil, false)
    | .ok f => (.float64 f, true)

/-- Converter of type `date`. -/
def dateConverter (env : Env) (raw : String) : Value × Bool :=
  if raw = "" then (.time Time.zero, true)
  else
    match parseLayouts env DateFormats raw with
    | some d => (.time d, true)
    | none => (.nil, false)

/-- Converter of type `dateflex`. -/
def dateFlexConverter (env : Env) (raw : String) : Value × Bool :=
  if raw = "" then (.time Time.zero, true)
  else
    match parseLayouts env DateFormats raw with
    | some d => (.time d, true)
    | none =>
      match parseLayouts env DateTimeFormats raw with
      | some d => (.time d, true)
      | none => (.nil, false)

/-- Converter of type `datetime`. -/
def dateTimeConverter (env : Env) (raw : String) : Value × Bool :=
  if raw = "" then (.time Time.zero, true)
  else
    match parseLayouts env DateTimeFormats raw with
    | some d => (.time d, true)
    | none => (.nil, false)

/-! ## The type registry -/

/-- An entry of the type registry. -/
structure formSpecType where
  converter : String → Value × Bool
  validator : Option ValidatorFn
  custom : Bool

/-- The registry `map[string]*formSpecType`; `none` is the nil entry of an absent key. -/
abbrev Registry := String → Option formSpecType

/-- The initial value of `formSpecTypeMap`. -/
def formSpecTypeMap (env : Env) : Registry := fun t =>
  if t = "bool" then some ⟨boolConverter, none, false⟩
  else if t = "date" then some ⟨dateConverter env, none, false⟩
  else if t = "dateflex" then some ⟨dateFlexConverter env, none, false⟩
  else if t = "datetime" then some ⟨dateTimeConverter env, none, false⟩
  else if t = "float" then some ⟨floatConverter env, some .floatValidator, false⟩
  else if t = "int" then some ⟨intConverter, some .intValidator, false⟩
  else if t = "int64" then some ⟨int64Converter, some .int64Validator, false⟩
  else if t = "string" then some ⟨stringConverter, some .stringValidator, false⟩
  else none

/-- `AddFormSpecType` adds or replaces type `t` with converter `cf` and validator `vf`. -/
def AddFormSpecType (reg : Registry) (t : String) (cf : String → Value × Bool)
    (vf : Option ValidatorFn) : Registry := fun k =>
  if k = t then some ⟨cf, vf, true⟩ else reg k

/-- `(*FormSpec).Init`: `.error` is a panic with that message. -/
def FormSpec.Init (env : Env) (reg : Registry) (fs : FormSpec) : Except String FormSpec :=
  match reg fs.Typ with
  | none => .error ("Unsupported FormSpec type: " ++ fs.Typ)
  | some t =>
    -- Parse the Limit only for standard types.
    match (if !t.custom then fs.initLimit env else .ok fs) with
    | .error p => .error p
    | .ok fs1 =>
      if fs1.Validator = none then .ok { fs1 with Validator := t.validator }
      else .ok fs1

/-- `(*FormSpec).Convert`: the pair `(value, error)`; `.error` is the panic of
dereferencing the nil registry entry of an unregistered type. -/
def FormSpec.Convert (reg : Registry) (fs : FormSpec) (raw : String) :
    Except String (Value × Option GoError) :=
  match reg fs.Typ with
  | none => .error "runtime error: invalid memory address or nil pointer dereference"
  | some t =>
    let r := t.converter raw
    if !r.2 then
      .ok (.nil, some ⟨fs.Name ++ " could not be converted to " ++ fs.Typ ++ "."⟩)
    else .ok (r.1, none)

/-- `(*FormSpec).Copy` returns a copy of the FormSpec with a new Key and Name; `Init` is
not called on the new object.  `.error` is a panic with that message. -/
def FormSpec.Copy (fs : FormSpec) (key name : String) : Except String FormSpec :=
  let key := TrimSpace key
  if key = "" then .error "Empty FormSpec key."
  else
    let name := TrimSpace name
    let name := if name = "" then key else name
    .ok { Key := key
          Typ := fs.Typ
          Required := fs.Required
          Limit := fs.Limit
          Name := name
          Validator := fs.Validator
          -- And:
          limitLength := fs.limitLength
          limitRangeInt := fs.limitRangeInt
          limitRangeFloat := fs.limitRangeFloat
          limitListString := fs.limitListString
          limitListInt := fs.limitListInt
          limitRegexp := fs.limitRegexp }

/-! ## DecodeForm -/

/-- The assignment `values[k] = v` on the map `values`. -/
def mapSet (values : List (String × Value)) (k : String) (v : Value) :
    List (String × Value) :=
  values.filter (fun p => p.1 ≠ k) ++ [(k, v)]

/-- The lookup `values[k]`. -/
def mapGet (values : List (String × Value)) (k : String) : Option Value :=
  (values.find? (fun p => p.1 = k)).map (fun p => p.2)

/-- How a call of `DecodeForm` ends: a panic, or a return with the returned error
(`none` is nil) and the state of the target. -/
inductive Outcome (σ : Type) where
  | panic (msg : String)
  | returned (err : Option MultiError) (target : σ)
  deriving DecidableEq

/-- The loop `for _, spec := range specs` of `DecodeForm`, threading `errors` and `values`. -/
def decodeLoop (env : Env) (reg : Registry) (f : String → String) :
    List FormSpec → List GoError → List (String × Value) →
    Except String (List GoError × List (String × Value))
  | [], errors, values => .ok (errors, values)
  | spec :: rest, errors, values =>
    let input := f spec.Key
    let input := if env.DecodeFormTrimSpace then TrimSpace input else input
    if spec.Required ∧ input = "" then
      decodeLoop env reg f rest (errors ++ [⟨spec.Name ++ " is required."⟩]) values
    else
      -- Convert and validate!
      match spec.Convert reg input with
      | .error p => .error p
      | .ok (_, some err) => decodeLoop env reg f rest (errors ++ [err]) values
      | .ok (val, none) =>
        match spec.Validator with
        | some vf =>
          match vf.call env spec val with
          | some err => decodeLoop env reg f rest (errors ++ [err]) values
          | none => decodeLoop env reg f rest errors (mapSet values spec.Key val)
        | none => decodeLoop env reg f rest errors (mapSet values spec.Key val)

/-- The tail of `DecodeForm` once no error was recorded: the JSON round trip of
`values` into the target (`unmarshal` is `json.Unmarshal` into the target). -/
def transfer {σ : Type} (env : Env) (unmarshal : String → σ → Except String σ)
    (values : List (String × Value)) (target : σ) : Outcome σ :=
  match env.jsonMarshal values with
  | .error e => .panic ("Could not marshal values to JSON: " ++ e)
  | .ok jsonB =>
    match unmarshal jsonB target with
    | .error e => .panic ("Could not unmarshal JSON string: " ++ e)
    | .ok target1 => .returned none target1

/-- `DecodeForm` populates the target from the values of a submitted form. -/
def DecodeForm {σ : Type} (env : Env) (reg : Registry)
    (unmarshal : String → σ → Except String σ)
    (f : String → String) (specs : List FormSpec) (target : σ) : Outcome σ :=
  match decodeLoop env reg f specs [] [] with
  | .error p => .panic p
  | .ok (errors, values) =>
    if errors.length > 0 then .returned (some ⟨errors⟩) target
    else transfer env unmarshal values target

/-- `NewFormSpec` returns an initialized `FormSpec` whose `Required` is `r`;
`limitAndName` are the variadic arguments. -/
def NewFormSpec (env : Env) (reg : Registry) (r : Bool) (k t : String)
    (limitAndName : List String) : Except String FormSpec :=
  let k := TrimSpace k
  if k = "" then .error "key may not be empty"
  else if limitAndName.length > 2 then .error "too many args"
  else
    let l := match limitAndName with
      | l :: _ => l
      | [] => ""
    let n := match limitAndName with
      | [_, n] => n
      | _ => k
    (FormSpec.literal k t r l n).Init env reg

/-- `OptionalFormSpec`: `NewFormSpec` with `Required` false. -/
def OptionalFormSpec (env : Env) (reg : Registry) (k t : String)
    (limitAndName : List String) : Except String FormSpec :=
  NewFormSpec env reg false k t limitAndName

/-- `RequiredFormSpec`: `NewFormSpec` with `Required` true. -/
def RequiredFormSpec (env : Env) (reg : Registry) (k t : String)
    (limitAndName : List String) : Except String FormSpec :=
  NewFormSpec env reg true k t limitAndName

/-! ## Template helpers (funcmap.go) -/

/-- A Go `int` after an arithmetic step: the 64-bit two's complement wrap-around. -/
def wrapInt (x : Int) : Int := (x + 2 ^ 63) % 2 ^ 64 - 2 ^ 63

/-- The loop `for i := a; i <= b; i++` of `IntRange`, appending to `r`; `none` when the
fuel runs out before the loop condition fails. -/
def intRangeUp (b : Int) : Nat → Int → List Int → Option (List Int)
  | 0, _, _ => none
  | fuel + 1, i, r =>
    if i ≤ b then intRangeUp b fuel (wrapInt (i + 1)) (r ++ [i]) else some r

/-- The loop `for i := a; i >= b; i--` of `IntRange`, appending to `r`; `none` when the
fuel runs out before the loop condition fails. -/
def intRangeDown (b : Int) : Nat → Int → List Int → Option (List Int)
  | 0, _, _ => none
  | fuel + 1, i, r =>
    if i ≥ b then intRangeDown b fuel (wrapInt (i - 1)) (r ++ [i]) else some r

/-- `IntRange` returns an integer slice containing the range from a to b inclusive;
`fuel` bounds the number of loop tests. -/
def IntRange (fuel : Nat) (a b : Int) : Option (List Int) :=
  if a = b then some [a]
  else if b > a then intRangeUp b fuel a []
  else intRangeDown b fuel a []

/-- `TruncIntsTo` returns a slice of the input slice with a maximum of `t` elements. -/
def TruncIntsTo (t : Int) (i : List Int) : List Int :=
  let t := if t < 0 then t + (i.length : Int) else t
  if i.length = 0 ∨ t ≤ 0 then []
  else if (i.length : Int) ≤ t then i
  else i.take t.toNat

/-! ## Specification-side notions -/

/-- The raw value of a field as the decode pass sees it: fetched by key and,
under the trim policy, trimmed. -/
def fieldInput (env : Env) (f : String → String) (spec : FormSpec) : String :=
  if env.DecodeFormTrimSpace then TrimSpace (f spec.Key) else f spec.Key

/-- The message of the error recorded for a missing required field. -/
def requiredError (spec : FormSpec) : GoError := ⟨spec.Name ++ " is required."⟩

/-- The value a field converts to: its type converter applied to its input. -/
def fieldValue (env : Env) (reg : Registry) (f : String → String) (spec : FormSpec) : Value :=
  match reg spec.Typ with
  | some t => (t.converter (fieldInput env f spec)).1
  | none => .nil

/-- The error a spec fails with, if it fails: a missing required value,
a conversion failure, or a validator rejection. -/
def fieldError (env : Env) (reg : Registry) (f : String → String) (spec : FormSpec) :
    Option GoError :=
  if spec.Required ∧ fieldInput env f spec = "" then some (requiredError spec)
  else
    match reg spec.Typ with
    | none => none
    | some t =>
      if (t.converter (fieldInput env f spec)).2 = false then
        some ⟨spec.Name ++ " could not be converted to " ++ spec.Typ ++ "."⟩
      else
        match spec.Validator with
        | some vf => vf.call env spec (t.converter (fieldInput env f spec)).1
        | none => none

/-- The keyed mapping of the passing specs: each passing spec, in list order,
stores its converted value under its key. -/
def stashAll (env : Env) (reg : Registry) (f : String → String) :
    List FormSpec → List (String × Value) → List (String × Value)
  | [], values => values
  | spec :: rest, values =>
    if fieldError env reg f spec = none then
      stashAll env reg f rest (mapSet values spec.Key (fieldValue env reg f spec))
    else stashAll env reg f rest values

/-- Value of a list of decimal digits, most significant first. -/
def digitsValue (cs : List Char) : Nat :=
  cs.foldl (fun acc c => acc * 10 + digitVal c) 0

/-- The validator call of the decode pass, `spec.Validator(spec, val)` when a validator is set. -/
def FormSpec.validate (env : Env) (fs : FormSpec) (v : Value) : Option GoError :=
  match fs.Validator with
  | some vf => vf.call env fs v
  | none => none

/-- An environment for plain ASCII input: a glyph is a character, no date, float
or pattern support is needed from the libraries. -/
def asciiEnv : Env :=
  { DecodeFormTrimSpace := true
    GlyphLength := fun s => s.length
    ParseInLocation := fun _ _ => none
    ParseFloat := fun _ => .error "invalid syntax"
    regexpCompile := fun e => .ok ⟨e⟩
    MatchString := fun _ _ => false
    Quote := fun s => "\"" ++ s ++ "\""
    customValidator := fun _ _ _ => none
    jsonMarshal := fun _ => .ok "" }

/-- A value source backed by a key/value list (the test suite's `TestFormValuer`). -/
def TestFormValuer (vmap : List (String × String)) : String → String := fun k =>
  match vmap.find? (fun p => p.1 = k) with
  | some p => p.2
  | none => ""

/-- The names of the built-in types, the keys of the initial `formSpecTypeMap`. -/
def builtinTypes : List String :=
  ["bool", "date", "dateflex", "datetime", "float", "int", "int64", "string"]

/-- The width `bits` that `initLimit` parses the bounds of an integer range with. -/
def rangeBits (typ : String) : Nat := if typ = "int64" ∨ typ = "float" then 64 else 32

/-- An optionally signed decimal integer: an optional `+` or `-` followed by one or more
decimal digits, with its value; `none` for any other text. -/
def decimalInteger (raw : String) : Option Int :=
  match raw.data with
  | [] => none
  | c :: cs =>
    if c = '-' then
      if cs ≠ [] ∧ cs.all isDigit = true then some (-(digitsValue cs : Int)) else none
    else if c = '+' then
      if cs ≠ [] ∧ cs.all isDigit = true then some (digitsValue cs : Int) else none
    else if (c :: cs).all isDigit = true then some (digitsValue (c :: cs) : Int)
    else none

/-- The number of derived constraints that are set in a spec. -/
def constraintCount (fs : FormSpec) : Nat :=
  (if fs.limitLength ≠ 0 then 1 else 0) + (if fs.limitRangeInt ≠ [] then 1 else 0) +
  (if fs.limitRangeFloat ≠ [] then 1 else 0) + (if fs.limitListString ≠ [] then 1 else 0) +
  (if fs.limitListInt ≠ [] then 1 else 0) + (if fs.limitRegexp ≠ none then 1 else 0)

/-- The string checks in their stated order, first failure winning: exact length, range,
pattern, set membership. -/
def stringChecks (env : Env) (fs : FormSpec) (s : String) : Option GoError :=
  if 0 < fs.limitLength ∧ (env.GlyphLength s : Int) ≠ fs.limitLength then
    some ⟨fs.Name ++ " has the wrong length."⟩
  else if fs.limitRangeInt.length = 2 ∧ (env.GlyphLength s : Int) < fs.limitRangeInt.getD 0 0 then
    some ⟨fs.Name ++ " is too short."⟩
  else if fs.limitRangeInt.length = 2 ∧ fs.limitRangeInt.getD 1 0 < (env.GlyphLength s : Int) then
    some ⟨fs.Name ++ " is too long."⟩
  else if ∃ re, fs.limitRegexp = some re ∧ env.MatchString re s = false then
    some ⟨fs.Name ++ " has the wrong format."⟩
  else if fs.limitListString ≠ [] ∧ s ∉ fs.limitListString then
    some ⟨fs.Name ++ " has the wrong value."⟩
  else none

/-- The number of characters of the decimal form of an integer: one per decimal digit of its
absolute value (one for 0), and one for the minus sign of a negative number. -/
def decimalWidth (v : Int) : Nat :=
  (if v < 0 then 1 else 0) + max 1 (Nat.digits 10 v.natAbs).length

/-- The integer checks in their stated order, first failure winning: exact length of the
decimal form (minus sign included), range, set membership. -/
def integerChecks (fs : FormSpec) (v : Int) : Option GoError :=
  if 0 < fs.limitLength ∧ ((decimalWidth v : Nat) : Int) ≠ fs.limitLength then
    some ⟨fs.Name ++ " has the wrong length."⟩
  else if fs.limitRangeInt.length = 2 ∧ v < fs.limitRangeInt.getD 0 0 then
    some ⟨fs.Name ++ " is too low."⟩
  else if fs.limitRangeInt.length = 2 ∧ fs.limitRangeInt.getD 1 0 < v then
    some ⟨fs.Name ++ " is too high."⟩
  else if fs.limitListInt ≠ [] ∧ v ∉ fs.limitListInt then
    some ⟨fs.Name ++ " has the wrong value."⟩
  else none

/-- The value source in which every value is replaced by its white-space-trimmed form. -/
def trimmedSource (f : String → String) : String → String := fun k => TrimSpace (f k)

/-! ## Data of the test suite -/

/-- The spec `RequiredFormSpec("foo", "string", "6", "Foo")` of `ExampleDecodeForm`. -/
def exampleFoo : FormSpec :=
  { FormSpec.literal "foo" "string" true "6" "Foo" with
    limitLength := 6, Validator := some .stringValidator }

/-- The spec `RequiredFormSpec("bar", "int", "0-100", "Bar Percentage")` of `ExampleDecodeForm`. -/
def exampleBar : FormSpec :=
  { FormSpec.literal "bar" "int" true "0-100" "Bar Percentage" with
    limitRangeInt := [0, 100], Validator := some .intValidator }

/-- The spec `RequiredFormSpec("foo", "string")` of `Test_DecodeForm_MissingRequired`. -/
def requiredFoo : FormSpec :=
  { FormSpec.literal "foo" "string" true "" "foo" with Validator := some .stringValidator }

/-- The spec `RequiredFormSpec("bar", "int")` of `Test_DecodeForm_MissingRequired`. -/
def requiredBar : FormSpec :=
  { FormSpec.literal "bar" "int" true "" "bar" with Validator := some .intValidator }

/-- Four of the specs of `Test_DecodeForm_Success`. -/
def successSpecs : List FormSpec :=
  [ { FormSpec.literal "req_bool" "bool" true "" "req_bool" with Validator := none },
    { FormSpec.literal "opt_int" "int" false "" "opt_int" with
      Validator := some .intValidator },
    { FormSpec.literal "req_int" "int" true "" "req_int" with
      Validator := some .intValidator },
    { FormSpec.literal "req_string" "string" true "" "req_string" with
      Validator := some .stringValidator } ]

/-- The form values of `Test_DecodeForm_Success` for those specs. -/
def successForm : String → String :=
  TestFormValuer [("req_bool", "true"), ("req_int", "23456"),
    ("req_string", "  another string\n\n\n"), ("ignoreme", "anything")]

/-- A target shape as a list of named fields, with a `json.Unmarshal` that stores the
marshalled text in the field `json`. -/
def storeJson (jsonB : String) (target : List (String × String)) :
    Except String (List (String × String)) :=
  .ok (("json", jsonB) :: target)

/-- An environment whose `time.ParseInLocation` knows the date and the datetime of
`Test_DecodeForm_Success` under the layouts that parse them: local times of the location
CET (`FormValueTimeLocation`), one hour ahead of UTC in February, as seconds since year 1. -/
def dateEnv : Env :=
  { asciiEnv with
    ParseInLocation := fun layout raw =>
      if layout = "2006.01.02" ∧ raw = "2017.02.25" then some ⟨0, 63623574000, some "CET"⟩
      else if layout = "2006.01.02 15:04" ∧ raw = "2017.02.27 16:30" then
        some ⟨0, 63623806200, some "CET"⟩
      else none }

/-- An environment whose `strconv.ParseFloat` reads "NaN" as the NaN of `math.NaN()`, as Go
does, and whose `json.Marshal` refuses a map holding a NaN, as Go does with its
`UnsupportedValueError`. -/
def nanEnv : Env :=
  { asciiEnv with
    ParseFloat := fun s =>
      if s = "NaN" then .ok ⟨0x7FF8000000000001⟩ else .error "invalid syntax"
    jsonMarshal := fun values =>
      if values.any (fun p =>
          match p.2 with
          | .float64 x => x.isNaN
          | _ => false) then .error "json: unsupported value: NaN"
      else .ok "" }

/-! ## The decode pass: auxiliary facts -/

/-- With every spec type registered, the loop ends with the incoming errors followed by
the failing specs' errors in list order, and with the passing specs' values stored. -/
theorem decodeLoop_eq (env : Env) (reg : Registry) (f : String → String) :
    ∀ (specs : List FormSpec) (errors : List GoError) (values : List (String × Value)),
      (∀ spec ∈ specs, (reg spec.Typ).isSome = true) →
      decodeLoop env reg f specs errors values =
        .ok (errors ++ specs.filterMap (fieldError env reg f), stashAll env reg f specs values)
  | [], errors, values, _ => by simp [decodeLoop, stashAll]
  | spec :: rest, errors, values, hreg => by
    have hrest : ∀ s ∈ rest, (reg s.Typ).isSome = true :=
      fun s hs => hreg s (List.mem_cons_of_mem _ hs)
    obtain ⟨t, ht⟩ := Option.isSome_iff_exists.mp (hreg spec (List.mem_cons_self _ _))
    have ih := fun e v => decodeLoop_eq env reg f rest e v hrest
    by_cases hreq : spec.Required = true ∧ fieldInput env f spec = ""
    · have hfe : fieldError env reg f spec = some (requiredError spec) := by
        simp [fieldError, hreq]
      have hreq2 := hreq
      unfold fieldInput at hreq2
      simp only [decodeLoop, hreq2, and_self, if_true, ih, List.filterMap_cons, hfe, stashAll,
        requiredError]
      simp
    · have hreq2 := hreq
      unfold fieldInput at hreq2
      have hin : (if env.DecodeFormTrimSpace = true then TrimSpace (f spec.Key) else f spec.Key)
          = fieldInput env f spec := rfl
      simp only [decodeLoop, hin]
      rw [if_neg hreq]
      simp only [FormSpec.Convert, ht]
      cases hok : (t.converter (fieldInput env f spec)).2
      · have hfe : fieldError env reg f spec =
            some ⟨spec.Name ++ " could not be converted to " ++ spec.Typ ++ "."⟩ := by
          unfold fieldError; rw [if_neg hreq]; simp [ht, hok]
        simp [ih, hfe, stashAll]
      · cases hv : spec.Validator with
        | none =>
          have hfe : fieldError env reg f spec = none := by
            unfold fieldError; rw [if_neg hreq]; simp [ht, hok, hv]
          simp [ih, hfe, stashAll, fieldValue, ht]
        | some vf =>
          cases hcall : vf.call env spec (t.converter (fieldInput env f spec)).1 with
          | none =>
            have hfe : fieldError env reg f spec = none := by
              unfold fieldError; rw [if_neg hreq]; simp [ht, hok, hv, hcall]
            simp [ih, hfe, stashAll, fieldValue, ht, hcall]
          | some err =>
            have hfe : fieldError env reg f spec = some err := by
              unfold fieldError; rw [if_neg hreq]; simp [ht, hok, hv, hcall]
            simp [ih, hfe, stashAll, hcall]

/-- Reading back the key just assigned. -/
theorem mapGet_mapSet_self (m : List (String × Value)) (k : String) (v : Value) :
    mapGet (mapSet m k v) k = some v := by
  unfold mapGet mapSet
  rw [List.find?_append]
  have h : List.find? (fun p => decide (p.1 = k)) (List.filter (fun p => decide (p.1 ≠ k)) m) = none := by
    rw [List.find?_eq_none]
    intro x hx
    simp at hx
    simp [hx.2]
  rw [h]
  simp

/-- Assigning one key leaves the other keys as they were. -/
theorem mapGet_mapSet_other (m : List (String × Value)) (k k' : String) (v : Value)
    (hk : k' ≠ k) : mapGet (mapSet m k v) k' = mapGet m k' := by
  unfold mapGet mapSet
  rw [List.find?_append]
  have h2 : List.find? (fun p => decide (p.1 = k')) [(k, v)] = none := by
    simp [List.find?, Ne.symm hk]
  rw [h2, Option.or_none]
  congr 1
  induction m with
  | nil => rfl
  | cons a m ih =>
    by_cases ha : a.1 = k
    · have hne : ¬ a.1 = k' := fun h => hk (h.symm.trans ha)
      rw [List.filter_cons_of_neg (by simpa using ha),
        List.find?_cons_of_neg _ (by simpa using hne)]
      exact ih
    · rw [List.filter_cons_of_pos (by simpa using ha)]
      by_cases hb : a.1 = k'
      · rw [List.find?_cons_of_pos _ (by simpa using hb),
          List.find?_cons_of_pos _ (by simpa using hb)]
      · rw [List.find?_cons_of_neg _ (by simpa using hb),
          List.find?_cons_of_neg _ (by simpa using hb)]
        exact ih

/-- When every spec passes, a key reads the converted value of the last spec with that key. -/
theorem mapGet_stashAll (env : Env) (reg : Registry) (f : String → String) :
    ∀ (specs : List FormSpec) (values : List (String × Value)),
      (∀ spec ∈ specs, fieldError env reg f spec = none) →
      ∀ k, mapGet (stashAll env reg f specs values) k =
        match specs.reverse.find? (fun s => decide (s.Key = k)) with
        | some s => some (fieldValue env reg f s)
        | none => mapGet values k
  | [], values, _, k => by simp [stashAll]
  | spec :: rest, values, hpass, k => by
    have hrest : ∀ s ∈ rest, fieldError env reg f s = none :=
      fun s hs => hpass s (List.mem_cons_of_mem _ hs)
    have hspec := hpass spec (List.mem_cons_self _ _)
    rw [stashAll, if_pos hspec, mapGet_stashAll env reg f rest _ hrest k,
      List.reverse_cons, List.find?_append]
    cases hfind : List.find? (fun s => decide (s.Key = k)) rest.reverse with
    | some s => simp
    | none =>
      by_cases hk : spec.Key = k
      · subst hk
        simp [mapGet_mapSet_self]
      · simp [hk, mapGet_mapSet_other _ _ _ _ (Ne.symm hk)]

/-- A key is present exactly when its lookup succeeds. -/
theorem mem_keys_iff_mapGet (m : List (String × Value)) (k : String) :
    k ∈ m.map Prod.fst ↔ (mapGet m k).isSome = true := by
  unfold mapGet
  simp [List.find?_isSome]

/-- The JSON round trip never returns an error: it returns nil or panics. -/
theorem transfer_ne_error {σ : Type} (env : Env) (unmarshal : String → σ → Except String σ)
    (values : List (String × Value)) (target : σ) (e : MultiError) (t' : σ) :
    transfer env unmarshal values target ≠ .returned (some e) t' := by
  unfold transfer
  cases env.jsonMarshal values with
  | error p => simp
  | ok jsonB =>
    cases hu : unmarshal jsonB target with
    | error p => simp [hu]
    | ok t1 => simp [hu]

/-- With every spec type registered, `DecodeForm` is the error aggregate of the failing
specs when there is one, and the JSON round trip of the stored values otherwise. -/
theorem DecodeForm_eq {σ : Type} (env : Env) (reg : Registry)
    (unmarshal : String → σ → Except String σ) (f : String → String)
    (specs : List FormSpec) (target : σ)
    (hreg : ∀ spec ∈ specs, (reg spec.Typ).isSome = true) :
    DecodeForm env reg unmarshal f specs target =
      if specs.filterMap (fieldError env reg f) = [] then
        transfer env unmarshal (stashAll env reg f specs []) target
      else .returned (some ⟨specs.filterMap (fieldError env reg f)⟩) target := by
  unfold DecodeForm
  rw [decodeLoop_eq env reg f specs [] [] hreg]
  simp only [List.nil_append]
  by_cases h : specs.filterMap (fieldError env reg f) = []
  · simp [h]
  · have hpos : (specs.filterMap (fieldError env reg f)).length > 0 :=
      List.length_pos.mpr h
    simp [h, hpos]

/-- Claim C1 (amended). With every spec of a registered type: if some spec fails, `DecodeForm`
returns the `MultiError` whose `Errors` are exactly the errors of the failing specs, one
each, in spec list order, and nothing for a passing spec; it returns nil only when no spec
fails; when no spec fails it never returns an error: it returns nil when the JSON round
trip goes through, and panics when `json.Marshal` or `json.Unmarshal` fails.  For required
specs whose values are all missing the errors are one "required" error per spec, and they
are what `DecodeForm` returns. -/
theorem DecodeForm_collects_all_errors {σ : Type} (env : Env) (reg : Registry)
    (unmarshal : String → σ → Except String σ) (f : String → String)
    (specs : List FormSpec) (target : σ)
    (hreg : ∀ spec ∈ specs, (reg spec.Typ).isSome = true) :
    ((∃ spec ∈ specs, fieldError env reg f spec ≠ none) →
      DecodeForm env reg unmarshal f specs target =
        .returned (some ⟨specs.filterMap (fieldError env reg f)⟩) target) ∧
    (∀ t', DecodeForm env reg unmarshal f specs target = .returned none t' →
      ∀ spec ∈ specs, fieldError env reg f spec = none) ∧
    ((∀ spec ∈ specs, fieldError env reg f spec = none) →
      (∀ e t', DecodeForm env reg unmarshal f specs target ≠ .returned (some e) t') ∧
      ∀ jsonB t', env.jsonMarshal (stashAll env reg f specs []) = .ok jsonB →
        unmarshal jsonB target = .ok t' →
        DecodeForm env reg unmarshal f specs target = .returned none t') ∧
    (specs.filterMap (fieldError env reg f)).length =
      (specs.filter (fun spec => (fieldError env reg f spec).isSome)).length ∧
    ((∀ spec ∈ specs, spec.Required = true ∧ fieldInput env f spec = "") →
      specs.filterMap (fieldError env reg f) = specs.map requiredError ∧
      (specs.filterMap (fieldError env reg f)).length = specs.length) ∧
    ((∀ spec ∈ specs, fieldError env reg f spec = none) →
      (∀ e, env.jsonMarshal (stashAll env reg f specs []) = .error e →
        DecodeForm env reg unmarshal f specs target =
          .panic ("Could not marshal values to JSON: " ++ e)) ∧
      (∀ jsonB e, env.jsonMarshal (stashAll env reg f specs []) = .ok jsonB →
        unmarshal jsonB target = .error e →
        DecodeForm env reg unmarshal f specs target =
          .panic ("Could not unmarshal JSON string: " ++ e))) ∧
    (specs ≠ [] → (∀ spec ∈ specs, spec.Required = true ∧ fieldInput env f spec = "") →
      DecodeForm env reg unmarshal f specs target =
        .returned (some ⟨specs.map requiredError⟩) target) := by
  have hD := DecodeForm_eq env reg unmarshal f specs target hreg
  have hnil : specs.filterMap (fieldError env reg f) = [] ↔
      ∀ spec ∈ specs, fieldError env reg f spec = none := by
    simp [List.filterMap_eq_nil_iff]
  have hmap : (∀ spec ∈ specs, spec.Required = true ∧ fieldInput env f spec = "") →
      specs.filterMap (fieldError env reg f) = specs.map requiredError := by
    intro hall
    clear hD hnil hreg
    induction specs with
    | nil => rfl
    | cons a l ih =>
      have ha := hall a (List.mem_cons_self _ _)
      have hfe : fieldError env reg f a = some (requiredError a) := by
        unfold fieldError
        rw [if_pos ha]
      rw [List.filterMap_cons, hfe, List.map_cons,
        ih (fun s hs => hall s (List.mem_cons_of_mem _ hs))]
  refine ⟨?_, ?_, ?_, ?_, ?_, ?_, ?_⟩
  · rintro ⟨spec, hmem, hne⟩
    have : ¬ specs.filterMap (fieldError env reg f) = [] := fun h => hne (hnil.mp h spec hmem)
    rw [hD, if_neg this]
  · intro t' ht'
    by_contra hcon
    have : ¬ specs.filterMap (fieldError env reg f) = [] := fun h => hcon (hnil.mp h)
    rw [hD, if_neg this] at ht'
    simp at ht'
  · intro hpass
    rw [hD, if_pos (hnil.mpr hpass)]
    refine ⟨fun e t' => transfer_ne_error env unmarshal _ target e t', ?_⟩
    intro jsonB t' hm hu
    simp [transfer, hm, hu]
  · clear hmap
    induction specs with
    | nil => rfl
    | cons a l ih =>
      have ih' := ih (fun s hs => hreg s (List.mem_cons_of_mem _ hs))
        (DecodeForm_eq env reg unmarshal f l target
          (fun s hs => hreg s (List.mem_cons_of_mem _ hs)))
        (by simp [List.filterMap_eq_nil_iff])
      cases h : fieldError env reg f a with
      | none => simp [List.filterMap_cons, List.filter_cons, h, ih']
      | some e => simp [List.filterMap_cons, List.filter_cons, h, ih']
  · intro hall
    exact ⟨hmap hall, by rw [hmap hall, List.length_map]⟩
  · intro hpass
    rw [hD, if_pos (hnil.mpr hpass)]
    constructor
    · intro e hm
      simp [transfer, hm]
    · intro jsonB e hm hu
      simp [transfer, hm, hu]
  · intro hne hall
    have hnot : ¬ specs.filterMap (fieldError env reg f) = [] := by
      rw [hmap hall]
      intro h
      exact hne (List.map_eq_nil_iff.mp h)
    rw [hD, if_neg hnot, hmap hall]

/-- The loop over a concatenation is the loop over the first part followed, from the state
it reached, by the loop over the second part. -/
theorem decodeLoop_append (env : Env) (reg : Registry) (f : String → String)
    (post : List FormSpec) :
    ∀ (pre : List FormSpec) (errors : List GoError) (values : List (String × Value)),
      decodeLoop env reg f (pre ++ post) errors values =
        match decodeLoop env reg f pre errors values with
        | .error p => .error p
        | .ok (errors1, values1) => decodeLoop env reg f post errors1 values1
  | [], errors, values => by simp [decodeLoop]
  | spec :: rest, errors, values => by
    have ih := decodeLoop_append env reg f post rest
    have hin : (if env.DecodeFormTrimSpace = true then TrimSpace (f spec.Key) else f spec.Key)
        = fieldInput env f spec := rfl
    simp only [List.cons_append, decodeLoop, hin]
    by_cases hreq : spec.Required = true ∧ fieldInput env f spec = ""
    · rw [if_pos hreq, if_pos hreq]
      exact ih _ _
    · rw [if_neg hreq, if_neg hreq]
      cases hc : spec.Convert reg (fieldInput env f spec) with
      | error p => rfl
      | ok r =>
        obtain ⟨val, oe⟩ := r
        cases oe with
        | some err => exact ih _ _
        | none =>
          cases hv : spec.Validator with
          | none => exact ih _ _
          | some vf =>
            cases hcall : vf.call env spec val with
            | none => simpa [hcall] using ih _ _
            | some err => simpa [hcall] using ih _ _

/-- Claim C2. When no spec fails (every spec of a registered type), the mapping the loop hands
to the JSON round trip has exactly the keys of the specs, and each key reads the value its
spec's type converter gives on the (trimmed) raw value fetched for that key; when several
specs share a key the last one is the one read. -/
theorem DecodeForm_values_mapping {σ : Type} (env : Env) (reg : Registry)
    (unmarshal : String → σ → Except String σ) (f : String → String)
    (specs : List FormSpec) (target : σ)
    (hreg : ∀ spec ∈ specs, (reg spec.Typ).isSome = true)
    (hpass : ∀ spec ∈ specs, fieldError env reg f spec = none) :
    ∃ values, decodeLoop env reg f specs [] [] = .ok ([], values) ∧
      DecodeForm env reg unmarshal f specs target = transfer env unmarshal values target ∧
      (∀ k, k ∈ values.map Prod.fst ↔ ∃ spec ∈ specs, spec.Key = k) ∧
      (∀ k, mapGet values k =
        (specs.reverse.find? (fun s => decide (s.Key = k))).map (fieldValue env reg f)) ∧
      (∀ spec ∈ specs, ∀ t, reg spec.Typ = some t →
        (∀ s ∈ specs, s.Key = spec.Key → s.Typ = spec.Typ) →
        mapGet values spec.Key = some (t.converter (fieldInput env f spec)).1) := by
  have hnil : specs.filterMap (fieldError env reg f) = [] := by
    simpa [List.filterMap_eq_nil_iff] using hpass
  have hget : ∀ k, mapGet (stashAll env reg f specs []) k =
      (specs.reverse.find? (fun s => decide (s.Key = k))).map (fieldValue env reg f) := by
    intro k
    rw [mapGet_stashAll env reg f specs [] hpass k]
    cases List.find? (fun s => decide (s.Key = k)) specs.reverse with
    | none => simp [mapGet]
    | some s => simp
  refine ⟨stashAll env reg f specs [], ?_, ?_, ?_, hget, ?_⟩
  · rw [decodeLoop_eq env reg f specs [] [] hreg, hnil]
    rfl
  · rw [DecodeForm_eq env reg unmarshal f specs target hreg, if_pos hnil]
  · intro k
    rw [mem_keys_iff_mapGet, hget k]
    simp [List.find?_isSome]
  · intro spec hmem t ht hsame
    rw [hget spec.Key]
    cases hfind : List.find? (fun s => decide (s.Key = spec.Key)) specs.reverse with
    | none =>
      rw [List.find?_eq_none] at hfind
      have := hfind spec (List.mem_reverse.mpr hmem)
      simp at this
    | some s =>
      have hkey : s.Key = spec.Key := by
        have := List.find?_some hfind
        simpa using this
      have hs : s ∈ specs := List.mem_reverse.mp (List.mem_of_find?_eq_some hfind)
      have htyp := hsame s hs hkey
      simp [fieldValue, fieldInput, htyp, hkey, ht]

/-- Claim C3. A required spec whose (trimmed) raw value is empty makes the loop record exactly
one error, the "required" error, and go on to the next spec with the values untouched,
whatever the registry holds for its type and whatever its validator is: neither a
conversion failure nor a validator result is recorded for it; this holds at every position
of the spec list. -/
theorem required_check_precedes_conversion (env : Env) (reg : Registry) (f : String → String)
    (spec : FormSpec) (pre post : List FormSpec) (errors : List GoError)
    (values : List (String × Value))
    (hreq : spec.Required = true) (hempty : fieldInput env f spec = "") :
    decodeLoop env reg f (spec :: post) errors values =
      decodeLoop env reg f post (errors ++ [⟨spec.Name ++ " is required."⟩]) values ∧
    decodeLoop env reg f (pre ++ spec :: post) errors values =
      (match decodeLoop env reg f pre errors values with
       | .error p => .error p
       | .ok (errors1, values1) =>
         decodeLoop env reg f post (errors1 ++ [⟨spec.Name ++ " is required."⟩]) values1) ∧
    fieldError env reg f spec = some ⟨spec.Name ++ " is required."⟩ := by
  have hstep : ∀ e v, decodeLoop env reg f (spec :: post) e v =
      decodeLoop env reg f post (e ++ [⟨spec.Name ++ " is required."⟩]) v := by
    intro e v
    have hin : (if env.DecodeFormTrimSpace = true then TrimSpace (f spec.Key) else f spec.Key)
        = fieldInput env f spec := rfl
    simp only [decodeLoop, hin]
    rw [if_pos ⟨hreq, hempty⟩]
  refine ⟨hstep errors values, ?_, ?_⟩
  · rw [decodeLoop_append]
    cases decodeLoop env reg f pre errors values with
    | error p => rfl
    | ok r => exact hstep r.1 r.2
  · unfold fieldError
    rw [if_pos ⟨hreq, hempty⟩]
    rfl

/-- Claim C4. Whenever `DecodeForm` returns a non-nil error, the target is what it was before
the call. -/
theorem DecodeForm_atomic_on_error {σ : Type} (env : Env) (reg : Registry)
    (unmarshal : String → σ → Except String σ) (f : String → String)
    (specs : List FormSpec) (target : σ) (e : MultiError) (target1 : σ)
    (h : DecodeForm env reg unmarshal f specs target = .returned (some e) target1) :
    target1 = target := by
  unfold DecodeForm at h
  cases hloop : decodeLoop env reg f specs [] [] with
  | error p => simp [hloop] at h
  | ok r =>
    obtain ⟨errors, values⟩ := r
    simp only [hloop] at h
    by_cases hlen : errors.length > 0
    · rw [if_pos hlen] at h
      injection h with _ h2
      exact h2.symm
    · rw [if_neg hlen] at h
      exact absurd h (transfer_ne_error env unmarshal values target e target1)

/-- Witness of C1 on the failing request of `ExampleDecodeForm`: `foo=bar` has the wrong
length and `bar` is missing; both errors are returned, in spec order. -/
theorem DecodeForm_collects_all_errors_witness :
    (∀ spec ∈ [exampleFoo, exampleBar], ((formSpecTypeMap asciiEnv) spec.Typ).isSome = true) ∧
    DecodeForm asciiEnv (formSpecTypeMap asciiEnv) storeJson (TestFormValuer [("foo", "bar")])
        [exampleFoo, exampleBar] [("foo", "old")] =
      .returned (some ⟨[⟨"Foo has the wrong length."⟩, ⟨"Bar Percentage is required."⟩]⟩)
        [("foo", "old")] :=
  ⟨by decide,
   (DecodeForm_collects_all_errors asciiEnv (formSpecTypeMap asciiEnv) storeJson
      (TestFormValuer [("foo", "bar")]) [exampleFoo, exampleBar] [("foo", "old")]
      (by decide)).1 ⟨exampleFoo, by decide, by decide⟩⟩

/-- Witness of C2 on specs and values of `Test_DecodeForm_Success`. -/
theorem DecodeForm_values_mapping_witness :
    (∀ spec ∈ successSpecs, fieldError asciiEnv (formSpecTypeMap asciiEnv) successForm spec = none) ∧
    ∃ values, decodeLoop asciiEnv (formSpecTypeMap asciiEnv) successForm successSpecs [] [] =
        .ok ([], values) ∧
      mapGet values "req_int" = some (.int 23456) ∧
      mapGet values "req_bool" = some (.bool true) ∧
      mapGet values "opt_int" = some (.int 0) ∧
      mapGet values "req_string" = some (.string "another string") ∧
      mapGet values "ignoreme" = none := by
  have hpass : ∀ spec ∈ successSpecs,
      fieldError asciiEnv (formSpecTypeMap asciiEnv) successForm spec = none := by decide
  obtain ⟨values, hloop, _, _, hget, _⟩ :=
    DecodeForm_values_mapping asciiEnv (formSpecTypeMap asciiEnv) storeJson successForm
      successSpecs [] (by decide) hpass
  refine ⟨hpass, values, hloop, ?_, ?_, ?_, ?_, ?_⟩ <;> rw [hget] <;> decide

/-- Witness of C3: a required field of an unregistered type with a whitespace-only value
is reported as required; no conversion is attempted. -/
theorem required_check_precedes_conversion_witness :
    decodeLoop asciiEnv (formSpecTypeMap asciiEnv) (TestFormValuer [("bar", " \t ")])
      [FormSpec.literal "bar" "NoSuchType" true "" "Bar"] [] [] =
      .ok ([⟨"Bar is required."⟩], []) :=
  (required_check_precedes_conversion asciiEnv (formSpecTypeMap asciiEnv)
    (TestFormValuer [("bar", " \t ")]) (FormSpec.literal "bar" "NoSuchType" true "" "Bar")
    [] [] [] [] (by decide) (by decide)).1

/-- Witness of C4: `foo` passes and `bar` is missing; the error is returned and the target
keeps its old field. -/
theorem DecodeForm_atomic_on_error_witness :
    DecodeForm asciiEnv (formSpecTypeMap asciiEnv) storeJson (TestFormValuer [("foo", "abc")])
        [requiredFoo, requiredBar] [("foo", "old")] =
      .returned (some ⟨[⟨"bar is required."⟩]⟩) [("foo", "old")] ∧
    [("foo", "old")] = [("foo", "old")] :=
  ⟨by decide,
   DecodeForm_atomic_on_error asciiEnv (formSpecTypeMap asciiEnv) storeJson
    (TestFormValuer [("foo", "abc")]) [requiredFoo, requiredBar] [("foo", "old")]
    ⟨[⟨"bar is required."⟩]⟩ [("foo", "old")] (by decide)⟩

/-! ## Error rendering and converters -/

/-- The accumulator of `String.intercalate` can be split off in front. -/
theorem intercalate_go_append (sep : String) :
    ∀ (l : List String) (acc0 acc : String),
      String.intercalate.go (acc0 ++ acc) sep l = acc0 ++ String.intercalate.go acc sep l
  | [], _, _ => rfl
  | a :: l, acc0, acc => by
    simp only [String.intercalate.go]
    rw [← intercalate_go_append sep l acc0 (acc ++ sep ++ a), String.append_assoc,
      String.append_assoc, String.append_assoc]

/-- Go `strings.Join` is the separator intercalated between the elements. -/
theorem Join_eq_intercalate (sep : String) : ∀ l : List String, Join l sep = sep.intercalate l
  | [] => rfl
  | [a] => rfl
  | a :: b :: rest => by
    have ih := Join_eq_intercalate sep (b :: rest)
    rw [Join, ih]
    simp only [String.intercalate, String.intercalate.go]
    rw [← intercalate_go_append]

/-- Claim C6. `MultiError.Error` is the messages of the errors, in order, with one newline
between consecutive messages: the empty string for no error, the message itself for one
error, and the first message, a newline and the rendering of the rest otherwise. -/
theorem MultiError_Error_joins_with_newline (errs : List GoError) :
    (MultiError.mk errs).Error = "\n".intercalate (errs.map (fun e => e.msg)) ∧
    (MultiError.mk []).Error = "" ∧
    (∀ e : GoError, (MultiError.mk [e]).Error = e.msg) ∧
    (∀ (e e1 : GoError) (rest : List GoError),
      (MultiError.mk (e :: e1 :: rest)).Error =
        e.msg ++ "\n" ++ (MultiError.mk (e1 :: rest)).Error) ∧
    ((MultiError.mk errs).Error.data =
      List.intercalate ['\n'] (errs.map (fun e => e.msg.data))) := by
  refine ⟨Join_eq_intercalate _ _, rfl, fun _ => rfl, fun _ _ _ => rfl, ?_⟩
  unfold MultiError.Error
  induction errs with
  | nil => rfl
  | cons e rest ih =>
    cases rest with
    | nil => simp [Join, List.intercalate]
    | cons e1 rest =>
      simp only [List.map_cons, Join, String.data_append] at ih ⊢
      rw [ih]
      simp [List.intercalate, List.intersperse]

/-- Claim C7. Every built-in type is registered with a converter that succeeds on the empty
string and returns the zero value of the type. -/
theorem builtin_converters_zero_on_empty (env : Env) :
    (∃ t, formSpecTypeMap env "bool" = some t ∧ t.converter "" = (.bool false, true)) ∧
    (∃ t, formSpecTypeMap env "date" = some t ∧ t.converter "" = (.time Time.zero, true)) ∧
    (∃ t, formSpecTypeMap env "dateflex" = some t ∧
      t.converter "" = (.time Time.zero, true)) ∧
    (∃ t, formSpecTypeMap env "datetime" = some t ∧
      t.converter "" = (.time Time.zero, true)) ∧
    (∃ t, formSpecTypeMap env "float" = some t ∧
      t.converter "" = (.float64 Float64.zero, true)) ∧
    (∃ t, formSpecTypeMap env "int" = some t ∧ t.converter "" = (.int 0, true)) ∧
    (∃ t, formSpecTypeMap env "int64" = some t ∧ t.converter "" = (.int64 0, true)) ∧
    (∃ t, formSpecTypeMap env "string" = some t ∧ t.converter "" = (.string "", true)) ∧
    (∀ fs : FormSpec, fs.Typ ∈ ["bool", "date", "dateflex", "datetime", "float", "int",
        "int64", "string"] →
      ∃ v, fs.Convert (formSpecTypeMap env) "" = .ok (v, none)) := by
  refine ⟨⟨_, rfl, rfl⟩, ⟨_, rfl, rfl⟩, ⟨_, rfl, rfl⟩, ⟨_, rfl, rfl⟩, ⟨_, rfl, rfl⟩,
    ⟨_, rfl, rfl⟩, ⟨_, rfl, rfl⟩, ⟨_, rfl, rfl⟩, ?_⟩
  intro fs hfs
  simp only [List.mem_cons, List.mem_singleton, List.not_mem_nil, or_false] at hfs
  rcases hfs with h | h | h | h | h | h | h | h <;>
    exact ⟨_, by simp [FormSpec.Convert, h, formSpecTypeMap, boolConverter, dateConverter,
      dateFlexConverter, dateTimeConverter, floatConverter, intConverter, int64Converter,
      stringConverter]; rfl⟩

/-- Claim C5 (evaluation). On `Test_DecodeForm_MissingRequired` the recorded messages end in a
full stop: the aggregate renders as "foo is required.\nbar is required.", not as the
"foo is required\nbar is required" the test expects. -/
theorem required_message_has_full_stop :
    RequiredFormSpec asciiEnv (formSpecTypeMap asciiEnv) "foo" "string" [] = .ok requiredFoo ∧
    RequiredFormSpec asciiEnv (formSpecTypeMap asciiEnv) "bar" "int" [] = .ok requiredBar ∧
    DecodeForm asciiEnv (formSpecTypeMap asciiEnv) storeJson (TestFormValuer [("nope", "that")])
        [requiredFoo, requiredBar] [] =
      .returned (some ⟨[⟨"foo is required."⟩, ⟨"bar is required."⟩]⟩) [] ∧
    (MultiError.mk [⟨"foo is required."⟩, ⟨"bar is required."⟩]).Error =
      "foo is required.\nbar is required." ∧
    (MultiError.mk [⟨"foo is required."⟩, ⟨"bar is required."⟩]).Error ≠
      "foo is required\nbar is required" := by
  decide

/-- Claim C10 (evaluation). A float spec with the integer-form range limit "1-10" stores the
range in `limitRangeInt` only, and the float validator, which reads `limitRangeFloat`,
accepts every float: 11.0 and 0.5 among them. -/
theorem float_validator_ignores_int_range (env : Env) (key name : String) (req : Bool) :
    ∃ fs, (FormSpec.literal key "float" req "1-10" name).Init env (formSpecTypeMap env) = .ok fs ∧
      fs.limitRangeInt = [1, 10] ∧ fs.limitRangeFloat = [] ∧
      fs.Validator = some .floatValidator ∧
      (∀ x : Float64, fs.validate env (.float64 x) = none) ∧
      fs.validate env (.float64 ⟨0x4026000000000000⟩) = none ∧
      fs.validate env (.float64 ⟨0x3FE0000000000000⟩) = none := by
  have hparse : ("1-10" = "") = False ∧ HasPrefix "1-10" "re:" = false ∧
      formSpecLimitMatchLength "1-10" = false ∧
      formSpecLimitMatchRangeInt "1-10" = some ("1", "10") ∧
      ParseInt "1" 64 = .ok 1 ∧ ParseInt "10" 64 = .ok 10 := by decide
  obtain ⟨h0, h1, h2, h3, h4, h5⟩ := hparse
  refine ⟨{ FormSpec.literal key "float" req "1-10" name with
    limitRangeInt := [1, 10], Validator := some .floatValidator }, ?_, rfl, rfl, rfl, ?_, rfl, rfl⟩
  · simp [FormSpec.Init, FormSpec.initLimit, formSpecTypeMap, FormSpec.literal, h1, h2, h3,
      h4, h5]
  · intro x
    rfl

/-! ## Decimal digits -/

/-- Every digit character is matched by `[0-9]`. -/
theorem isDigit_digitChar (d : Nat) : isDigit (digitChar d) = true := by
  unfold digitChar
  split <;> rfl

/-- A digit character denotes its digit. -/
theorem digitVal_digitChar (d : Nat) (h : d < 10) : digitVal (digitChar d) = d := by
  interval_cases d <;> rfl

/-- The characters `-` and `+` are not digits. -/
theorem isDigit_ne_sign (c : Char) (h : isDigit c = true) : c ≠ '-' ∧ c ≠ '+' := by
  constructor <;> (intro hc; subst hc; revert h; decide)

/-- The accumulated value only grows along a digit string. -/
theorem foldl_digits_le : ∀ (cs : List Char) (n : Nat),
    n ≤ cs.foldl (fun a c => a * 10 + digitVal c) n
  | [], _ => Nat.le_refl _
  | c :: cs, n => by
    have h := foldl_digits_le cs (n * 10 + digitVal c)
    simp only [List.foldl_cons]
    omega

/-- The digit loop computes the positional value of a digit string that stays within
`maxVal` (itself within 64 bits). -/
theorem parseUintLoop_eq (maxVal : Nat) (hmax : maxVal < 2 ^ 64) :
    ∀ (cs : List Char) (n : Nat), cs.all isDigit = true →
      cs.foldl (fun a c => a * 10 + digitVal c) n ≤ maxVal →
      parseUintLoop maxVal cs n = .ok (cs.foldl (fun a c => a * 10 + digitVal c) n)
  | [], _, _, _ => rfl
  | c :: cs, n, h, hle => by
    simp only [List.all_cons, Bool.and_eq_true] at h
    simp only [List.foldl_cons] at hle ⊢
    have hstep := foldl_digits_le cs (n * 10 + digitVal c)
    have h1 : ¬ ((2 ^ 64 - 1) / 10 + 1 ≤ n) := by
      norm_num at hmax ⊢
      omega
    have h2 : ¬ (maxVal < n * 10 + digitVal c) := by omega
    simp only [parseUintLoop, h.1, Bool.not_true, Bool.false_eq_true, if_false, h1, h2]
    exact parseUintLoop_eq maxVal hmax cs _ h.2 hle

/-- `ParseInt` on a non-empty digit string that fits the width returns its value. -/
theorem ParseInt_digits (s : String) (bits : Nat) (hbits : bits ≤ 64) (hne : s.data ≠ [])
    (hall : s.data.all isDigit = true) (hfit : digitsValue s.data < 2 ^ (bits - 1)) :
    ParseInt s bits = .ok (digitsValue s.data : Int) := by
  have hpow : 2 ^ (bits - 1) ≤ 2 ^ bits := Nat.pow_le_pow_right (by omega) (by omega)
  have hpow64 : 2 ^ bits ≤ 2 ^ 64 := Nat.pow_le_pow_right (by omega) hbits
  have hpos : 0 < 2 ^ bits := Nat.pow_pos (by omega)
  unfold ParseInt
  cases hd : s.data with
  | nil => exact absurd hd hne
  | cons c cs =>
    rw [hd] at hall hfit
    have hc : isDigit c = true := by
      simp only [List.all_cons, Bool.and_eq_true] at hall
      exact hall.1
    obtain ⟨hm, hp⟩ := isDigit_ne_sign c hc
    have hpd := parseUintLoop_eq (2 ^ bits - 1) (by omega) (c :: cs) 0 hall
      (by unfold digitsValue at hfit; omega)
    simp only [hm, hp, or_self, if_false, decide_False, hpd]
    simp only [digitsValue] at hfit ⊢
    simp only [List.foldl_cons, Nat.zero_mul, Nat.zero_add] at hfit ⊢
    simp [hfit]

/-- The digits produced for a number are digit characters. -/
theorem natDigitsRev_all (fuel : Nat) : ∀ n, (natDigitsRev fuel n).all isDigit = true := by
  induction fuel with
  | zero => intro n; rfl
  | succ k ih =>
    intro n
    unfold natDigitsRev
    split
    · simp [isDigit_digitChar]
    · simp [isDigit_digitChar, ih]

/-- The digits produced for a number denote it. -/
theorem natDigitsRev_value (fuel : Nat) : ∀ n, n < fuel →
    (natDigitsRev fuel n).foldr (fun c a => a * 10 + digitVal c) 0 = n := by
  induction fuel with
  | zero => intro n h; omega
  | succ k ih =>
    intro n h
    unfold natDigitsRev
    split
    · rename_i h10
      simp [digitVal_digitChar n h10]
    · rename_i h10
      simp only [List.foldr_cons]
      rw [ih (n / 10) (by omega), digitVal_digitChar _ (Nat.mod_lt _ (by omega))]
      omega

/-- The most significant digit produced for a positive number is not zero. -/
theorem natDigitsRev_reverse_head (fuel : Nat) : ∀ n, 1 ≤ n → n < fuel →
    ∃ c cs, (natDigitsRev fuel n).reverse = c :: cs ∧ 49 ≤ c.toNat ∧ c.toNat ≤ 57 := by
  induction fuel with
  | zero => intro n _ h; omega
  | succ k ih =>
    intro n h1 h
    unfold natDigitsRev
    split
    · rename_i h10
      refine ⟨digitChar n, [], rfl, ?_, ?_⟩ <;> (interval_cases n <;> decide)
    · rename_i h10
      obtain ⟨c, cs, hrev, hlo, hhi⟩ := ih (n / 10) (by omega) (by omega)
      exact ⟨c, cs ++ [digitChar (n % 10)], by simp [hrev], hlo, hhi⟩

/-- The decimal form of a positive number: a leading digit 1 to 9, then digits, denoting
the number. -/
theorem formatNat_data (n : Nat) (h1 : 1 ≤ n) :
    ∃ c cs, (formatNat n).data = c :: cs ∧ 49 ≤ c.toNat ∧ c.toNat ≤ 57 ∧
      (c :: cs).all isDigit = true ∧ digitsValue (c :: cs) = n := by
  obtain ⟨c, cs, hrev, hlo, hhi⟩ := natDigitsRev_reverse_head (n + 1) n h1 (by omega)
  have hdata : (formatNat n).data = c :: cs := hrev
  refine ⟨c, cs, hdata, hlo, hhi, ?_, ?_⟩
  · rw [← hrev, List.all_reverse]
    exact natDigitsRev_all _ _
  · rw [← hrev]
    unfold digitsValue
    rw [List.foldl_reverse]
    exact natDigitsRev_value (n + 1) n (by omega)

/-- A string whose first character is a digit does not start with "re:". -/
theorem HasPrefix_re_of_digit (s : String) (c : Char) (cs : List Char)
    (hd : s.data = c :: cs) (hc : isDigit c = true) : HasPrefix s "re:" = false := by
  have hne : c ≠ 'r' := by
    intro h
    subst h
    revert hc
    decide
  unfold HasPrefix
  rw [hd]
  show List.isPrefixOf ['r', 'e', ':'] (c :: cs) = false
  simp [List.isPrefixOf, Ne.symm hne]

/-! ## Limits -/

/-- A limit that is a positive integer without a leading zero and fits 32 bits, on a spec of
type string, int or int64, is stored as the exact length and nothing else changes. -/
theorem initLimit_length (env : Env) (fs : FormSpec) (c : Char) (cs : List Char)
    (hd : fs.Limit.data = c :: cs) (hlo : 49 ≤ c.toNat) (hhi : c.toNat ≤ 57)
    (hall : (c :: cs).all isDigit = true)
    (htyp : fs.Typ = "string" ∨ fs.Typ = "int" ∨ fs.Typ = "int64")
    (hfit : digitsValue (c :: cs) < 2 ^ 31) :
    fs.initLimit env = .ok { fs with limitLength := (digitsValue (c :: cs) : Int) } := by
  have hne : fs.Limit ≠ "" := by
    intro h
    rw [h] at hd
    exact List.noConfusion hd
  have hc : isDigit c = true := by
    simp only [List.all_cons, Bool.and_eq_true] at hall
    exact hall.1
  have hcs : cs.all isDigit = true := by
    simp only [List.all_cons, Bool.and_eq_true] at hall
    exact hall.2
  have hpre := HasPrefix_re_of_digit fs.Limit c cs hd hc
  have hmatch : formSpecLimitMatchLength fs.Limit = true := by
    unfold formSpecLimitMatchLength
    rw [hd]
    simp [hlo, hhi, hcs]
  have hparse : ParseInt fs.Limit 32 = .ok (digitsValue (c :: cs) : Int) := by
    have := ParseInt_digits fs.Limit 32 (by omega) (by rw [hd]; simp) (by rw [hd]; exact hall)
      (by rw [hd]; exact hfit)
    rw [hd] at this
    exact this
  have htyp2 : ¬ (fs.Typ ≠ "string" ∧ fs.Typ ≠ "int" ∧ fs.Typ ≠ "int64") := by
    rintro ⟨h1, h2, h3⟩
    rcases htyp with h | h | h
    · exact h1 h
    · exact h2 h
    · exact h3 h
  unfold FormSpec.initLimit
  simp only [hne, if_false, hpre, hmatch, if_true, htyp2, hparse, Bool.false_eq_true]

/-- The string validator on a spec whose only constraint is the exact length. -/
theorem stringValidator_length_only (env : Env) (fs : FormSpec) (s : String)
    (hr : fs.limitRangeInt = []) (hre : fs.limitRegexp = none) (hl : fs.limitListString = []) :
    stringValidator env fs (.string s) =
      if fs.limitLength > 0 ∧ (env.GlyphLength s : Int) ≠ fs.limitLength then
        some ⟨fs.Name ++ " has the wrong length."⟩
      else none := by
  unfold stringValidator
  simp [hr, hre, hl]

/-- Initialising a fresh string spec with the decimal form of a positive length that fits
32 bits: the length is stored and the string validator installed. -/
theorem Init_string_length (env : Env) (key name : String) (req : Bool) (n : Nat)
    (h1 : 1 ≤ n) (hfit : n < 2 ^ 31) :
    (FormSpec.literal key "string" req (formatNat n) name).Init env (formSpecTypeMap env) =
      .ok { FormSpec.literal key "string" req (formatNat n) name with
            limitLength := (n : Int), Validator := some .stringValidator } := by
  obtain ⟨c, cs, hd, hlo, hhi, hall, hval⟩ := formatNat_data n h1
  have hlim := initLimit_length env (FormSpec.literal key "string" req (formatNat n) name)
    c cs hd hlo hhi hall (Or.inl rfl) (by rw [hval]; exact hfit)
  rw [hval] at hlim
  unfold FormSpec.Init
  have hreg : formSpecTypeMap env (FormSpec.literal key "string" req (formatNat n) name).Typ =
      some ⟨stringConverter, some .stringValidator, false⟩ := rfl
  rw [hreg]
  simp only [Bool.not_false, if_true, hlim]
  rfl

/-- Claim C8 (counterexample). For N = 1 and the one-glyph string "0": a string spec
initialised with the decimal form of N - 1 accepts it, since the limit "0" is stored as the
one-entry string list and not as a length. -/
theorem exact_length_minus_one_counterexample :
    asciiEnv.GlyphLength "0" = 1 ∧ formatNat (1 - 1) = "0" ∧
    ∃ fs, (FormSpec.literal "foo" "string" false (formatNat (1 - 1)) "Foo").Init asciiEnv
        (formSpecTypeMap asciiEnv) = .ok fs ∧
      fs.limitLength = 0 ∧ fs.limitListString = ["0"] ∧
      fs.validate asciiEnv (.string "0") = none :=
  ⟨by decide, by decide,
   { FormSpec.literal "foo" "string" false "0" "Foo" with
     limitListString := ["0"], Validator := some .stringValidator },
   by decide, by decide, by decide, by decide⟩

/-- Claim C8 (amended). For a string of glyph length N ≥ 1 with N + 1 < 2^31, a fresh string
spec initialised with the decimal form of N accepts it, and one initialised with the
decimal form of N + 1 rejects it with "wrong length"; one initialised with the decimal form
of N - 1 rejects it with "wrong length" when N ≥ 2, and for N = 1 the limit "0" is stored
as the string list ["0"], which accepts the string "0" and rejects every other string with
"wrong value". -/
theorem exact_length_limit (env : Env) (N : Nat) (s key name : String) (req : Bool)
    (hlen : env.GlyphLength s = N) (hN : 1 ≤ N) (hfit : N + 1 < 2 ^ 31) :
    (∃ fs, (FormSpec.literal key "string" req (formatNat N) name).Init env
        (formSpecTypeMap env) = .ok fs ∧
      fs.limitLength = (N : Int) ∧ fs.validate env (.string s) = none) ∧
    (∃ fs, (FormSpec.literal key "string" req (formatNat (N + 1)) name).Init env
        (formSpecTypeMap env) = .ok fs ∧
      fs.limitLength = ((N + 1 : Nat) : Int) ∧
      fs.validate env (.string s) = some ⟨name ++ " has the wrong length."⟩) ∧
    (2 ≤ N → ∃ fs, (FormSpec.literal key "string" req (formatNat (N - 1)) name).Init env
        (formSpecTypeMap env) = .ok fs ∧
      fs.limitLength = ((N - 1 : Nat) : Int) ∧
      fs.validate env (.string s) = some ⟨name ++ " has the wrong length."⟩) ∧
    (N = 1 → ∃ fs, (FormSpec.literal key "string" req (formatNat (N - 1)) name).Init env
        (formSpecTypeMap env) = .ok fs ∧
      fs.limitLength = 0 ∧ fs.limitListString = ["0"] ∧
      fs.validate env (.string s) =
        if s = "0" then none else some ⟨name ++ " has the wrong value."⟩) := by
  have hval : ∀ m : Nat, 1 ≤ m →
      FormSpec.validate env
        { FormSpec.literal key "string" req (formatNat m) name with
          limitLength := (m : Int), Validator := some .stringValidator } (.string s) =
        if m = N then none else some ⟨name ++ " has the wrong length."⟩ := by
    intro m hm
    show stringValidator env _ (.string s) = _
    rw [stringValidator_length_only env _ s rfl rfl rfl, hlen]
    by_cases h : m = N
    · subst h
      simp [FormSpec.literal]
    · have h1 : (0 : Int) < (m : Int) := by omega
      have h2 : (N : Int) ≠ (m : Int) := by omega
      simp [FormSpec.literal, h, h1, h2]
  refine ⟨⟨_, Init_string_length env key name req N hN (by omega), rfl, ?_⟩,
    ⟨_, Init_string_length env key name req (N + 1) (by omega) hfit, rfl, ?_⟩, ?_, ?_⟩
  · rw [hval N hN, if_pos rfl]
  · rw [hval (N + 1) (by omega), if_neg (by omega)]
  · intro h2
    refine ⟨_, Init_string_length env key name req (N - 1) (by omega) (by omega), rfl, ?_⟩
    rw [hval (N - 1) (by omega), if_neg (by omega)]
  · intro h1
    subst h1
    have hfmt : formatNat (1 - 1) = "0" := by decide
    have hparse : ("0" = "") = False ∧ HasPrefix "0" "re:" = false ∧
        formSpecLimitMatchLength "0" = false ∧ formSpecLimitMatchRangeInt "0" = none ∧
        formSpecLimitMatchRangeFloat "0" = none ∧ Split "0" ',' = ["0"] := by decide
    obtain ⟨h0, h1, h2, h3, h4, h5⟩ := hparse
    rw [hfmt]
    refine ⟨{ FormSpec.literal key "string" req "0" name with
      limitListString := ["0"], Validator := some .stringValidator }, ?_, rfl, rfl, ?_⟩
    · simp [FormSpec.Init, FormSpec.initLimit, formSpecTypeMap, FormSpec.literal, h1, h2, h3,
        h4, h5]
    · by_cases hs : s = "0"
      · subst hs
        simp [FormSpec.validate, ValidatorFn.call, stringValidator, FormSpec.literal]
      · simp [FormSpec.validate, ValidatorFn.call, stringValidator, FormSpec.literal, hs]

/-- Witness of C8 (amended): the six-character string "Barfus" against the limits 6, 7
and 5. -/
theorem exact_length_limit_witness :
    asciiEnv.GlyphLength "Barfus" = 6 ∧
    (∃ fs, (FormSpec.literal "foo" "string" true (formatNat 6) "Foo").Init asciiEnv
        (formSpecTypeMap asciiEnv) = .ok fs ∧
      fs.limitLength = ((6 : Nat) : Int) ∧ fs.validate asciiEnv (.string "Barfus") = none) ∧
    (∃ fs, (FormSpec.literal "foo" "string" true (formatNat (6 + 1)) "Foo").Init asciiEnv
        (formSpecTypeMap asciiEnv) = .ok fs ∧
      fs.limitLength = ((6 + 1 : Nat) : Int) ∧
      fs.validate asciiEnv (.string "Barfus") = some ⟨"Foo" ++ " has the wrong length."⟩) ∧
    (∃ fs, (FormSpec.literal "foo" "string" true (formatNat (6 - 1)) "Foo").Init asciiEnv
        (formSpecTypeMap asciiEnv) = .ok fs ∧
      fs.limitLength = ((6 - 1 : Nat) : Int) ∧
      fs.validate asciiEnv (.string "Barfus") = some ⟨"Foo" ++ " has the wrong length."⟩) :=
  have h := exact_length_limit asciiEnv 6 "Barfus" "foo" "Foo" true (by decide) (by decide)
    (by decide)
  ⟨by decide, h.1, h.2.1, h.2.2.1 (by decide)⟩

/-- Splitting at the first `-`: a prefix without `-` is split off whole. -/
theorem span_dash (us : List Char) : ∀ ls : List Char, (∀ c ∈ ls, c ≠ '-') →
    (ls ++ '-' :: us).span (fun c => decide (c ≠ '-')) = (ls, '-' :: us)
  | [], _ => by simp [List.span_eq_take_drop]
  | c :: ls, h => by
    have hc : c ≠ '-' := h c (List.mem_cons_self _ _)
    have ih := span_dash us ls (fun x hx => h x (List.mem_cons_of_mem _ hx))
    simp only [List.span_eq_take_drop, Prod.mk.injEq] at ih ⊢
    simp only [List.cons_append, List.takeWhile_cons, List.dropWhile_cons, hc, ne_eq,
      not_false_eq_true, decide_True, if_true, ih, and_self]

/-- The characters of a digit string are not `-`. -/
theorem digits_ne_dash (ls : List Char) (h : ls.all isDigit = true) : ∀ c ∈ ls, c ≠ '-' := by
  intro c hc
  rw [List.all_eq_true] at h
  exact (isDigit_ne_sign c (h c hc)).1

/-- The characters of `lo-hi`. -/
theorem range_limit_data (lo hi : String) :
    (lo ++ "-" ++ hi).data = lo.data ++ '-' :: hi.data := by
  simp [String.data_append]

/-- Two non-empty digit strings joined by `-` match the integer range pattern, with the
two strings as submatches. -/
theorem matchRangeInt_digits (lo hi : String)
    (hlo : lo.data ≠ [] ∧ lo.data.all isDigit = true)
    (hhi : hi.data ≠ [] ∧ hi.data.all isDigit = true) :
    formSpecLimitMatchRangeInt (lo ++ "-" ++ hi) = some (lo, hi) := by
  unfold formSpecLimitMatchRangeInt
  rw [range_limit_data, span_dash hi.data lo.data (digits_ne_dash _ hlo.2)]
  simp [hlo.1, hlo.2, hhi.1, hhi.2]

/-- A string with a `-` in it does not match the length pattern. -/
theorem matchLength_range (lo hi : String) (hlo : lo.data ≠ []) :
    formSpecLimitMatchLength (lo ++ "-" ++ hi) = false := by
  unfold formSpecLimitMatchLength
  rw [range_limit_data]
  cases hd : lo.data with
  | nil => exact absurd hd hlo
  | cons c cs =>
    have : (cs ++ '-' :: hi.data).all isDigit = false := by
      rw [List.all_append, List.all_cons]
      have : isDigit '-' = false := by decide
      simp [this]
    simp [this]

/-- An integer range limit `lo-hi` whose bounds fit the width in force and are in order is
stored as the integer range, whatever the type of the spec. -/
theorem initLimit_rangeInt (env : Env) (fs : FormSpec) (lo hi : String)
    (hlim : fs.Limit = lo ++ "-" ++ hi)
    (hlo : lo.data ≠ [] ∧ lo.data.all isDigit = true)
    (hhi : hi.data ≠ [] ∧ hi.data.all isDigit = true)
    (hle : digitsValue lo.data ≤ digitsValue hi.data)
    (hfit : digitsValue hi.data <
      2 ^ ((if fs.Typ = "int64" ∨ fs.Typ = "float" then 64 else 32) - 1)) :
    fs.initLimit env =
      .ok { fs with limitRangeInt := [(digitsValue lo.data : Int), (digitsValue hi.data : Int)] } := by
  obtain ⟨c, cs, hd⟩ := List.exists_cons_of_ne_nil hlo.1
  have hdata : fs.Limit.data = c :: (cs ++ '-' :: hi.data) := by
    rw [hlim, range_limit_data, hd]
    rfl
  have hne : fs.Limit ≠ "" := by
    intro h
    rw [h] at hdata
    exact List.noConfusion hdata
  have hc : isDigit c = true := by
    have := hlo.2
    rw [hd] at this
    simp only [List.all_cons, Bool.and_eq_true] at this
    exact this.1
  have hpre := HasPrefix_re_of_digit fs.Limit c _ hdata hc
  have hlen : formSpecLimitMatchLength fs.Limit = false := by
    rw [hlim]
    exact matchLength_range lo hi hlo.1
  have hrange : formSpecLimitMatchRangeInt fs.Limit = some (lo, hi) := by
    rw [hlim]
    exact matchRangeInt_digits lo hi hlo hhi
  have hbits : (if fs.Typ = "int64" ∨ fs.Typ = "float" then 64 else 32) ≤ 64 := by
    split <;> omega
  have hplo := ParseInt_digits lo (if fs.Typ = "int64" ∨ fs.Typ = "float" then 64 else 32)
    hbits hlo.1 hlo.2 (lt_of_le_of_lt hle hfit)
  have hphi := ParseInt_digits hi (if fs.Typ = "int64" ∨ fs.Typ = "float" then 64 else 32)
    hbits hhi.1 hhi.2 hfit
  have hord : ¬ ((digitsValue hi.data : Int) < (digitsValue lo.data : Int)) := by omega
  unfold FormSpec.initLimit
  simp only [hne, if_false, hpre, hlen, hrange, hplo, hphi, hord, Bool.false_eq_true]

/-- The 64-bit validator on a spec whose only constraint is an integer range. -/
theorem int64Validator_range_only (fs : FormSpec) (lo hi v : Int)
    (hlen : fs.limitLength = 0) (hr : fs.limitRangeInt = [lo, hi]) (hl : fs.limitListInt = []) :
    int64Validator fs (.int64 v) =
      if v < lo then some ⟨fs.Name ++ " is too low."⟩
      else if hi < v then some ⟨fs.Name ++ " is too high."⟩
      else none := by
  unfold int64Validator
  simp only [hlen, hr, hl]
  by_cases h1 : v < lo
  · simp [h1]
  · by_cases h2 : hi < v
    · simp [h1, h2]
    · simp [h1, h2]

/-- The validator of type int on an int value is the 64-bit validator on the widened value. -/
theorem intValidator_int (fs : FormSpec) (v : Int) :
    intValidator fs (.int v) = int64Validator fs (.int64 v) := by
  simp [intValidator]

/-- Claim C9. A fresh spec of type int (bounds below 2^31) or int64 (bounds below 2^63)
initialised with a limit `lo-hi` of two digit strings denoting L ≤ U stores the range
[L, U] and gets the standard validator, which accepts exactly the values from L to U:
below L it answers "too low", above U "too high". -/
theorem int_range_limit (env : Env) (lo hi key name : String) (req : Bool)
    (hlo : lo.data ≠ [] ∧ lo.data.all isDigit = true)
    (hhi : hi.data ≠ [] ∧ hi.data.all isDigit = true)
    (hle : digitsValue lo.data ≤ digitsValue hi.data) :
    (digitsValue hi.data < 2 ^ 31 →
      ∃ fs, (FormSpec.literal key "int" req (lo ++ "-" ++ hi) name).Init env
          (formSpecTypeMap env) = .ok fs ∧
        fs.limitRangeInt = [(digitsValue lo.data : Int), (digitsValue hi.data : Int)] ∧
        fs.Validator = some .intValidator ∧
        (∀ v : Int, fs.validate env (.int v) =
          if v < (digitsValue lo.data : Int) then some ⟨name ++ " is too low."⟩
          else if (digitsValue hi.data : Int) < v then some ⟨name ++ " is too high."⟩
          else none) ∧
        (∀ v : Int, fs.validate env (.int v) = none ↔
          (digitsValue lo.data : Int) ≤ v ∧ v ≤ (digitsValue hi.data : Int))) ∧
    (digitsValue hi.data < 2 ^ 63 →
      ∃ fs, (FormSpec.literal key "int64" req (lo ++ "-" ++ hi) name).Init env
          (formSpecTypeMap env) = .ok fs ∧
        fs.limitRangeInt = [(digitsValue lo.data : Int), (digitsValue hi.data : Int)] ∧
        fs.Validator = some .int64Validator ∧
        (∀ v : Int, fs.validate env (.int64 v) =
          if v < (digitsValue lo.data : Int) then some ⟨name ++ " is too low."⟩
          else if (digitsValue hi.data : Int) < v then some ⟨name ++ " is too high."⟩
          else none) ∧
        (∀ v : Int, fs.validate env (.int64 v) = none ↔
          (digitsValue lo.data : Int) ≤ v ∧ v ≤ (digitsValue hi.data : Int))) := by
  have hiff : ∀ (v L U : Int) (r : Option GoError),
      (r = if v < L then some ⟨name ++ " is too low."⟩
        else if U < v then some ⟨name ++ " is too high."⟩ else none) →
      (r = none ↔ L ≤ v ∧ v ≤ U) := by
    intro v L U r hr
    rw [hr]
    by_cases h1 : v < L
    · simp [h1]
    · by_cases h2 : U < v
      · simp [h1, h2]
      · simp [h1, h2]
        omega
  constructor
  · intro hfit
    have hlim := initLimit_rangeInt env (FormSpec.literal key "int" req (lo ++ "-" ++ hi) name)
      lo hi rfl hlo hhi hle (by simpa [FormSpec.literal] using hfit)
    have hval : ∀ v : Int,
        FormSpec.validate env
          { FormSpec.literal key "int" req (lo ++ "-" ++ hi) name with
            limitRangeInt := [(digitsValue lo.data : Int), (digitsValue hi.data : Int)],
            Validator := some .intValidator } (.int v) =
          if v < (digitsValue lo.data : Int) then some ⟨name ++ " is too low."⟩
          else if (digitsValue hi.data : Int) < v then some ⟨name ++ " is too high."⟩
          else none := by
      intro v
      simp only [FormSpec.validate, ValidatorFn.call]
      rw [intValidator_int, int64Validator_range_only _ _ _ v rfl rfl rfl]
      rfl
    refine ⟨_, ?_, rfl, rfl, hval, fun v => hiff v _ _ _ (hval v)⟩
    unfold FormSpec.Init
    have hreg : formSpecTypeMap env (FormSpec.literal key "int" req (lo ++ "-" ++ hi) name).Typ =
        some ⟨intConverter, some .intValidator, false⟩ := rfl
    rw [hreg]
    simp only [Bool.not_false, if_true, hlim]
    rfl
  · intro hfit
    have hlim := initLimit_rangeInt env
      (FormSpec.literal key "int64" req (lo ++ "-" ++ hi) name)
      lo hi rfl hlo hhi hle (by simpa [FormSpec.literal] using hfit)
    have hval : ∀ v : Int,
        FormSpec.validate env
          { FormSpec.literal key "int64" req (lo ++ "-" ++ hi) name with
            limitRangeInt := [(digitsValue lo.data : Int), (digitsValue hi.data : Int)],
            Validator := some .int64Validator } (.int64 v) =
          if v < (digitsValue lo.data : Int) then some ⟨name ++ " is too low."⟩
          else if (digitsValue hi.data : Int) < v then some ⟨name ++ " is too high."⟩
          else none := by
      intro v
      simp only [FormSpec.validate, ValidatorFn.call]
      rw [int64Validator_range_only _ _ _ v rfl rfl rfl]
      rfl
    refine ⟨_, ?_, rfl, rfl, hval, fun v => hiff v _ _ _ (hval v)⟩
    unfold FormSpec.Init
    have hreg : formSpecTypeMap env
        (FormSpec.literal key "int64" req (lo ++ "-" ++ hi) name).Typ =
        some ⟨int64Converter, some .int64Validator, false⟩ := rfl
    rw [hreg]
    simp only [Bool.not_false, if_true, hlim]
    rfl

/-- Witness of C9: the int spec with limit "0-100" of `ExampleDecodeForm` is `exampleBar`; it
accepts 0, 23 and 100 and rejects -1 and 101. -/
theorem int_range_limit_witness :
    (FormSpec.literal "bar" "int" true ("0" ++ "-" ++ "100") "Bar Percentage").Init asciiEnv
        (formSpecTypeMap asciiEnv) = .ok exampleBar ∧
    exampleBar.validate asciiEnv (.int 0) = none ∧
    exampleBar.validate asciiEnv (.int 23) = none ∧
    exampleBar.validate asciiEnv (.int 100) = none ∧
    exampleBar.validate asciiEnv (.int (-1)) = some ⟨"Bar Percentage is too low."⟩ ∧
    exampleBar.validate asciiEnv (.int 101) = some ⟨"Bar Percentage is too high."⟩ := by
  obtain ⟨fs, hinit, _, _, hval, _⟩ :=
    (int_range_limit asciiEnv "0" "100" "bar" "Bar Percentage" true (by decide) (by decide)
      (by decide)).1 (by decide)
  have hfs : fs = exampleBar := by
    have h2 : (FormSpec.literal "bar" "int" true ("0" ++ "-" ++ "100") "Bar Percentage").Init
        asciiEnv (formSpecTypeMap asciiEnv) = .ok exampleBar := by decide
    rw [h2] at hinit
    injection hinit with h
    exact h.symm
  subst hfs
  refine ⟨hinit, ?_, ?_, ?_, ?_, ?_⟩ <;> rw [hval] <;> decide

/-! ## Init on registered types -/

/-- On a registered standard (not custom) type, `Init` is `initLimit` followed by the
installation of the type's default validator when the spec has none. -/
theorem Init_standard (env : Env) (reg : Registry) (fs : FormSpec) (t : formSpecType)
    (h : reg fs.Typ = some t) (hc : t.custom = false) :
    fs.Init env reg =
      match fs.initLimit env with
      | .error p => .error p
      | .ok fs1 =>
        if fs1.Validator = none then .ok { fs1 with Validator := t.validator } else .ok fs1 := by
  unfold FormSpec.Init
  rw [h]
  simp [hc]

/-- Claim C11 (evaluation). An int or int64 spec initialised with the list limit "1,3,5"
ends with an empty `limitListInt` (the parsed integers are dropped), so its default validator
accepts every integer: 2 and 4, which are not in the list, among them. -/
theorem int_list_limit_not_stored (env : Env) (key name : String) (req : Bool) :
    (∃ fs, (FormSpec.literal key "int" req "1,3,5" name).Init env (formSpecTypeMap env) = .ok fs ∧
      fs.Validator = some .intValidator ∧ fs.limitListInt = [] ∧
      fs.validate env (.int 2) = none ∧ fs.validate env (.int 4) = none ∧
      ∀ v : Int, fs.validate env (.int v) = none) ∧
    (∃ fs, (FormSpec.literal key "int64" req "1,3,5" name).Init env (formSpecTypeMap env) =
        .ok fs ∧
      fs.Validator = some .int64Validator ∧ fs.limitListInt = [] ∧
      fs.validate env (.int64 2) = none ∧ fs.validate env (.int64 4) = none ∧
      ∀ v : Int, fs.validate env (.int64 v) = none) := by
  have hparse : ("1,3,5" = "") = False ∧ HasPrefix "1,3,5" "re:" = false ∧
      formSpecLimitMatchLength "1,3,5" = false ∧
      formSpecLimitMatchRangeInt "1,3,5" = none ∧
      formSpecLimitMatchRangeFloat "1,3,5" = none ∧
      Split "1,3,5" ',' = ["1", "3", "5"] ∧
      ParseInt "1" 64 = .ok 1 ∧ ParseInt "3" 64 = .ok 3 ∧ ParseInt "5" 64 = .ok 5 := by decide
  obtain ⟨h0, h1, h2, h3, h4, h5, h6, h7, h8⟩ := hparse
  constructor
  · refine ⟨{ FormSpec.literal key "int" req "1,3,5" name with
      Validator := some .intValidator }, ?_, rfl, rfl, ?_, ?_, ?_⟩
    · simp [FormSpec.Init, FormSpec.initLimit, formSpecTypeMap, FormSpec.literal, h1, h2, h3,
        h4, h5, h6, h7, h8, parseIntList]
    · simp [FormSpec.validate, ValidatorFn.call, intValidator, int64Validator, FormSpec.literal]
    · simp [FormSpec.validate, ValidatorFn.call, intValidator, int64Validator, FormSpec.literal]
    · intro v
      simp [FormSpec.validate, ValidatorFn.call, intValidator, int64Validator, FormSpec.literal]
  · refine ⟨{ FormSpec.literal key "int64" req "1,3,5" name with
      Validator := some .int64Validator }, ?_, rfl, rfl, ?_, ?_, ?_⟩
    · simp [FormSpec.Init, FormSpec.initLimit, formSpecTypeMap, FormSpec.literal, h1, h2, h3,
        h4, h5, h6, h7, h8, parseIntList]
    · simp [FormSpec.validate, ValidatorFn.call, int64Validator, FormSpec.literal]
    · simp [FormSpec.validate, ValidatorFn.call, int64Validator, FormSpec.literal]
    · intro v
      simp [FormSpec.validate, ValidatorFn.call, int64Validator, FormSpec.literal]

/-! ## Value lists -/

/-- Splitting always yields at least one piece. -/
theorem splitChars_ne_nil (sep : Char) (cs : List Char) : splitChars sep cs ≠ [] := by
  cases cs with
  | nil => simp [splitChars]
  | cons c cs =>
    unfold splitChars
    split
    · simp
    · split <;> simp

/-- The pieces, with the separator put back between them, are the text that was split. -/
theorem splitChars_intercalate (sep : Char) :
    ∀ cs : List Char, List.intercalate [sep] (splitChars sep cs) = cs
  | [] => by simp [splitChars, List.intercalate]
  | c :: cs => by
    have ih := splitChars_intercalate sep cs
    have hne := splitChars_ne_nil sep cs
    unfold splitChars
    cases hsp : splitChars sep cs with
    | nil => exact absurd hsp hne
    | cons p ps =>
      rw [hsp] at ih
      by_cases hc : c = sep
      · subst hc
        simp only [if_true]
        simp only [List.intercalate, List.intersperse, List.flatten, List.nil_append,
          List.singleton_append] at ih ⊢
        rw [ih]
      · simp only [hc, if_false]
        cases ps with
        | nil =>
          simp only [List.intercalate, List.intersperse, List.flatten, List.append_nil] at ih ⊢
          rw [ih]
        | cons q qs =>
          simp only [List.intercalate, List.intersperse, List.flatten, List.cons_append] at ih ⊢
          rw [ih]

/-- No piece contains the separator. -/
theorem splitChars_no_sep (sep : Char) :
    ∀ (cs : List Char), ∀ p ∈ splitChars sep cs, sep ∉ p
  | [], p, hp => by
    simp [splitChars] at hp
    simp [hp]
  | c :: cs, p, hp => by
    have ih := splitChars_no_sep sep cs
    unfold splitChars at hp
    cases hsp : splitChars sep cs with
    | nil => exact absurd hsp (splitChars_ne_nil sep cs)
    | cons q qs =>
      rw [hsp] at hp ih
      by_cases hc : c = sep
      · simp only [hc, if_true, List.mem_cons] at hp
        rcases hp with hp | hp | hp
        · simp [hp]
        · exact ih p (by simp [hp])
        · exact ih p (by simp [hp])
      · simp only [hc, if_false, List.mem_cons] at hp
        rcases hp with hp | hp
        · rw [hp]
          intro hmem
          rcases List.mem_cons.mp hmem with h | h
          · exact hc h.symm
          · exact ih q (by simp) h
        · exact ih p (by simp [hp])

/-- The characters of a joined text. -/
theorem Join_data (sep : String) : ∀ l : List String,
    (Join l sep).data = List.intercalate sep.data (l.map String.data)
  | [] => rfl
  | [a] => by simp [Join, List.intercalate]
  | a :: b :: rest => by
    have ih := Join_data sep (b :: rest)
    simp only [Join, String.data_append, ih]
    simp [List.intercalate, List.intersperse]

/-- `strings.Split` at commas: at least one piece, no piece holds a comma, and joining the
pieces with commas gives the text back. -/
theorem Split_comma (s : String) :
    0 < (Split s ',').length ∧ (∀ p ∈ Split s ',', ',' ∉ p.data) ∧
      Join (Split s ',') "," = s := by
  refine ⟨?_, ?_, ?_⟩
  · unfold Split
    rw [List.length_map]
    exact List.length_pos.mpr (splitChars_ne_nil _ _)
  · intro p hp
    unfold Split at hp
    rw [List.mem_map] at hp
    obtain ⟨q, hq, rfl⟩ := hp
    exact splitChars_no_sep ',' s.data q hq
  · apply String.ext
    rw [Join_data]
    unfold Split
    rw [List.map_map]
    have : (String.data ∘ String.mk) = id := by
      funext x
      rfl
    rw [this, List.map_id]
    exact splitChars_intercalate ',' s.data

/-- A non-empty limit that is no pattern, length or range is handled as a value list:
stored as the string list on a string spec, parsed and dropped on an int or int64 spec,
and refused on any other type. -/
theorem initLimit_list (env : Env) (fs : FormSpec) (hne : fs.Limit ≠ "")
    (hre : HasPrefix fs.Limit "re:" = false)
    (hlen : formSpecLimitMatchLength fs.Limit = false)
    (hri : formSpecLimitMatchRangeInt fs.Limit = none)
    (hrf : formSpecLimitMatchRangeFloat fs.Limit = none) :
    fs.initLimit env =
      if fs.Typ = "string" then .ok { fs with limitListString := Split fs.Limit ',' }
      else if fs.Typ = "int" ∨ fs.Typ = "int64" then
        match parseIntList env (Split fs.Limit ',') with
        | .error p => .error p
        | .ok _ => .ok fs
      else .error ("Value list not compatible with type " ++ fs.Typ) := by
  have hpos : (Split fs.Limit ',').length > 0 := (Split_comma fs.Limit).1
  unfold FormSpec.initLimit
  simp only [hne, if_false, hre, hlen, hri, hrf, hpos, if_true, Bool.false_eq_true]

/-- The string validator on a spec whose only constraint is a string list. -/
theorem stringValidator_list_only (env : Env) (fs : FormSpec) (s : String)
    (hl : fs.limitLength = 0) (hr : fs.limitRangeInt = []) (hre : fs.limitRegexp = none) :
    stringValidator env fs (.string s) =
      if 0 < fs.limitListString.length ∧ s ∉ fs.limitListString then
        some ⟨fs.Name ++ " has the wrong value."⟩
      else none := by
  have hmem : (∀ x ∈ fs.limitListString, ¬ s = x) ↔ s ∉ fs.limitListString := by
    constructor
    · intro h hm
      exact h s hm rfl
    · intro h x hx hsx
      exact h (hsx ▸ hx)
  unfold stringValidator
  simp [hl, hr, hre, hmem]

/-- Claim C12. A fresh string spec whose non-empty limit is no "re:" pattern, length or
range is initialised with the comma-separated entries of the limit as its string list, and
its default validator accepts a string exactly when it is one of the entries; every other
string is rejected with the "wrong value" message. -/
theorem string_list_limit (env : Env) (key name val s : String) (req : Bool)
    (hne : val ≠ "") (hre : HasPrefix val "re:" = false)
    (hlen : formSpecLimitMatchLength val = false)
    (hri : formSpecLimitMatchRangeInt val = none)
    (hrf : formSpecLimitMatchRangeFloat val = none) :
    ∃ fs, (FormSpec.literal key "string" req val name).Init env (formSpecTypeMap env) = .ok fs ∧
      fs.limitListString = Split val ',' ∧ fs.Validator = some .stringValidator ∧
      Join (Split val ',') "," = val ∧ (∀ p ∈ Split val ',', ',' ∉ p.data) ∧
      (fs.validate env (.string s) = none ↔ s ∈ Split val ',') ∧
      (s ∉ Split val ',' →
        fs.validate env (.string s) = some ⟨name ++ " has the wrong value."⟩) := by
  obtain ⟨hpos, hnosep, hjoin⟩ := Split_comma val
  have hlim := initLimit_list env (FormSpec.literal key "string" req val name) hne hre hlen hri hrf
  have hinit : (FormSpec.literal key "string" req val name).Init env (formSpecTypeMap env) =
      .ok { FormSpec.literal key "string" req val name with
            limitListString := Split val ',', Validator := some .stringValidator } := by
    rw [Init_standard env (formSpecTypeMap env) (FormSpec.literal key "string" req val name)
      ⟨stringConverter, some .stringValidator, false⟩ rfl rfl, hlim]
    simp [FormSpec.literal]
  have hval : FormSpec.validate env
      { FormSpec.literal key "string" req val name with
        limitListString := Split val ',', Validator := some .stringValidator } (.string s) =
      if s ∈ Split val ',' then none else some ⟨name ++ " has the wrong value."⟩ := by
    simp only [FormSpec.validate, ValidatorFn.call]
    rw [stringValidator_list_only env _ s rfl rfl rfl]
    by_cases hs : s ∈ Split val ','
    · simp [FormSpec.literal, hs]
    · simp [FormSpec.literal, hs, hpos]
  refine ⟨_, hinit, rfl, rfl, hjoin, hnosep, ?_, ?_⟩
  · rw [hval]
    by_cases hs : s ∈ Split val ',' <;> simp [hs]
  · intro hs
    rw [hval, if_neg hs]

/-- Witness of C12: the limit "a,b,c" accepts "b" and rejects "d". -/
theorem string_list_limit_witness :
    Split "a,b,c" ',' = ["a", "b", "c"] ∧
    (∃ fs, (FormSpec.literal "foo" "string" true "a,b,c" "Foo").Init asciiEnv
        (formSpecTypeMap asciiEnv) = .ok fs ∧
      fs.limitListString = ["a", "b", "c"] ∧
      fs.validate asciiEnv (.string "b") = none) ∧
    (∃ fs, (FormSpec.literal "foo" "string" true "a,b,c" "Foo").Init asciiEnv
        (formSpecTypeMap asciiEnv) = .ok fs ∧
      fs.validate asciiEnv (.string "d") = some ⟨"Foo has the wrong value."⟩) := by
  obtain ⟨fs, hinit, hlist, _, _, _, hacc, _⟩ :=
    string_list_limit asciiEnv "foo" "Foo" "a,b,c" "b" true (by decide) (by decide) (by decide)
      (by decide) (by decide)
  obtain ⟨fs2, hinit2, _, _, _, _, _, hrej⟩ :=
    string_list_limit asciiEnv "foo" "Foo" "a,b,c" "d" true (by decide) (by decide) (by decide)
      (by decide) (by decide)
  have hsplit : Split "a,b,c" ',' = ["a", "b", "c"] := by decide
  refine ⟨hsplit, ⟨fs, hinit, by rw [hlist, hsplit], hacc.mpr (by decide)⟩,
    ⟨fs2, hinit2, ?_⟩⟩
  rw [hrej (by decide)]
  decide

/-! ## Integer range limits: parsing -/

/-- On a digit string the digit loop either returns the positional value or stops with a
range error; it never reports a syntax error. -/
theorem parseUintLoop_digits (maxVal : Nat) :
    ∀ (cs : List Char) (n : Nat), cs.all isDigit = true →
      parseUintLoop maxVal cs n = .ok (cs.foldl (fun a c => a * 10 + digitVal c) n) ∨
      parseUintLoop maxVal cs n = .error "value out of range"
  | [], _, _ => Or.inl rfl
  | c :: cs, n, h => by
    simp only [List.all_cons, Bool.and_eq_true] at h
    simp only [parseUintLoop, h.1, Bool.not_true, Bool.false_eq_true, if_false,
      List.foldl_cons]
    by_cases h1 : (2 ^ 64 - 1) / 10 + 1 ≤ n
    · rw [if_pos h1]
      exact Or.inr rfl
    · rw [if_neg h1]
      by_cases h2 : maxVal < n * 10 + digitVal c
      · rw [if_pos h2]
        exact Or.inr rfl
      · rw [if_neg h2]
        exact parseUintLoop_digits maxVal cs _ h.2

/-- `ParseInt` on a non-empty digit string whose value does not fit the width is a range
error. -/
theorem ParseInt_digits_range (s : String) (bits : Nat) (hbits : 1 ≤ bits)
    (hne : s.data ≠ []) (hall : s.data.all isDigit = true)
    (hbig : 2 ^ (bits - 1) ≤ digitsValue s.data) :
    ParseInt s bits = .error ⟨"ParseInt", s, "value out of range"⟩ := by
  have hpow : 2 ^ bits = 2 * 2 ^ (bits - 1) := by
    obtain ⟨k, rfl⟩ : ∃ k, bits = k + 1 := ⟨bits - 1, by omega⟩
    simp [Nat.pow_succ, Nat.mul_comm]
  have hpos : 0 < 2 ^ (bits - 1) := Nat.pow_pos (by omega)
  unfold ParseInt
  cases hd : s.data with
  | nil => exact absurd hd hne
  | cons c cs =>
    rw [hd] at hall hbig
    have hc : isDigit c = true := by
      simp only [List.all_cons, Bool.and_eq_true] at hall
      exact hall.1
    obtain ⟨hm, hp⟩ := isDigit_ne_sign c hc
    simp only [hm, hp, or_self, if_false, decide_False]
    rcases parseUintLoop_digits (2 ^ bits - 1) (c :: cs) 0 hall with hok | herr
    · rw [hok]
      have hcut : 2 ^ (bits - 1) ≤ List.foldl (fun a c => a * 10 + digitVal c) 0 (c :: cs) := hbig
      simp only [List.foldl_cons, Nat.zero_mul, Nat.zero_add] at hcut ⊢
      simp [hcut]
    · rw [herr]
      have hcut : 2 ^ (bits - 1) ≤ 2 ^ bits - 1 := by omega
      simp [hcut]

/-- An integer range limit `lo-hi` with a bound that does not fit the width in force, or with
the bounds out of order, makes `initLimit` panic, whatever the type of the spec. -/
theorem initLimit_rangeInt_fatal (env : Env) (fs : FormSpec) (lo hi : String)
    (hlim : fs.Limit = lo ++ "-" ++ hi)
    (hlo : lo.data ≠ [] ∧ lo.data.all isDigit = true)
    (hhi : hi.data ≠ [] ∧ hi.data.all isDigit = true)
    (hbad : digitsValue hi.data < digitsValue lo.data ∨
      2 ^ (rangeBits fs.Typ - 1) ≤ digitsValue lo.data ∨
      2 ^ (rangeBits fs.Typ - 1) ≤ digitsValue hi.data) :
    fs.initLimit env =
      if 2 ^ (rangeBits fs.Typ - 1) ≤ digitsValue lo.data then
        .error ("Error parsing int for range limit: " ++
          NumError.Error env ⟨"ParseInt", lo, "value out of range"⟩)
      else if 2 ^ (rangeBits fs.Typ - 1) ≤ digitsValue hi.data then
        .error ("Error parsing int for range limit: " ++
          NumError.Error env ⟨"ParseInt", hi, "value out of range"⟩)
      else .error "Bad range limit: upper < lower." := by
  obtain ⟨c, cs, hd⟩ := List.exists_cons_of_ne_nil hlo.1
  have hdata : fs.Limit.data = c :: (cs ++ '-' :: hi.data) := by
    rw [hlim, range_limit_data, hd]
    rfl
  have hne : fs.Limit ≠ "" := by
    intro h
    rw [h] at hdata
    exact List.noConfusion hdata
  have hc : isDigit c = true := by
    have := hlo.2
    rw [hd] at this
    simp only [List.all_cons, Bool.and_eq_true] at this
    exact this.1
  have hpre := HasPrefix_re_of_digit fs.Limit c _ hdata hc
  have hlen : formSpecLimitMatchLength fs.Limit = false := by
    rw [hlim]
    exact matchLength_range lo hi hlo.1
  have hrange : formSpecLimitMatchRangeInt fs.Limit = some (lo, hi) := by
    rw [hlim]
    exact matchRangeInt_digits lo hi hlo hhi
  have hb1 : 1 ≤ rangeBits fs.Typ := by
    unfold rangeBits
    split <;> omega
  have hb64 : rangeBits fs.Typ ≤ 64 := by
    unfold rangeBits
    split <;> omega
  have hbits : (if fs.Typ = "int64" ∨ fs.Typ = "float" then 64 else 32) = rangeBits fs.Typ := rfl
  unfold FormSpec.initLimit
  simp only [hne, if_false, hpre, hlen, hrange, Bool.false_eq_true, hbits]
  by_cases h1 : 2 ^ (rangeBits fs.Typ - 1) ≤ digitsValue lo.data
  · rw [ParseInt_digits_range lo _ hb1 hlo.1 hlo.2 h1, if_pos h1]
  · rw [ParseInt_digits lo _ hb64 hlo.1 hlo.2 (by omega), if_neg h1]
    by_cases h2 : 2 ^ (rangeBits fs.Typ - 1) ≤ digitsValue hi.data
    · rw [ParseInt_digits_range hi _ hb1 hhi.1 hhi.2 h2, if_pos h2]
    · rw [ParseInt_digits hi _ hb64 hhi.1 hhi.2 (by omega), if_neg h2]
      have h3 : digitsValue hi.data < digitsValue lo.data := by
        rcases hbad with h | h | h
        · exact h
        · exact absurd h h1
        · exact absurd h h2
      have h3' : (digitsValue hi.data : Int) < (digitsValue lo.data : Int) := by omega
      simp [h3']

/-- Every built-in type is registered as a standard (not custom) type. -/
theorem formSpecTypeMap_builtin (env : Env) (typ : String) (h : typ ∈ builtinTypes) :
    ∃ t, formSpecTypeMap env typ = some t ∧ t.custom = false := by
  simp only [builtinTypes, List.mem_cons, List.mem_singleton, List.not_mem_nil, or_false] at h
  rcases h with h | h | h | h | h | h | h | h <;> subst h <;> exact ⟨_, rfl, rfl⟩

/-- Claim C13. For a fresh spec of any built-in type and a limit `lo-hi` of two non-empty
digit strings denoting L and U, `Init` panics exactly when U < L or a bound is 2^(bits-1)
or more, where bits is 64 for the types int64 and float and 32 for every other type;
otherwise it stores the range [L, U] and sets no other constraint. -/
theorem int_range_limit_parsing (env : Env) (typ key name lo hi : String) (req : Bool)
    (htyp : typ ∈ builtinTypes)
    (hlo : lo.data ≠ [] ∧ lo.data.all isDigit = true)
    (hhi : hi.data ≠ [] ∧ hi.data.all isDigit = true) :
    ((∃ msg, (FormSpec.literal key typ req (lo ++ "-" ++ hi) name).Init env
        (formSpecTypeMap env) = .error msg) ↔
      (digitsValue hi.data < digitsValue lo.data ∨
        2 ^ (rangeBits typ - 1) ≤ digitsValue lo.data ∨
        2 ^ (rangeBits typ - 1) ≤ digitsValue hi.data)) ∧
    (¬ (digitsValue hi.data < digitsValue lo.data ∨
        2 ^ (rangeBits typ - 1) ≤ digitsValue lo.data ∨
        2 ^ (rangeBits typ - 1) ≤ digitsValue hi.data) →
      ∃ fs, (FormSpec.literal key typ req (lo ++ "-" ++ hi) name).Init env
          (formSpecTypeMap env) = .ok fs ∧
        fs.limitRangeInt = [(digitsValue lo.data : Int), (digitsValue hi.data : Int)] ∧
        fs.limitLength = 0 ∧ fs.limitRangeFloat = [] ∧ fs.limitListString = [] ∧
        fs.limitListInt = [] ∧ fs.limitRegexp = none) ∧
    (rangeBits typ = if typ = "int64" ∨ typ = "float" then 64 else 32) := by
  obtain ⟨t, ht, hcustom⟩ := formSpecTypeMap_builtin env typ htyp
  have hinit := Init_standard env (formSpecTypeMap env)
    (FormSpec.literal key typ req (lo ++ "-" ++ hi) name) t ht hcustom
  have hgood : ¬ (digitsValue hi.data < digitsValue lo.data ∨
        2 ^ (rangeBits typ - 1) ≤ digitsValue lo.data ∨
        2 ^ (rangeBits typ - 1) ≤ digitsValue hi.data) →
      (FormSpec.literal key typ req (lo ++ "-" ++ hi) name).Init env (formSpecTypeMap env) =
        .ok { FormSpec.literal key typ req (lo ++ "-" ++ hi) name with
              limitRangeInt := [(digitsValue lo.data : Int), (digitsValue hi.data : Int)],
              Validator := t.validator } := by
    intro hnb
    have hle : digitsValue lo.data ≤ digitsValue hi.data := by omega
    have hfit : digitsValue hi.data < 2 ^ (rangeBits typ - 1) := by omega
    rw [hinit, initLimit_rangeInt env (FormSpec.literal key typ req (lo ++ "-" ++ hi) name)
      lo hi rfl hlo hhi hle hfit]
    simp [FormSpec.literal]
  have hbadr : (digitsValue hi.data < digitsValue lo.data ∨
        2 ^ (rangeBits typ - 1) ≤ digitsValue lo.data ∨
        2 ^ (rangeBits typ - 1) ≤ digitsValue hi.data) →
      ∃ msg, (FormSpec.literal key typ req (lo ++ "-" ++ hi) name).Init env
        (formSpecTypeMap env) = .error msg := by
    intro hbad
    rw [hinit, initLimit_rangeInt_fatal env
      (FormSpec.literal key typ req (lo ++ "-" ++ hi) name) lo hi rfl hlo hhi hbad]
    split_ifs <;> exact ⟨_, rfl⟩
  refine ⟨⟨?_, hbadr⟩, ?_, rfl⟩
  · rintro ⟨msg, hmsg⟩
    by_contra hnb
    rw [hgood hnb] at hmsg
    exact Except.noConfusion hmsg
  · intro hnb
    exact ⟨_, hgood hnb, rfl, rfl, rfl, rfl, rfl, rfl⟩

/-- Witness of C13: "0-4294967296" is fatal for an int and for a string spec and is stored
by an int64 spec; "5-3" is fatal for an int64 and for a bool spec. -/
theorem int_range_limit_parsing_witness :
    (∃ msg, (FormSpec.literal "n" "int" false ("0" ++ "-" ++ "4294967296") "N").Init asciiEnv
        (formSpecTypeMap asciiEnv) = .error msg) ∧
    (∃ msg, (FormSpec.literal "n" "string" false ("0" ++ "-" ++ "4294967296") "N").Init asciiEnv
        (formSpecTypeMap asciiEnv) = .error msg) ∧
    (∃ fs, (FormSpec.literal "n" "int64" false ("0" ++ "-" ++ "4294967296") "N").Init asciiEnv
        (formSpecTypeMap asciiEnv) = .ok fs ∧ fs.limitRangeInt = [0, 4294967296]) ∧
    (∃ msg, (FormSpec.literal "n" "int64" false ("5" ++ "-" ++ "3") "N").Init asciiEnv
        (formSpecTypeMap asciiEnv) = .error msg) ∧
    (∃ msg, (FormSpec.literal "n" "bool" false ("5" ++ "-" ++ "3") "N").Init asciiEnv
        (formSpecTypeMap asciiEnv) = .error msg) := by
  refine ⟨?_, ?_, ?_, ?_, ?_⟩
  · exact (int_range_limit_parsing asciiEnv "int" "n" "N" "0" "4294967296" false (by decide)
      (by decide) (by decide)).1.mpr (by decide)
  · exact (int_range_limit_parsing asciiEnv "string" "n" "N" "0" "4294967296" false (by decide)
      (by decide) (by decide)).1.mpr (by decide)
  · obtain ⟨fs, h, hr, _⟩ :=
      (int_range_limit_parsing asciiEnv "int64" "n" "N" "0" "4294967296" false (by decide)
        (by decide) (by decide)).2.1 (by decide)
    exact ⟨fs, h, by rw [hr]; decide⟩
  · exact (int_range_limit_parsing asciiEnv "int64" "n" "N" "5" "3" false (by decide)
      (by decide) (by decide)).1.mpr (by decide)
  · exact (int_range_limit_parsing asciiEnv "bool" "n" "N" "5" "3" false (by decide)
      (by decide) (by decide)).1.mpr (by decide)

/-! ## Exact length limits: parsing -/

/-- A limit matching the length pattern is a leading digit 1 to 9 followed by digits. -/
theorem matchLength_data (val : String) (h : formSpecLimitMatchLength val = true) :
    ∃ c cs, val.data = c :: cs ∧ 49 ≤ c.toNat ∧ c.toNat ≤ 57 ∧
      (c :: cs).all isDigit = true := by
  unfold formSpecLimitMatchLength at h
  cases hd : val.data with
  | nil =>
    rw [hd] at h
    exact absurd h (by simp)
  | cons c cs =>
    rw [hd] at h
    simp only [Bool.and_eq_true, decide_eq_true_eq] at h
    obtain ⟨⟨hlo, hhi⟩, hcs⟩ := h
    refine ⟨c, cs, rfl, hlo, hhi, ?_⟩
    have hc : isDigit c = true := by
      unfold isDigit
      simp only [Bool.and_eq_true, decide_eq_true_eq]
      omega
    simp [hc, hcs]

/-- What `initLimit` does with a limit matching the length pattern: a panic on a type
other than string, int and int64; the length stored when it fits 32 bits; a panic of the
32-bit parse otherwise. -/
theorem initLimit_length_cases (env : Env) (fs : FormSpec)
    (hmatch : formSpecLimitMatchLength fs.Limit = true) :
    fs.initLimit env =
      if fs.Typ ≠ "string" ∧ fs.Typ ≠ "int" ∧ fs.Typ ≠ "int64" then
        .error ("Length limit does not apply to " ++ fs.Typ)
      else if digitsValue fs.Limit.data < 2 ^ 31 then
        .ok { fs with limitLength := (digitsValue fs.Limit.data : Int) }
      else
        .error ("Error parsing int for length limit: " ++
          NumError.Error env ⟨"ParseInt", fs.Limit, "value out of range"⟩) := by
  obtain ⟨c, cs, hd, hlo, hhi, hall⟩ := matchLength_data fs.Limit hmatch
  have hne : fs.Limit ≠ "" := by
    intro h
    rw [h] at hd
    exact List.noConfusion hd
  have hc : isDigit c = true := by
    simp only [List.all_cons, Bool.and_eq_true] at hall
    exact hall.1
  have hpre := HasPrefix_re_of_digit fs.Limit c cs hd hc
  have hdne : fs.Limit.data ≠ [] := by
    rw [hd]
    simp
  have halld : fs.Limit.data.all isDigit = true := by
    rw [hd]
    exact hall
  unfold FormSpec.initLimit
  simp only [hne, if_false, hpre, hmatch, if_true, Bool.false_eq_true]
  by_cases htyp : fs.Typ ≠ "string" ∧ fs.Typ ≠ "int" ∧ fs.Typ ≠ "int64"
  · rw [if_pos htyp, if_pos htyp]
  · rw [if_neg htyp, if_neg htyp]
    by_cases hfit : digitsValue fs.Limit.data < 2 ^ 31
    · rw [ParseInt_digits fs.Limit 32 (by omega) hdne halld hfit, if_pos hfit]
    · rw [ParseInt_digits_range fs.Limit 32 (by omega) hdne halld (by omega), if_neg hfit]

/-- Claim C14 (counterexample). The limit "2147483648" is a bare positive integer without a
leading zero, and initialising a string spec with it panics: the length is parsed at 32
bits. -/
theorem exact_length_parsing_counterexample :
    formSpecLimitMatchLength "2147483648" = true ∧
    (FormSpec.literal "foo" "string" false "2147483648" "Foo").Init asciiEnv
        (formSpecTypeMap asciiEnv) =
      .error ("Error parsing int for length limit: " ++
        "strconv.ParseInt: parsing \"2147483648\": value out of range") := by
  decide

/-- Claim C14 (amended). For a limit that is a bare positive integer without a leading zero,
denoting N: a fresh spec of type string, int or int64 stores N as the exact length and sets
no other constraint when N < 2^31, and panics in the 32-bit parse when N ≥ 2^31; a fresh
spec of any other built-in type panics with "Length limit does not apply to" that type. -/
theorem exact_length_parsing (env : Env) (typ key name val : String) (req : Bool)
    (htyp : typ ∈ builtinTypes) (hmatch : formSpecLimitMatchLength val = true) :
    (typ = "string" ∨ typ = "int" ∨ typ = "int64" → digitsValue val.data < 2 ^ 31 →
      ∃ fs, (FormSpec.literal key typ req val name).Init env (formSpecTypeMap env) = .ok fs ∧
        fs.limitLength = (digitsValue val.data : Int) ∧ fs.limitRangeInt = [] ∧
        fs.limitRangeFloat = [] ∧ fs.limitListString = [] ∧ fs.limitListInt = [] ∧
        fs.limitRegexp = none) ∧
    (typ = "string" ∨ typ = "int" ∨ typ = "int64" → 2 ^ 31 ≤ digitsValue val.data →
      (FormSpec.literal key typ req val name).Init env (formSpecTypeMap env) =
        .error ("Error parsing int for length limit: " ++
          NumError.Error env ⟨"ParseInt", val, "value out of range"⟩)) ∧
    (¬ (typ = "string" ∨ typ = "int" ∨ typ = "int64") →
      (FormSpec.literal key typ req val name).Init env (formSpecTypeMap env) =
        .error ("Length limit does not apply to " ++ typ)) := by
  obtain ⟨t, ht, hcustom⟩ := formSpecTypeMap_builtin env typ htyp
  have hinit := Init_standard env (formSpecTypeMap env)
    (FormSpec.literal key typ req val name) t ht hcustom
  have hlim := initLimit_length_cases env (FormSpec.literal key typ req val name) hmatch
  have hT : (FormSpec.literal key typ req val name).Typ = typ := rfl
  have hL : (FormSpec.literal key typ req val name).Limit = val := rfl
  rw [hT, hL] at hlim
  refine ⟨?_, ?_, ?_⟩
  · intro hty hfit
    have hn : ¬ (typ ≠ "string" ∧ typ ≠ "int" ∧ typ ≠ "int64") := by
      rintro ⟨h1, h2, h3⟩
      rcases hty with h | h | h
      · exact h1 h
      · exact h2 h
      · exact h3 h
    rw [if_neg hn, if_pos hfit] at hlim
    refine ⟨{ FormSpec.literal key typ req val name with
      limitLength := (digitsValue val.data : Int), Validator := t.validator }, ?_, rfl, rfl, rfl,
      rfl, rfl, rfl⟩
    rw [hinit, hlim]
    simp [FormSpec.literal]
  · intro hty hbig
    have hn : ¬ (typ ≠ "string" ∧ typ ≠ "int" ∧ typ ≠ "int64") := by
      rintro ⟨h1, h2, h3⟩
      rcases hty with h | h | h
      · exact h1 h
      · exact h2 h
      · exact h3 h
    rw [if_neg hn, if_neg (by omega)] at hlim
    rw [hinit, hlim]
  · intro hty
    have hp : typ ≠ "string" ∧ typ ≠ "int" ∧ typ ≠ "int64" := by
      refine ⟨fun h => hty (Or.inl h), fun h => hty (Or.inr (Or.inl h)),
        fun h => hty (Or.inr (Or.inr h))⟩
    rw [if_pos hp] at hlim
    rw [hinit, hlim]

/-- Witness of C14 (amended): the limit "8" on a string spec (as in `Test_RequiredFormSpec`)
and on a float spec. -/
theorem exact_length_parsing_witness :
    (∃ fs, (FormSpec.literal "foo" "string" true "8" "foo").Init asciiEnv
        (formSpecTypeMap asciiEnv) = .ok fs ∧ fs.limitLength = 8) ∧
    (FormSpec.literal "foo" "float" true "8" "foo").Init asciiEnv (formSpecTypeMap asciiEnv) =
      .error ("Length limit does not apply to " ++ "float") := by
  have h1 := exact_length_parsing asciiEnv "string" "foo" "foo" "8" true (by decide) (by decide)
  have h2 := exact_length_parsing asciiEnv "float" "foo" "foo" "8" true (by decide) (by decide)
  obtain ⟨fs, hfs, hlen, _⟩ := h1.1 (by decide) (by decide)
  exact ⟨⟨fs, hfs, by rw [hlen]; decide⟩, h2.2.2 (by decide)⟩

/-! ## Panic messages of the limit parser -/

/-- The first character of a text that starts with a given non-empty text. -/
theorem head_append (a x : String) (c : Char) (h : a.data.head? = some c) :
    (a ++ x).data.head? = some c := by
  rw [String.data_append]
  cases hd : a.data with
  | nil =>
    rw [hd] at h
    exact absurd h (by simp)
  | cons d ds =>
    rw [hd] at h
    simpa using h

/-- A failure of the integer list loop starts with "Bad integer in list: ". -/
theorem parseIntList_error_head (env : Env) :
    ∀ (l : List String) (p : String), parseIntList env l = .error p →
      p.data.head? = some 'B'
  | [], p, h => by simp [parseIntList] at h
  | s :: rest, p, h => by
    unfold parseIntList at h
    cases hp : ParseInt s 64 with
    | error e =>
      rw [hp] at h
      simp only [Except.error.injEq] at h
      rw [← h]
      exact head_append _ _ 'B' rfl
    | ok i =>
      rw [hp] at h
      cases hr : parseIntList env rest with
      | error q =>
        rw [hr] at h
        simp only [Except.error.injEq] at h
        rw [← h]
        exact parseIntList_error_head env rest q hr
      | ok ints =>
        rw [hr] at h
        exact Except.noConfusion h

/-- No panic message of `initLimit` starts with the letter U: the "Unknown limit" panic is
never reached, since `strings.Split` always returns at least one piece. -/
theorem initLimit_error_head (env : Env) (fs : FormSpec) (msg : String)
    (h : fs.initLimit env = .error msg) :
    ∃ c, msg.data.head? = some c ∧ c ≠ 'U' := by
  have hpos : (Split fs.Limit ',').length > 0 := (Split_comma fs.Limit).1
  unfold FormSpec.initLimit at h
  simp only [hpos, if_true] at h
  by_cases h0 : fs.Limit = ""
  · rw [if_pos h0] at h
    exact Except.noConfusion h
  rw [if_neg h0] at h
  by_cases h1 : HasPrefix fs.Limit "re:" = true
  · rw [if_pos h1] at h
    cases hc : env.regexpCompile (TrimPrefix fs.Limit "re:") with
    | error e =>
      rw [hc] at h
      simp only [Except.error.injEq] at h
      rw [← h]
      exact ⟨'E', head_append _ _ 'E' rfl, by decide⟩
    | ok re =>
      rw [hc] at h
      exact Except.noConfusion h
  rw [if_neg h1] at h
  by_cases h2 : formSpecLimitMatchLength fs.Limit = true
  · rw [if_pos h2] at h
    by_cases h3 : fs.Typ ≠ "string" ∧ fs.Typ ≠ "int" ∧ fs.Typ ≠ "int64"
    · rw [if_pos h3] at h
      simp only [Except.error.injEq] at h
      rw [← h]
      exact ⟨'L', head_append _ _ 'L' rfl, by decide⟩
    · rw [if_neg h3] at h
      cases hp : ParseInt fs.Limit 32 with
      | error e =>
        rw [hp] at h
        simp only [Except.error.injEq] at h
        rw [← h]
        exact ⟨'E', head_append _ _ 'E' rfl, by decide⟩
      | ok i =>
        rw [hp] at h
        exact Except.noConfusion h
  rw [if_neg h2] at h
  cases hri : formSpecLimitMatchRangeInt fs.Limit with
  | some m =>
    obtain ⟨m1, m2⟩ := m
    rw [hri] at h
    simp only at h
    cases hp1 : ParseInt m1 (if fs.Typ = "int64" ∨ fs.Typ = "float" then 64 else 32) with
    | error e =>
      rw [hp1] at h
      simp only [Except.error.injEq] at h
      rw [← h]
      exact ⟨'E', head_append _ _ 'E' rfl, by decide⟩
    | ok lower =>
      rw [hp1] at h
      simp only at h
      cases hp2 : ParseInt m2 (if fs.Typ = "int64" ∨ fs.Typ = "float" then 64 else 32) with
      | error e =>
        rw [hp2] at h
        simp only [Except.error.injEq] at h
        rw [← h]
        exact ⟨'E', head_append _ _ 'E' rfl, by decide⟩
      | ok upper =>
        rw [hp2] at h
        simp only at h
        by_cases hul : upper < lower
        · rw [if_pos hul] at h
          simp only [Except.error.injEq] at h
          rw [← h]
          exact ⟨'B', rfl, by decide⟩
        · rw [if_neg hul] at h
          exact Except.noConfusion h
  | none =>
    rw [hri] at h
    simp only at h
    cases hrf : formSpecLimitMatchRangeFloat fs.Limit with
    | some m =>
      obtain ⟨m1, m2⟩ := m
      rw [hrf] at h
      simp only at h
      by_cases hty : fs.Typ ≠ "float"
      · rw [if_pos hty] at h
        simp only [Except.error.injEq] at h
        rw [← h]
        exact ⟨'F', head_append _ _ 'F' rfl, by decide⟩
      · rw [if_neg hty] at h
        cases hp1 : env.ParseFloat m1 with
        | error e =>
          rw [hp1] at h
          simp only [Except.error.injEq] at h
          rw [← h]
          exact ⟨'E', head_append _ _ 'E' rfl, by decide⟩
        | ok lower =>
          rw [hp1] at h
          simp only at h
          cases hp2 : env.ParseFloat m2 with
          | error e =>
            rw [hp2] at h
            simp only [Except.error.injEq] at h
            rw [← h]
            exact ⟨'E', head_append _ _ 'E' rfl, by decide⟩
          | ok upper =>
            rw [hp2] at h
            simp only at h
            by_cases hul : Float64.lt upper lower = true
            · rw [if_pos hul] at h
              simp only [Except.error.injEq] at h
              rw [← h]
              exact ⟨'B', rfl, by decide⟩
            · rw [if_neg hul] at h
              exact Except.noConfusion h
    | none =>
      rw [hrf] at h
      simp only at h
      by_cases hs : fs.Typ = "string"
      · rw [if_pos hs] at h
        exact Except.noConfusion h
      · rw [if_neg hs] at h
        by_cases hi : fs.Typ = "int" ∨ fs.Typ = "int64"
        · rw [if_pos hi] at h
          cases hpl : parseIntList env (Split fs.Limit ',') with
          | error p =>
            rw [hpl] at h
            simp only [Except.error.injEq] at h
            rw [← h]
            exact ⟨'B', parseIntList_error_head env _ p hpl, by decide⟩
          | ok ints =>
            rw [hpl] at h
            exact Except.noConfusion h
        · rw [if_neg hi] at h
          simp only [Except.error.injEq] at h
          rw [← h]
          exact ⟨'V', head_append _ _ 'V' rfl, by decide⟩

/-- Two texts with different first characters are different. -/
theorem ne_of_head (a b : String) (c d : Char) (ha : a.data.head? = some c)
    (hb : b.data.head? = some d) (hcd : c ≠ d) : a ≠ b := by
  intro h
  rw [h, hb] at ha
  exact hcd (Option.some.inj ha).symm

/-! ## Limits of no other shape, and types -/

/-- On a fresh spec of type bool, date, datetime or dateflex the integer range limit "1-10"
is stored without a panic, while the length limit "10" and the list limit "a,b" panic. -/
theorem Init_limits_on_unranged_type (env : Env) (typ key name : String)
    (req : Bool) (htyp : typ ∈ ["bool", "date", "datetime", "dateflex"]) :
    (FormSpec.literal key typ req "1-10" name).Init env (formSpecTypeMap env) =
      .ok { FormSpec.literal key typ req "1-10" name with limitRangeInt := [1, 10] } ∧
    (FormSpec.literal key typ req "10" name).Init env (formSpecTypeMap env) =
      .error ("Length limit does not apply to " ++ typ) ∧
    (FormSpec.literal key typ req "a,b" name).Init env (formSpecTypeMap env) =
      .error ("Value list not compatible with type " ++ typ) := by
  have hparse : ("1-10" = "") = False ∧ HasPrefix "1-10" "re:" = false ∧
      formSpecLimitMatchLength "1-10" = false ∧
      formSpecLimitMatchRangeInt "1-10" = some ("1", "10") ∧
      ParseInt "1" 32 = .ok 1 ∧ ParseInt "10" 32 = .ok 10 ∧
      ("10" = "") = False ∧ HasPrefix "10" "re:" = false ∧
      formSpecLimitMatchLength "10" = true ∧
      ("a,b" = "") = False ∧ HasPrefix "a,b" "re:" = false ∧
      formSpecLimitMatchLength "a,b" = false ∧ formSpecLimitMatchRangeInt "a,b" = none ∧
      formSpecLimitMatchRangeFloat "a,b" = none ∧ Split "a,b" ',' = ["a", "b"] := by decide
  obtain ⟨h0, h1, h2, h3, h4, h5, h6, h7, h8, h9, h10, h11, h12, h13, h14⟩ := hparse
  simp only [List.mem_cons, List.mem_singleton, List.not_mem_nil, or_false] at htyp
  rcases htyp with h | h | h | h <;> subst h <;>
    simp [FormSpec.Init, FormSpec.initLimit, formSpecTypeMap, FormSpec.literal, h1, h2, h3,
      h4, h5, h7, h8, h10, h11, h12, h13, h14]

/-- Claim C16 (evaluation). A fresh spec of type bool, date, datetime or dateflex with the
integer range limit "1-10" is initialised without a panic: the range is stored in
`limitRangeInt` and no validator is installed, although the length limit "10" and the list
limit "a,b" do panic on a bool spec. -/
theorem range_limit_accepted_on_unranged_types (env : Env) (key name : String) (req : Bool) :
    (FormSpec.literal key "bool" req "1-10" name).Init env (formSpecTypeMap env) =
      .ok { FormSpec.literal key "bool" req "1-10" name with limitRangeInt := [1, 10] } ∧
    (FormSpec.literal key "date" req "1-10" name).Init env (formSpecTypeMap env) =
      .ok { FormSpec.literal key "date" req "1-10" name with limitRangeInt := [1, 10] } ∧
    (FormSpec.literal key "datetime" req "1-10" name).Init env (formSpecTypeMap env) =
      .ok { FormSpec.literal key "datetime" req "1-10" name with limitRangeInt := [1, 10] } ∧
    (FormSpec.literal key "dateflex" req "1-10" name).Init env (formSpecTypeMap env) =
      .ok { FormSpec.literal key "dateflex" req "1-10" name with limitRangeInt := [1, 10] } ∧
    (FormSpec.literal key "bool" req "10" name).Init env (formSpecTypeMap env) =
      .error ("Length limit does not apply to " ++ "bool") ∧
    (FormSpec.literal key "bool" req "a,b" name).Init env (formSpecTypeMap env) =
      .error ("Value list not compatible with type " ++ "bool") :=
  ⟨(Init_limits_on_unranged_type env "bool" key name req (by decide)).1,
   (Init_limits_on_unranged_type env "date" key name req (by decide)).1,
   (Init_limits_on_unranged_type env "datetime" key name req (by decide)).1,
   (Init_limits_on_unranged_type env "dateflex" key name req (by decide)).1,
   (Init_limits_on_unranged_type env "bool" key name req (by decide)).2.1,
   (Init_limits_on_unranged_type env "bool" key name req (by decide)).2.2⟩

/-! ## Init and the registry; Copy -/

/-- Claim C17. A spec whose type is not a key of the registry makes `Init` panic with
"Unsupported FormSpec type: " followed by the type name, whatever its other fields; and on
a spec whose type is registered no panic of `Init` has that message or even starts with
"Unsupported FormSpec type: ". -/
theorem Init_unsupported_type (env : Env) (reg : Registry) (fs : FormSpec) :
    (reg fs.Typ = none →
      fs.Init env reg = .error ("Unsupported FormSpec type: " ++ fs.Typ)) ∧
    ((∃ t, reg fs.Typ = some t) → ∀ msg, fs.Init env reg = .error msg →
      msg ≠ "Unsupported FormSpec type: " ++ fs.Typ ∧
      HasPrefix msg "Unsupported FormSpec type: " = false) := by
  constructor
  · intro h
    unfold FormSpec.Init
    rw [h]
  · rintro ⟨t, ht⟩ msg hmsg
    unfold FormSpec.Init at hmsg
    rw [ht] at hmsg
    simp only at hmsg
    have hlim : fs.initLimit env = .error msg := by
      cases hc : t.custom
      · rw [hc] at hmsg
        simp only [Bool.not_false, if_true] at hmsg
        cases hil : fs.initLimit env with
        | error p =>
          rw [hil] at hmsg
          simp only [Except.error.injEq] at hmsg
          rw [hmsg]
        | ok fs1 =>
          rw [hil] at hmsg
          simp only at hmsg
          split_ifs at hmsg
      · rw [hc] at hmsg
        simp only [Bool.not_true, Bool.false_eq_true, if_false] at hmsg
        split_ifs at hmsg
    obtain ⟨c, hc, hcU⟩ := initLimit_error_head env fs msg hlim
    constructor
    · exact ne_of_head _ _ c 'U' hc (head_append _ _ 'U' rfl) hcU
    · unfold HasPrefix
      cases hd : msg.data with
      | nil =>
        rw [hd] at hc
        exact absurd hc (by simp)
      | cons d ds =>
        rw [hd] at hc
        have hdc : d = c := by simpa using hc
        have hne : d ≠ 'U' := hdc ▸ hcU
        show List.isPrefixOf ("Unsupported FormSpec type: ").data (d :: ds) = false
        have hlit : ("Unsupported FormSpec type: ").data =
            'U' :: ("nsupported FormSpec type: ").data := rfl
        rw [hlit]
        simp [List.isPrefixOf, Ne.symm hne]

/-- Witness of C17: the spec of `Test_FormSpec_Init_BadTypePanics`, and the same spec with
the registered type int, whose panic is another one. -/
theorem Init_unsupported_type_witness :
    (FormSpec.literal "foo" "NoSuchType" false "x=20" "Foo").Init asciiEnv
        (formSpecTypeMap asciiEnv) = .error "Unsupported FormSpec type: NoSuchType" ∧
    (FormSpec.literal "foo" "int" false "x=20" "Foo").Init asciiEnv (formSpecTypeMap asciiEnv) =
        .error "Bad integer in list: strconv.ParseInt: parsing \"x=20\": invalid syntax" ∧
    HasPrefix "Bad integer in list: strconv.ParseInt: parsing \"x=20\": invalid syntax"
        "Unsupported FormSpec type: " = false :=
  ⟨(Init_unsupported_type asciiEnv (formSpecTypeMap asciiEnv)
      (FormSpec.literal "foo" "NoSuchType" false "x=20" "Foo")).1 rfl,
   by decide,
   ((Init_unsupported_type asciiEnv (formSpecTypeMap asciiEnv)
      (FormSpec.literal "foo" "int" false "x=20" "Foo")).2 ⟨_, rfl⟩ _ (by decide)).2⟩

/-- Claim C18. With the type of the spec registered through `AddFormSpecType` (a new name
or the name of a built-in type), `Init` does not panic whatever the limit is, leaves the
six derived constraints and every other field but the validator as they were, and sets the
validator to the registered one only when the spec has none. -/
theorem custom_type_skips_limit_parsing (env : Env) (reg : Registry) (t : String)
    (cf : String → Value × Bool) (vf : Option ValidatorFn) (fs : FormSpec)
    (htyp : fs.Typ = t) :
    ∃ fs1, fs.Init env (AddFormSpecType reg t cf vf) = .ok fs1 ∧
      fs1.limitLength = fs.limitLength ∧ fs1.limitRangeInt = fs.limitRangeInt ∧
      fs1.limitRangeFloat = fs.limitRangeFloat ∧ fs1.limitListString = fs.limitListString ∧
      fs1.limitListInt = fs.limitListInt ∧ fs1.limitRegexp = fs.limitRegexp ∧
      fs1.Key = fs.Key ∧ fs1.Typ = fs.Typ ∧ fs1.Required = fs.Required ∧
      fs1.Limit = fs.Limit ∧ fs1.Name = fs.Name ∧
      fs1.Validator = (match fs.Validator with
        | none => vf
        | some v => some v) := by
  have hreg : AddFormSpecType reg t cf vf fs.Typ = some ⟨cf, vf, true⟩ := by
    unfold AddFormSpecType
    rw [if_pos htyp]
  unfold FormSpec.Init
  rw [hreg]
  simp only [Bool.not_true, Bool.false_eq_true, if_false]
  cases hv : fs.Validator with
  | none => exact ⟨_, rfl, rfl, rfl, rfl, rfl, rfl, rfl, rfl, rfl, rfl, rfl, rfl, rfl⟩
  | some v =>
    refine ⟨fs, ?_, rfl, rfl, rfl, rfl, rfl, rfl, rfl, rfl, rfl, rfl, rfl, hv⟩
    simp

/-- Witness of C18: with "string" re-registered as a custom type, the limit "5-3" (a panic
for the built-in type) is not parsed. -/
theorem custom_type_skips_limit_parsing_witness :
    (FormSpec.literal "foo" "string" false "5-3" "Foo").Init asciiEnv
        (formSpecTypeMap asciiEnv) = .error "Bad range limit: upper < lower." ∧
    ∃ fs1, (FormSpec.literal "foo" "string" false "5-3" "Foo").Init asciiEnv
        (AddFormSpecType (formSpecTypeMap asciiEnv) "string" stringConverter
          (some (.custom "mine"))) = .ok fs1 ∧
      fs1.limitRangeInt = [] ∧ fs1.Validator = some (.custom "mine") := by
  obtain ⟨fs1, h, _, hr, _, _, _, _, _, _, _, _, _, hv⟩ :=
    custom_type_skips_limit_parsing asciiEnv (formSpecTypeMap asciiEnv) "string" stringConverter
      (some (.custom "mine")) (FormSpec.literal "foo" "string" false "5-3" "Foo") rfl
  exact ⟨by decide, fs1, h, hr, hv⟩

/-- Claim C19. `Copy` panics exactly when the key is empty after trimming white space,
whatever the source spec and the name; the panic is "Empty FormSpec key.". -/
theorem Copy_panics_iff_key_empty (fs : FormSpec) (key name : String) :
    ((∃ msg, fs.Copy key name = .error msg) ↔ TrimSpace key = "") ∧
    ((∃ c, fs.Copy key name = .ok c) ↔ TrimSpace key ≠ "") ∧
    (TrimSpace key = "" → fs.Copy key name = .error "Empty FormSpec key.") := by
  by_cases h : TrimSpace key = ""
  · have hc : fs.Copy key name = .error "Empty FormSpec key." := by
      unfold FormSpec.Copy
      simp only [h, if_true]
    refine ⟨⟨fun _ => h, fun _ => ⟨_, hc⟩⟩, ⟨?_, fun hne => absurd h hne⟩, fun _ => hc⟩
    rintro ⟨c, hcc⟩
    rw [hc] at hcc
    exact Except.noConfusion hcc
  · have hc : ∃ c, fs.Copy key name = .ok c := by
      unfold FormSpec.Copy
      simp only [h, if_false]
      exact ⟨_, rfl⟩
    refine ⟨⟨?_, fun he => absurd he h⟩, ⟨fun _ => h, fun _ => hc⟩, fun he => absurd he h⟩
    rintro ⟨msg, hmsg⟩
    obtain ⟨c, hcc⟩ := hc
    rw [hcc] at hmsg
    exact Except.noConfusion hmsg

/-- Claim C20. For a key that is not empty after trimming, `Copy` returns a spec whose Key
is the trimmed key, whose Name is the trimmed name or, when that is empty, the new Key,
and whose Type, Required, Limit, Validator and six derived constraints are the source's.
(`Copy` is a function of the source: it has no way to change it.) -/
theorem Copy_keeps_source_state (fs : FormSpec) (key name : String)
    (hkey : TrimSpace key ≠ "") :
    ∃ c, fs.Copy key name = .ok c ∧
      c.Key = TrimSpace key ∧
      c.Name = (if TrimSpace name = "" then TrimSpace key else TrimSpace name) ∧
      c.Typ = fs.Typ ∧ c.Required = fs.Required ∧ c.Limit = fs.Limit ∧
      c.Validator = fs.Validator ∧
      c.limitLength = fs.limitLength ∧ c.limitRangeInt = fs.limitRangeInt ∧
      c.limitRangeFloat = fs.limitRangeFloat ∧ c.limitListString = fs.limitListString ∧
      c.limitListInt = fs.limitListInt ∧ c.limitRegexp = fs.limitRegexp := by
  unfold FormSpec.Copy
  simp only [hkey, if_false]
  exact ⟨_, rfl, rfl, rfl, rfl, rfl, rfl, rfl, rfl, rfl, rfl, rfl, rfl, rfl⟩

/-- Witness of C20: the copies of `Test_FormSpec_Copy_NameDefaults` and of a spec with an
exact length, whose constraint and validator are kept. -/
theorem Copy_keeps_source_state_witness :
    (∃ c, (FormSpec.literal "" "" false "" "").Copy "second" "" = .ok c ∧
      c.Key = "second" ∧ c.Name = "second") ∧
    (∃ c, exampleFoo.Copy " second " "The Second" = .ok c ∧
      c.Key = "second" ∧ c.Name = "The Second" ∧ c.Limit = "6" ∧ c.limitLength = 6 ∧
      c.Validator = some .stringValidator) := by
  obtain ⟨c1, h1, hk1, hn1, _⟩ :=
    Copy_keeps_source_state (FormSpec.literal "" "" false "" "") "second" "" (by decide)
  obtain ⟨c2, h2, hk2, hn2, _, _, hl2, hv2, hll2, _⟩ :=
    Copy_keeps_source_state exampleFoo " second " "The Second" (by decide)
  refine ⟨⟨c1, h1, ?_, ?_⟩, ⟨c2, h2, ?_, ?_, ?_, ?_, ?_⟩⟩
  · rw [hk1]; decide
  · rw [hn1]; decide
  · rw [hk2]; decide
  · rw [hn2]; decide
  · rw [hl2]; decide
  · rw [hll2]; decide
  · rw [hv2]; decide

/-- Witness of C19: `Copy("", "")` of `Test_FormSpec_Copy_RequiresKey` and a copy with a
white-space-only key panic; a copy with the key " k " does not. -/
theorem Copy_panics_iff_key_empty_witness :
    (FormSpec.literal "" "" false "" "").Copy "" "" = .error "Empty FormSpec key." ∧
    exampleFoo.Copy " \t\n" "Name" = .error "Empty FormSpec key." ∧
    (∃ c, exampleFoo.Copy " k " "" = .ok c) :=
  ⟨(Copy_panics_iff_key_empty (FormSpec.literal "" "" false "" "") "" "").2.2 (by decide),
   (Copy_panics_iff_key_empty exampleFoo " \t\n" "Name").2.2 (by decide),
   (Copy_panics_iff_key_empty exampleFoo " k " "").2.1.mpr (by decide)⟩

/-! ## Template helpers -/

/-- Claim C26. `TruncIntsTo t i` is a prefix of `i`: for `t ≥ 0` the first `min t (len i)`
elements, for negative `t` the first `len i + t` elements (none when that is not
positive). -/
theorem TruncIntsTo_takes_front (t : Int) (i : List Int) :
    (0 ≤ t → TruncIntsTo t i = i.take (min t.toNat i.length)) ∧
    (t < 0 → TruncIntsTo t i = i.take ((i.length : Int) + t).toNat) ∧
    (t < 0 → (i.length : Int) + t ≤ 0 → TruncIntsTo t i = []) ∧
    TruncIntsTo t i <+: i ∧
    (0 ≤ t → (TruncIntsTo t i).length ≤ t.toNat) := by
  have key : ∀ u : Int, (if i.length = 0 ∨ u ≤ 0 then []
      else if (i.length : Int) ≤ u then i else i.take u.toNat) = i.take u.toNat := by
    intro u
    by_cases h0 : i.length = 0 ∨ u ≤ 0
    · rw [if_pos h0]
      rcases h0 with h | h
      · rw [List.length_eq_zero.mp h]
        simp
      · have : u.toNat = 0 := by omega
        rw [this]
        rfl
    · rw [if_neg h0]
      by_cases h1 : (i.length : Int) ≤ u
      · rw [if_pos h1]
        exact (List.take_of_length_le (by omega)).symm
      · rw [if_neg h1]
  have hpos : 0 ≤ t → TruncIntsTo t i = i.take t.toNat := by
    intro ht
    unfold TruncIntsTo
    have : ¬ t < 0 := by omega
    simp only [this, if_false]
    exact key t
  have hneg : t < 0 → TruncIntsTo t i = i.take ((i.length : Int) + t).toNat := by
    intro ht
    unfold TruncIntsTo
    simp only [ht, if_true]
    rw [key (t + (i.length : Int)), Int.add_comm]
  refine ⟨?_, hneg, ?_, ?_, ?_⟩
  · intro ht
    rw [hpos ht]
    by_cases h : t.toNat ≤ i.length
    · rw [Nat.min_eq_left h]
    · rw [Nat.min_eq_right (by omega), List.take_of_length_le (by omega), List.take_length]
  · intro ht hle
    rw [hneg ht]
    have : ((i.length : Int) + t).toNat = 0 := by omega
    rw [this]
    rfl
  · by_cases ht : 0 ≤ t
    · rw [hpos ht]
      exact List.take_prefix _ _
    · rw [hneg (by omega)]
      exact List.take_prefix _ _
  · intro ht
    rw [hpos ht, List.length_take]
    exact Nat.min_le_left _ _

/-- Witness of C26: the cases of `Test_TruncIntsTo`. -/
theorem TruncIntsTo_takes_front_witness :
    TruncIntsTo 1 [] = [] ∧ TruncIntsTo 1 [4] = [4] ∧ TruncIntsTo 0 [4] = [] ∧
    TruncIntsTo 1 [3, 2] = [3] ∧ TruncIntsTo 2 [3, 2, 1] = [3, 2] ∧
    TruncIntsTo (-1) [3, 2, 1] = [3, 2] ∧ TruncIntsTo (-2) [3, 2, 1] = [3] ∧
    TruncIntsTo (-3) [3, 2, 1] = [] ∧ TruncIntsTo (-4) [3, 2, 1] = [] :=
  ⟨(TruncIntsTo_takes_front 1 []).1 (by decide),
   (TruncIntsTo_takes_front 1 [4]).1 (by decide),
   (TruncIntsTo_takes_front 0 [4]).1 (by decide),
   (TruncIntsTo_takes_front 1 [3, 2]).1 (by decide),
   (TruncIntsTo_takes_front 2 [3, 2, 1]).1 (by decide),
   (TruncIntsTo_takes_front (-1) [3, 2, 1]).2.1 (by decide),
   (TruncIntsTo_takes_front (-2) [3, 2, 1]).2.1 (by decide),
   (TruncIntsTo_takes_front (-3) [3, 2, 1]).2.2.1 (by decide) (by decide),
   (TruncIntsTo_takes_front (-4) [3, 2, 1]).2.2.1 (by decide) (by decide)⟩

/-! ## The standard validators as ordered checks -/

/-- Claim C28. On every spec state and every string the string validator is the ordered
checks, first failure winning: "wrong length" when an exact length is set (positive) and
the glyph length differs; else "too short" or "too long" when a range is set (two bounds)
and the glyph length is outside it; else "wrong format" when a pattern is set and does not
match; else "wrong value" when a non-empty string list is set and does not hold the
string; else it accepts. -/
theorem stringValidator_ordered_checks (env : Env) (fs : FormSpec) (s : String) :
    stringValidator env fs (.string s) = stringChecks env fs s := by
  have hmem : (∀ x ∈ fs.limitListString, ¬ s = x) ↔ s ∉ fs.limitListString := by
    constructor
    · intro h hm
      exact h s hm rfl
    · intro h x hx hsx
      exact h (hsx ▸ hx)
  have hlist : (0 < fs.limitListString.length) ↔ fs.limitListString ≠ [] :=
    List.length_pos
  unfold stringValidator stringChecks
  by_cases hlen : 0 < fs.limitLength ∧ (env.GlyphLength s : Int) ≠ fs.limitLength
  · have hlen2 : fs.limitLength > 0 ∧ (env.GlyphLength s : Int) ≠ fs.limitLength := hlen
    dsimp only
    rw [if_pos hlen]
    try rw [if_pos hlen2]
  · have hlen2 : ¬ (fs.limitLength > 0 ∧ (env.GlyphLength s : Int) ≠ fs.limitLength) := hlen
    dsimp only
    rw [if_neg hlen]
    try rw [if_neg hlen2]
    have hre : ∀ (r : Option Regexp),
        ((match r with
          | some re => !env.MatchString re s
          | none => false) = true) ↔ ∃ re, r = some re ∧ env.MatchString re s = false := by
      intro r
      cases r with
      | none => simp
      | some re => simp
    rcases hr : fs.limitRangeInt with _ | ⟨lo, _ | ⟨hi, _ | ⟨x, rest⟩⟩⟩
    · simp [hre, hmem, hlist]
    · simp [hre, hmem, hlist]
    · by_cases h1 : (env.GlyphLength s : Int) < lo
      · simp [h1]
      · by_cases h2 : (env.GlyphLength s : Int) > hi
        · have h2' : hi < (env.GlyphLength s : Int) := h2
          simp [h1, h2']
        · have h2' : ¬ hi < (env.GlyphLength s : Int) := h2
          simp [h1, h2', hre, hmem, hlist]
    · simp [hre, hmem, hlist]

/-! ## What initialisation changes -/

/-- When `initLimit` returns, the spec is unchanged (always so for the empty limit) or
exactly one limit field was assigned. -/
theorem initLimit_ok_shape (env : Env) (fs fs1 : FormSpec) (h : fs.initLimit env = .ok fs1) :
    (fs.Limit = "" → fs1 = fs) ∧
    (fs1 = fs ∨ (∃ re, fs1 = { fs with limitRegexp := some re }) ∨
      (∃ i, fs1 = { fs with limitLength := i }) ∨
      (∃ lo hi, fs1 = { fs with limitRangeInt := [lo, hi] }) ∨
      (∃ lo hi, fs1 = { fs with limitRangeFloat := [lo, hi] }) ∨
      fs1 = { fs with limitListString := Split fs.Limit ',' }) := by
  unfold FormSpec.initLimit at h
  by_cases h0 : fs.Limit = ""
  · rw [if_pos h0] at h
    have : fs1 = fs := (Except.ok.inj h).symm
    exact ⟨fun _ => this, Or.inl this⟩
  refine ⟨fun he => absurd he h0, ?_⟩
  rw [if_neg h0] at h
  by_cases h1 : HasPrefix fs.Limit "re:" = true
  · rw [if_pos h1] at h
    cases hc : env.regexpCompile (TrimPrefix fs.Limit "re:") with
    | error e =>
      rw [hc] at h
      exact Except.noConfusion h
    | ok re =>
      rw [hc] at h
      exact Or.inr (Or.inl ⟨re, (Except.ok.inj h).symm⟩)
  rw [if_neg h1] at h
  by_cases h2 : formSpecLimitMatchLength fs.Limit = true
  · rw [if_pos h2] at h
    by_cases h3 : fs.Typ ≠ "string" ∧ fs.Typ ≠ "int" ∧ fs.Typ ≠ "int64"
    · rw [if_pos h3] at h
      exact Except.noConfusion h
    · rw [if_neg h3] at h
      cases hp : ParseInt fs.Limit 32 with
      | error e =>
        rw [hp] at h
        exact Except.noConfusion h
      | ok i =>
        rw [hp] at h
        exact Or.inr (Or.inr (Or.inl ⟨i, (Except.ok.inj h).symm⟩))
  rw [if_neg h2] at h
  cases hri : formSpecLimitMatchRangeInt fs.Limit with
  | some m =>
    obtain ⟨m1, m2⟩ := m
    rw [hri] at h
    simp only at h
    cases hp1 : ParseInt m1 (if fs.Typ = "int64" ∨ fs.Typ = "float" then 64 else 32) with
    | error e =>
      rw [hp1] at h
      exact Except.noConfusion h
    | ok lower =>
      rw [hp1] at h
      simp only at h
      cases hp2 : ParseInt m2 (if fs.Typ = "int64" ∨ fs.Typ = "float" then 64 else 32) with
      | error e =>
        rw [hp2] at h
        exact Except.noConfusion h
      | ok upper =>
        rw [hp2] at h
        simp only at h
        by_cases hul : upper < lower
        · rw [if_pos hul] at h
          exact Except.noConfusion h
        · rw [if_neg hul] at h
          exact Or.inr (Or.inr (Or.inr (Or.inl ⟨lower, upper, (Except.ok.inj h).symm⟩)))
  | none =>
    rw [hri] at h
    simp only at h
    cases hrf : formSpecLimitMatchRangeFloat fs.Limit with
    | some m =>
      obtain ⟨m1, m2⟩ := m
      rw [hrf] at h
      simp only at h
      by_cases hty : fs.Typ ≠ "float"
      · rw [if_pos hty] at h
        exact Except.noConfusion h
      · rw [if_neg hty] at h
        cases hp1 : env.ParseFloat m1 with
        | error e =>
          rw [hp1] at h
          exact Except.noConfusion h
        | ok lower =>
          rw [hp1] at h
          simp only at h
          cases hp2 : env.ParseFloat m2 with
          | error e =>
            rw [hp2] at h
            exact Except.noConfusion h
          | ok upper =>
            rw [hp2] at h
            simp only at h
            by_cases hul : Float64.lt upper lower = true
            · rw [if_pos hul] at h
              exact Except.noConfusion h
            · rw [if_neg hul] at h
              exact Or.inr (Or.inr (Or.inr (Or.inr (Or.inl
                ⟨lower, upper, (Except.ok.inj h).symm⟩))))
    | none =>
      rw [hrf] at h
      simp only at h
      have hpos : (Split fs.Limit ',').length > 0 := (Split_comma fs.Limit).1
      rw [if_pos hpos] at h
      by_cases hs : fs.Typ = "string"
      · rw [if_pos hs] at h
        exact Or.inr (Or.inr (Or.inr (Or.inr (Or.inr (Except.ok.inj h).symm))))
      · rw [if_neg hs] at h
        by_cases hi : fs.Typ = "int" ∨ fs.Typ = "int64"
        · rw [if_pos hi] at h
          cases hpl : parseIntList env (Split fs.Limit ',') with
          | error p =>
            rw [hpl] at h
            exact Except.noConfusion h
          | ok ints =>
            rw [hpl] at h
            exact Or.inl (Except.ok.inj h).symm
        · rw [if_neg hi] at h
          exact Except.noConfusion h

/-- When `Init` returns, its result is the result of `initLimit` (or the spec itself, for a
custom type) with at most the validator replaced. -/
theorem Init_ok_shape (env : Env) (reg : Registry) (fs fs2 : FormSpec)
    (h : fs.Init env reg = .ok fs2) :
    ∃ fs1 v, (fs.initLimit env = .ok fs1 ∨ fs1 = fs) ∧ fs2 = { fs1 with Validator := v } := by
  unfold FormSpec.Init at h
  cases hr : reg fs.Typ with
  | none =>
    rw [hr] at h
    exact Except.noConfusion h
  | some t =>
    rw [hr] at h
    simp only at h
    cases hc : t.custom
    · rw [hc] at h
      simp only [Bool.not_false, if_true] at h
      cases hil : fs.initLimit env with
      | error p =>
        rw [hil] at h
        exact Except.noConfusion h
      | ok fs1 =>
        rw [hil] at h
        simp only at h
        by_cases hv : fs1.Validator = none
        · rw [if_pos hv] at h
          exact ⟨fs1, t.validator, Or.inl rfl, (Except.ok.inj h).symm⟩
        · rw [if_neg hv] at h
          exact ⟨fs1, fs1.Validator, Or.inl rfl, (Except.ok.inj h).symm⟩
    · rw [hc] at h
      simp only [Bool.not_true, Bool.false_eq_true, if_false] at h
      by_cases hv : fs.Validator = none
      · rw [if_pos hv] at h
        exact ⟨fs, t.validator, Or.inr rfl, (Except.ok.inj h).symm⟩
      · rw [if_neg hv] at h
        exact ⟨fs, fs.Validator, Or.inr rfl, (Except.ok.inj h).symm⟩

/-- `Init` never changes Key, Type, Required, Limit or Name. -/
theorem Init_keeps_fields (env : Env) (reg : Registry) (fs fs2 : FormSpec)
    (h : fs.Init env reg = .ok fs2) :
    fs2.Key = fs.Key ∧ fs2.Typ = fs.Typ ∧ fs2.Required = fs.Required ∧
      fs2.Limit = fs.Limit ∧ fs2.Name = fs.Name := by
  obtain ⟨fs1, v, h1, h2⟩ := Init_ok_shape env reg fs fs2 h
  subst h2
  rcases h1 with h1 | h1
  · rcases (initLimit_ok_shape env fs fs1 h1).2 with
      h | ⟨re, h⟩ | ⟨i, h⟩ | ⟨lo, hi, h⟩ | ⟨lo, hi, h⟩ | h <;> subst h <;>
      exact ⟨rfl, rfl, rfl, rfl, rfl⟩
  · subst h1
    exact ⟨rfl, rfl, rfl, rfl, rfl⟩

/-- Claim C30. When `Init` succeeds on a freshly constructed spec (no derived constraint
set), at most one of the six derived constraints is set afterwards, none of them when the
limit is empty, and Key, Type, Required, Limit and Name are unchanged; this holds for the
built-in registry and for any other. -/
theorem Init_sets_at_most_one_constraint (env : Env) (reg : Registry)
    (key typ limit name : String) (req : Bool) (fs2 : FormSpec)
    (h : (FormSpec.literal key typ req limit name).Init env reg = .ok fs2) :
    constraintCount fs2 ≤ 1 ∧ (limit = "" → constraintCount fs2 = 0) ∧
    fs2.Key = key ∧ fs2.Typ = typ ∧ fs2.Required = req ∧ fs2.Limit = limit ∧
    fs2.Name = name := by
  obtain ⟨hk, ht, hr, hl, hn⟩ := Init_keeps_fields env reg _ fs2 h
  refine ⟨?_, ?_, hk, ht, hr, hl, hn⟩
  · obtain ⟨fs1, v, h1, h2⟩ := Init_ok_shape env reg _ fs2 h
    subst h2
    rcases h1 with h1 | h1
    · rcases (initLimit_ok_shape env _ fs1 h1).2 with
        h | ⟨re, h⟩ | ⟨i, h⟩ | ⟨lo, hi, h⟩ | ⟨lo, hi, h⟩ | h <;> subst h
      · simp [constraintCount, FormSpec.literal]
      · simp [constraintCount, FormSpec.literal]
      · clear h h1
        by_cases hi : i = 0 <;> simp [constraintCount, FormSpec.literal, hi]
      · simp [constraintCount, FormSpec.literal]
      · simp [constraintCount, FormSpec.literal]
      · clear h h1
        by_cases hs : Split limit ',' = [] <;> simp [constraintCount, FormSpec.literal, hs]
    · subst h1
      simp [constraintCount, FormSpec.literal]
  · intro hempty
    obtain ⟨fs1, v, h1, h2⟩ := Init_ok_shape env reg _ fs2 h
    subst h2
    have hfs1 : fs1 = FormSpec.literal key typ req limit name := by
      rcases h1 with h1 | h1
      · exact (initLimit_ok_shape env _ fs1 h1).1 hempty
      · exact h1
    subst hfs1
    simp [constraintCount, FormSpec.literal]

/-- Witness of C30: the specs of `ExampleDecodeForm` hold one constraint each, a spec
without limit none. -/
theorem Init_sets_at_most_one_constraint_witness :
    (FormSpec.literal "foo" "string" true "6" "Foo").Init asciiEnv (formSpecTypeMap asciiEnv) =
      .ok exampleFoo ∧
    constraintCount exampleFoo = 1 ∧ constraintCount exampleBar = 1 ∧
    constraintCount requiredFoo = 0 ∧ constraintCount exampleFoo ≤ 1 :=
  ⟨by decide, by decide, by decide, by decide,
   (Init_sets_at_most_one_constraint asciiEnv (formSpecTypeMap asciiEnv) "foo" "string" "6"
      "Foo" true exampleFoo (by decide)).1⟩

/-! ## Constructors, the flexible date type, free-form limits -/

/-- Claim C21. `NewFormSpec` panics when the key trims to empty or when more than two
optional arguments are given; otherwise it is `Init` on the spec with Required r, the
trimmed key, the type, the limit argument (or "") and the name argument (or the trimmed
key), and whenever it returns the result has exactly those five fields; with the limit
omitted it returns for every built-in type.  `RequiredFormSpec` and `OptionalFormSpec` are
`NewFormSpec` with r true and false. -/
theorem NewFormSpec_fields (env : Env) (reg : Registry) (r : Bool) (k t : String)
    (args : List String) :
    (TrimSpace k = "" → NewFormSpec env reg r k t args = .error "key may not be empty") ∧
    (TrimSpace k ≠ "" → 2 < args.length →
      NewFormSpec env reg r k t args = .error "too many args") ∧
    (TrimSpace k ≠ "" → args.length ≤ 2 →
      NewFormSpec env reg r k t args =
        (FormSpec.literal (TrimSpace k) t r (args.headD "")
          (match args with
           | [_, n] => n
           | _ => TrimSpace k)).Init env reg) ∧
    (∀ fs, NewFormSpec env reg r k t args = .ok fs →
      fs.Required = r ∧ fs.Key = TrimSpace k ∧ fs.Typ = t ∧ fs.Limit = args.headD "" ∧
      fs.Name = (match args with
        | [_, n] => n
        | _ => TrimSpace k)) ∧
    (t ∈ builtinTypes → TrimSpace k ≠ "" →
      ∃ fs, NewFormSpec env (formSpecTypeMap env) r k t [] = .ok fs ∧
        fs.Required = r ∧ fs.Key = TrimSpace k ∧ fs.Typ = t ∧ fs.Limit = "" ∧
        fs.Name = TrimSpace k) ∧
    RequiredFormSpec env reg k t args = NewFormSpec env reg true k t args ∧
    OptionalFormSpec env reg k t args = NewFormSpec env reg false k t args := by
  have hinit : TrimSpace k ≠ "" → args.length ≤ 2 →
      NewFormSpec env reg r k t args =
        (FormSpec.literal (TrimSpace k) t r (args.headD "")
          (match args with
           | [_, n] => n
           | _ => TrimSpace k)).Init env reg := by
    intro hk hlen
    unfold NewFormSpec
    have hl : ¬ args.length > 2 := by omega
    simp only [hk, if_false, hl]
    cases args with
    | nil => rfl
    | cons a rest => rfl
  refine ⟨?_, ?_, hinit, ?_, ?_, rfl, rfl⟩
  · intro hk
    unfold NewFormSpec
    simp only [hk, if_true]
  · intro hk hlen
    unfold NewFormSpec
    have hl : args.length > 2 := hlen
    simp only [hk, if_false, hl, if_true]
  · intro fs hfs
    by_cases hk : TrimSpace k = ""
    · unfold NewFormSpec at hfs
      simp only [hk, if_true] at hfs
      exact Except.noConfusion hfs
    · by_cases hlen : args.length ≤ 2
      · rw [hinit hk hlen] at hfs
        obtain ⟨h1, h2, h3, h4, h5⟩ := Init_keeps_fields env reg _ fs hfs
        exact ⟨h3, h1, h2, h4, h5⟩
      · unfold NewFormSpec at hfs
        have hl : args.length > 2 := by omega
        simp only [hk, if_false, hl, if_true] at hfs
        exact Except.noConfusion hfs
  · intro htyp hk
    obtain ⟨e, he, hcustom⟩ := formSpecTypeMap_builtin env t htyp
    have hnew : NewFormSpec env (formSpecTypeMap env) r k t [] =
        (FormSpec.literal (TrimSpace k) t r "" (TrimSpace k)).Init env (formSpecTypeMap env) := by
      unfold NewFormSpec
      simp only [hk, if_false, List.length_nil]
      rfl
    have hlim : (FormSpec.literal (TrimSpace k) t r "" (TrimSpace k)).initLimit env =
        .ok (FormSpec.literal (TrimSpace k) t r "" (TrimSpace k)) := by
      unfold FormSpec.initLimit
      simp [FormSpec.literal]
    have hok : (FormSpec.literal (TrimSpace k) t r "" (TrimSpace k)).Init env
        (formSpecTypeMap env) =
        .ok { FormSpec.literal (TrimSpace k) t r "" (TrimSpace k) with
              Validator := e.validator } := by
      rw [Init_standard env (formSpecTypeMap env)
        (FormSpec.literal (TrimSpace k) t r "" (TrimSpace k)) e he hcustom, hlim]
      simp [FormSpec.literal]
    exact ⟨_, hnew.trans hok, rfl, rfl, rfl, rfl, rfl⟩

/-- Witness of C21: the three calls of `Test_RequiredFormSpec`, a call with a key to trim,
and the two panics. -/
theorem NewFormSpec_fields_witness :
    RequiredFormSpec asciiEnv (formSpecTypeMap asciiEnv) "foo" "string" [] =
      .ok requiredFoo ∧
    RequiredFormSpec asciiEnv (formSpecTypeMap asciiEnv) "foo" "string" ["8"] =
      .ok { FormSpec.literal "foo" "string" true "8" "foo" with
            limitLength := 8, Validator := some .stringValidator } ∧
    RequiredFormSpec asciiEnv (formSpecTypeMap asciiEnv) "foo" "string" ["8", "The Foo"] =
      .ok { FormSpec.literal "foo" "string" true "8" "The Foo" with
            limitLength := 8, Validator := some .stringValidator } ∧
    (∃ fs, NewFormSpec asciiEnv (formSpecTypeMap asciiEnv) false " bar\n" "int" [] = .ok fs ∧
      fs.Required = false ∧ fs.Key = "bar" ∧ fs.Typ = "int" ∧ fs.Limit = "" ∧ fs.Name = "bar") ∧
    NewFormSpec asciiEnv (formSpecTypeMap asciiEnv) true "  " "string" [] =
      .error "key may not be empty" ∧
    NewFormSpec asciiEnv (formSpecTypeMap asciiEnv) true "foo" "string" ["8", "a", "b"] =
      .error "too many args" := by
  have h := NewFormSpec_fields asciiEnv (formSpecTypeMap asciiEnv) false " bar\n" "int" []
  obtain ⟨fs, hfs, h1, h2, h3, h4, h5⟩ := h.2.2.2.2.1 (by decide) (by decide)
  refine ⟨by decide, by decide, by decide, ⟨fs, hfs, h1, ?_, h3, h4, ?_⟩, ?_, ?_⟩
  · rw [h2]; decide
  · rw [h5]; decide
  · exact (NewFormSpec_fields asciiEnv (formSpecTypeMap asciiEnv) true "  " "string" []).1
      (by decide)
  · exact (NewFormSpec_fields asciiEnv (formSpecTypeMap asciiEnv) true "foo" "string"
      ["8", "a", "b"]).2.1 (by decide) (by decide)

/-- The layout loop returns the parse under the first layout of the list that parses. -/
theorem parseLayouts_first (env : Env) (raw : String) : ∀ layouts : List String,
    parseLayouts env layouts raw = layouts.findSome? (fun l => env.ParseInLocation l raw)
  | [] => rfl
  | l :: rest => by
    have ih := parseLayouts_first env raw rest
    unfold parseLayouts
    cases h : env.ParseInLocation l raw with
    | some d => simp [List.findSome?, h]
    | none => simp [List.findSome?, h, ih]

/-- Claim C22. On every raw string the dateflex converter returns what the date converter
returns when that one succeeds and what the datetime converter returns otherwise; so it
succeeds exactly when one of the two succeeds.  Each converter returns the parse under the
first layout of its list that parses. -/
theorem dateFlexConverter_date_first (env : Env) (raw : String) :
    dateFlexConverter env raw =
      (if (dateConverter env raw).2 = true then dateConverter env raw
       else dateTimeConverter env raw) ∧
    ((dateFlexConverter env raw).2 = true ↔
      (dateConverter env raw).2 = true ∨ (dateTimeConverter env raw).2 = true) ∧
    (raw ≠ "" → dateConverter env raw =
      match DateFormats.findSome? (fun l => env.ParseInLocation l raw) with
      | some d => (.time d, true)
      | none => (.nil, false)) ∧
    (raw ≠ "" → dateTimeConverter env raw =
      match DateTimeFormats.findSome? (fun l => env.ParseInLocation l raw) with
      | some d => (.time d, true)
      | none => (.nil, false)) := by
  have hmain : dateFlexConverter env raw =
      (if (dateConverter env raw).2 = true then dateConverter env raw
       else dateTimeConverter env raw) := by
    unfold dateFlexConverter dateConverter dateTimeConverter
    by_cases h0 : raw = ""
    · simp [h0]
    · simp only [h0, if_false]
      cases hd : parseLayouts env DateFormats raw with
      | some d => simp
      | none =>
        cases hdt : parseLayouts env DateTimeFormats raw with
        | some d => simp
        | none => simp
  refine ⟨hmain, ?_, ?_, ?_⟩
  · rw [hmain]
    by_cases hd : (dateConverter env raw).2 = true
    · simp [hd]
    · simp [hd]
  · intro h0
    unfold dateConverter
    rw [if_neg h0, parseLayouts_first]
  · intro h0
    unfold dateTimeConverter
    rw [if_neg h0, parseLayouts_first]

/-- A text without the separator is split into itself. -/
theorem splitChars_no_sep_self (sep : Char) : ∀ cs : List Char, sep ∉ cs →
    splitChars sep cs = [cs]
  | [], _ => rfl
  | c :: cs, h => by
    have hc : c ≠ sep := fun hc => h (hc ▸ List.mem_cons_self _ _)
    have ih := splitChars_no_sep_self sep cs (fun hm => h (List.mem_cons_of_mem _ hm))
    unfold splitChars
    rw [if_neg hc, ih]

/-- Claim C27. On a string spec whose non-empty limit does not start with "re:" and matches
none of the length, integer range and float range patterns, `Init` (with the built-in
registry) does not panic and stores the pieces of the limit split at commas as the string
list, leaving the other fields but the validator as they were; the list has at least one
piece and is the limit itself when the limit has no comma. -/
theorem Init_string_free_form_limit (env : Env) (fs : FormSpec) (htyp : fs.Typ = "string")
    (hne : fs.Limit ≠ "") (hre : HasPrefix fs.Limit "re:" = false)
    (hlen : formSpecLimitMatchLength fs.Limit = false)
    (hri : formSpecLimitMatchRangeInt fs.Limit = none)
    (hrf : formSpecLimitMatchRangeFloat fs.Limit = none) :
    fs.Init env (formSpecTypeMap env) =
      .ok { fs with limitListString := Split fs.Limit ',',
                    Validator := (match fs.Validator with
                      | none => some .stringValidator
                      | some v => some v) } ∧
    0 < (Split fs.Limit ',').length ∧ Join (Split fs.Limit ',') "," = fs.Limit ∧
    (',' ∉ fs.Limit.data → Split fs.Limit ',' = [fs.Limit]) := by
  obtain ⟨hpos, _, hjoin⟩ := Split_comma fs.Limit
  refine ⟨?_, hpos, hjoin, ?_⟩
  · have hreg : formSpecTypeMap env fs.Typ =
        some ⟨stringConverter, some .stringValidator, false⟩ := by
      rw [htyp]
      rfl
    rw [Init_standard env (formSpecTypeMap env) fs _ hreg rfl,
      initLimit_list env fs hne hre hlen hri hrf, if_pos htyp]
    cases hv : fs.Validator with
    | none => simp [hv]
    | some v => simp [hv]
  · intro hno
    unfold Split
    rw [splitChars_no_sep_self ',' fs.Limit.data hno]
    rfl

/-- Witness of C27: the spec of `Test_FormSpec_Init`. -/
theorem Init_string_free_form_limit_witness :
    (FormSpec.literal "foo" "string" false "x=20" "Foo").Init asciiEnv
        (formSpecTypeMap asciiEnv) =
      .ok { FormSpec.literal "foo" "string" false "x=20" "Foo" with
            limitListString := ["x=20"], Validator := some .stringValidator } := by
  have h := Init_string_free_form_limit asciiEnv
    (FormSpec.literal "foo" "string" false "x=20" "Foo") rfl (by decide) (by decide)
    (by decide) (by decide) (by decide)
  rw [h.1]
  decide

/-! ## The integer converters and their widths -/

/-- The digit loop fails on a text holding a character that is not a decimal digit. -/
theorem parseUintLoop_not_digits (maxVal : Nat) :
    ∀ (cs : List Char) (n : Nat), ¬ cs.all isDigit = true →
      ∃ e, parseUintLoop maxVal cs n = .error e
  | [], _, h => absurd rfl h
  | c :: cs, n, h => by
    unfold parseUintLoop
    by_cases hc : isDigit c = true
    · have hrest : ¬ cs.all isDigit = true := by
        intro hr
        apply h
        simp only [List.all_cons, Bool.and_eq_true]
        exact ⟨hc, hr⟩
      simp only [hc, Bool.not_true, Bool.false_eq_true, if_false]
      by_cases h1 : (2 ^ 64 - 1) / 10 + 1 ≤ n
      · rw [if_pos h1]
        exact ⟨_, rfl⟩
      · rw [if_neg h1]
        by_cases h2 : maxVal < n * 10 + digitVal c
        · rw [if_pos h2]
          exact ⟨_, rfl⟩
        · rw [if_neg h2]
          exact parseUintLoop_not_digits maxVal cs _ hrest
    · have hc2 : isDigit c = false := by
        cases hx : isDigit c
        · rfl
        · exact absurd hx hc
      simp only [hc2, Bool.not_false, if_true]
      exact ⟨_, rfl⟩

/-- The digit loop reports a range error on a digit string whose value exceeds `maxVal`. -/
theorem parseUintLoop_overflow (maxVal : Nat) :
    ∀ (cs : List Char) (n : Nat), cs.all isDigit = true → n ≤ maxVal →
      maxVal < cs.foldl (fun a c => a * 10 + digitVal c) n →
      parseUintLoop maxVal cs n = .error "value out of range"
  | [], n, _, hn, hbig => by
    simp only [List.foldl_nil] at hbig
    omega
  | c :: cs, n, h, hn, hbig => by
    simp only [List.all_cons, Bool.and_eq_true] at h
    simp only [List.foldl_cons] at hbig
    simp only [parseUintLoop, h.1, Bool.not_true, Bool.false_eq_true, if_false]
    by_cases h1 : (2 ^ 64 - 1) / 10 + 1 ≤ n
    · rw [if_pos h1]
    · rw [if_neg h1]
      by_cases h2 : maxVal < n * 10 + digitVal c
      · rw [if_pos h2]
      · rw [if_neg h2]
        exact parseUintLoop_overflow maxVal cs _ h.2 (by omega) hbig

/-- The body of `ParseInt` once the sign is split off and digits remain. -/
theorem ParseInt_unfold (s : String) (bits : Nat) (c : Char) (cs : List Char) (d : Char)
    (ds1 : List Char) (hd : s.data = c :: cs)
    (hds : (if c = '+' ∨ c = '-' then cs else c :: cs) = d :: ds1) :
    ParseInt s bits =
      match (match parseUintLoop (2 ^ bits - 1) (d :: ds1) 0 with
          | .ok un => (Except.ok un : Except String Nat)
          | .error e => if e = "value out of range" then .ok (2 ^ bits - 1) else .error e) with
      | .error _ => .error ⟨"ParseInt", s, "invalid syntax"⟩
      | .ok un =>
        if !(decide (c = '-')) && 2 ^ (bits - 1) ≤ un then
          .error ⟨"ParseInt", s, "value out of range"⟩
        else if decide (c = '-') && 2 ^ (bits - 1) < un then
          .error ⟨"ParseInt", s, "value out of range"⟩
        else .ok (if decide (c = '-') then -(un : Int) else (un : Int)) := by
  unfold ParseInt
  rw [hd]
  simp only [hds]

/-- `ParseInt` fails when no digit follows the sign. -/
theorem ParseInt_no_digits (s : String) (bits : Nat) (c : Char) (cs : List Char)
    (hd : s.data = c :: cs) (hds : (if c = '+' ∨ c = '-' then cs else c :: cs) = []) :
    ∃ e, ParseInt s bits = .error e := by
  unfold ParseInt
  rw [hd]
  simp only [hds]
  exact ⟨_, rfl⟩

/-- `ParseInt` fails when the text after the sign holds a character that is not a digit. -/
theorem ParseInt_not_digits (s : String) (bits : Nat) (hb : 2 ≤ bits) (c : Char)
    (cs ds : List Char) (hd : s.data = c :: cs)
    (hds : (if c = '+' ∨ c = '-' then cs else c :: cs) = ds)
    (hbad : ¬ ds.all isDigit = true) : ∃ e, ParseInt s bits = .error e := by
  cases ds with
  | nil => exact ParseInt_no_digits s bits c cs hd hds
  | cons d ds1 =>
    rw [ParseInt_unfold s bits c cs d ds1 hd hds]
    obtain ⟨e, he⟩ := parseUintLoop_not_digits (2 ^ bits - 1) (d :: ds1) 0 hbad
    rw [he]
    dsimp only
    have hpow : 2 ^ bits = 2 * 2 ^ (bits - 1) := by
      obtain ⟨k, rfl⟩ : ∃ k, bits = k + 1 := ⟨bits - 1, by omega⟩
      simp [Nat.pow_succ, Nat.mul_comm]
    have hpos : 2 ^ 1 ≤ 2 ^ (bits - 1) := Nat.pow_le_pow_right (by omega) (by omega)
    by_cases hr : e = "value out of range"
    · rw [if_pos hr]
      have h1 : 2 ^ (bits - 1) ≤ 2 ^ bits - 1 := by omega
      have h2 : 2 ^ (bits - 1) < 2 ^ bits - 1 := by omega
      by_cases hc : c = '-'
      · simp only [hc, decide_True, Bool.not_true, Bool.false_and, Bool.false_eq_true,
          if_false, Bool.true_and, decide_eq_true_eq, h2, if_true]
        exact ⟨_, rfl⟩
      · simp only [hc, decide_False, Bool.not_false, Bool.true_and, decide_eq_true_eq, h1,
          if_true]
        exact ⟨_, rfl⟩
    · rw [if_neg hr]
      exact ⟨_, rfl⟩

/-- `ParseInt` on a sign followed by digits, or on digits alone: the value when it fits the
width, a range error otherwise. -/
theorem ParseInt_signed_digits (s : String) (bits : Nat) (hb : 2 ≤ bits) (hb2 : bits ≤ 64)
    (c : Char) (cs ds : List Char) (hd : s.data = c :: cs)
    (hds : (if c = '+' ∨ c = '-' then cs else c :: cs) = ds) (hne : ds ≠ [])
    (hall : ds.all isDigit = true) :
    ParseInt s bits =
      if c = '-' then
        (if digitsValue ds ≤ 2 ^ (bits - 1) then .ok (-(digitsValue ds : Int))
         else .error ⟨"ParseInt", s, "value out of range"⟩)
      else
        (if digitsValue ds < 2 ^ (bits - 1) then .ok (digitsValue ds : Int)
         else .error ⟨"ParseInt", s, "value out of range"⟩) := by
  obtain ⟨d, ds1, rfl⟩ := List.exists_cons_of_ne_nil hne
  rw [ParseInt_unfold s bits c cs d ds1 hd hds]
  have hpow : 2 ^ bits = 2 * 2 ^ (bits - 1) := by
    obtain ⟨k, rfl⟩ : ∃ k, bits = k + 1 := ⟨bits - 1, by omega⟩
    simp [Nat.pow_succ, Nat.mul_comm]
  have hpos : 2 ^ 1 ≤ 2 ^ (bits - 1) := Nat.pow_le_pow_right (by omega) (by omega)
  have hpow64 : 2 ^ bits ≤ 2 ^ 64 := Nat.pow_le_pow_right (by omega) hb2
  by_cases hfit : digitsValue (d :: ds1) ≤ 2 ^ bits - 1
  · have hpd : parseUintLoop (2 ^ bits - 1) (d :: ds1) 0 = .ok (digitsValue (d :: ds1)) :=
      parseUintLoop_eq (2 ^ bits - 1) (by omega) (d :: ds1) 0 hall hfit
    rw [hpd]
    dsimp only
    by_cases hc : c = '-'
    · simp only [hc, decide_True, Bool.not_true, Bool.false_and, Bool.false_eq_true,
        if_false, Bool.true_and, decide_eq_true_eq, if_true]
      by_cases hle : digitsValue (d :: ds1) ≤ 2 ^ (bits - 1)
      · have hlt : ¬ 2 ^ (bits - 1) < digitsValue (d :: ds1) := by omega
        rw [if_neg hlt, if_pos hle]
      · have hlt : 2 ^ (bits - 1) < digitsValue (d :: ds1) := by omega
        rw [if_pos hlt, if_neg hle]
    · simp only [hc, decide_False, Bool.not_false, Bool.true_and, decide_eq_true_eq,
        if_false, Bool.false_and, Bool.false_eq_true]
      by_cases hlt : digitsValue (d :: ds1) < 2 ^ (bits - 1)
      · have hle : ¬ 2 ^ (bits - 1) ≤ digitsValue (d :: ds1) := by omega
        rw [if_neg hle, if_pos hlt]
      · have hle : 2 ^ (bits - 1) ≤ digitsValue (d :: ds1) := by omega
        rw [if_pos hle, if_neg hlt]
  · have hpd := parseUintLoop_overflow (2 ^ bits - 1) (d :: ds1) 0 hall (Nat.zero_le _)
      (by unfold digitsValue at hfit; omega)
    rw [hpd]
    dsimp only
    have h1 : 2 ^ (bits - 1) ≤ 2 ^ bits - 1 := by omega
    have h2 : 2 ^ (bits - 1) < 2 ^ bits - 1 := by omega
    by_cases hc : c = '-'
    · have hle : ¬ digitsValue (d :: ds1) ≤ 2 ^ (bits - 1) := by omega
      simp only [hc, decide_True, Bool.not_true, Bool.false_and, Bool.false_eq_true,
        if_false, Bool.true_and, decide_eq_true_eq, h2, if_true, hle]
    · have hlt : ¬ digitsValue (d :: ds1) < 2 ^ (bits - 1) := by omega
      simp only [hc, decide_False, Bool.not_false, Bool.true_and, decide_eq_true_eq, h1,
        if_true, if_false, hlt]

/-- `ParseInt` at a width between 2 and 64 bits succeeds exactly on the optionally signed
decimal integers that fit the width, and returns their value. -/
theorem ParseInt_decimalInteger (s : String) (bits : Nat) (hb : 2 ≤ bits) (hb2 : bits ≤ 64) :
    (match ParseInt s bits with
     | .ok i => some i
     | .error _ => none) =
    (match decimalInteger s with
     | some n =>
       if -((2 ^ (bits - 1) : Nat) : Int) ≤ n ∧ n < ((2 ^ (bits - 1) : Nat) : Int) then some n
       else none
     | none => none) := by
  cases hd : s.data with
  | nil =>
    have h1 : ParseInt s bits = .error ⟨"ParseInt", s, "invalid syntax"⟩ := by
      unfold ParseInt
      rw [hd]
    have h2 : decimalInteger s = none := by
      unfold decimalInteger
      rw [hd]
    rw [h1, h2]
  | cons c cs =>
    by_cases hm : c = '-'
    · have hds : (if c = '+' ∨ c = '-' then cs else c :: cs) = cs := by
        rw [if_pos (Or.inr hm)]
      by_cases hok : cs ≠ [] ∧ cs.all isDigit = true
      · have h2 : decimalInteger s = some (-(digitsValue cs : Int)) := by
          unfold decimalInteger
          rw [hd]
          simp only [hm, if_true]
          rw [if_pos hok]
        rw [ParseInt_signed_digits s bits hb hb2 c cs cs hd hds hok.1 hok.2, h2, if_pos hm]
        by_cases hle : digitsValue cs ≤ 2 ^ (bits - 1)
        · have hr : -((2 ^ (bits - 1) : Nat) : Int) ≤ -(digitsValue cs : Int) ∧
              -(digitsValue cs : Int) < ((2 ^ (bits - 1) : Nat) : Int) := by
            have : 0 < 2 ^ (bits - 1) := Nat.pow_pos (by omega)
            constructor <;> omega
          rw [if_pos hle]
          simp only []
          rw [if_pos hr]
        · have hr : ¬ (-((2 ^ (bits - 1) : Nat) : Int) ≤ -(digitsValue cs : Int) ∧
              -(digitsValue cs : Int) < ((2 ^ (bits - 1) : Nat) : Int)) := by
            intro h
            omega
          rw [if_neg hle]
          simp only []
          rw [if_neg hr]
      · have h2 : decimalInteger s = none := by
          unfold decimalInteger
          rw [hd]
          simp only [hm, if_true]
          rw [if_neg hok]
        have h1 : ∃ e, ParseInt s bits = .error e := by
          by_cases hnil : cs = []
          · exact ParseInt_no_digits s bits c cs hd (hds.trans hnil)
          · exact ParseInt_not_digits s bits hb c cs cs hd hds (fun h => hok ⟨hnil, h⟩)
        obtain ⟨e, he⟩ := h1
        rw [he, h2]
    · by_cases hp : c = '+'
      · have hds : (if c = '+' ∨ c = '-' then cs else c :: cs) = cs := by
          rw [if_pos (Or.inl hp)]
        by_cases hok : cs ≠ [] ∧ cs.all isDigit = true
        · have h2 : decimalInteger s = some (digitsValue cs : Int) := by
            unfold decimalInteger
            rw [hd]
            simp only [hm, if_false]
            rw [if_pos hp, if_pos hok]
          rw [ParseInt_signed_digits s bits hb hb2 c cs cs hd hds hok.1 hok.2, h2, if_neg hm]
          by_cases hlt : digitsValue cs < 2 ^ (bits - 1)
          · have hr : -((2 ^ (bits - 1) : Nat) : Int) ≤ (digitsValue cs : Int) ∧
                (digitsValue cs : Int) < ((2 ^ (bits - 1) : Nat) : Int) := by
              constructor <;> omega
            rw [if_pos hlt]
            simp only []
            rw [if_pos hr]
          · have hr : ¬ (-((2 ^ (bits - 1) : Nat) : Int) ≤ (digitsValue cs : Int) ∧
                (digitsValue cs : Int) < ((2 ^ (bits - 1) : Nat) : Int)) := by
              intro h
              omega
            rw [if_neg hlt]
            simp only []
            rw [if_neg hr]
        · have h2 : decimalInteger s = none := by
            unfold decimalInteger
            rw [hd]
            simp only [hm, if_false]
            rw [if_pos hp, if_neg hok]
          have h1 : ∃ e, ParseInt s bits = .error e := by
            by_cases hnil : cs = []
            · exact ParseInt_no_digits s bits c cs hd (hds.trans hnil)
            · exact ParseInt_not_digits s bits hb c cs cs hd hds (fun h => hok ⟨hnil, h⟩)
          obtain ⟨e, he⟩ := h1
          rw [he, h2]
      · have hds : (if c = '+' ∨ c = '-' then cs else c :: cs) = c :: cs := by
          rw [if_neg (fun h => h.elim hp hm)]
        by_cases hok : (c :: cs).all isDigit = true
        · have h2 : decimalInteger s = some (digitsValue (c :: cs) : Int) := by
            unfold decimalInteger
            rw [hd]
            simp only [hm, if_false, hp]
            rw [if_pos hok]
          rw [ParseInt_signed_digits s bits hb hb2 c cs (c :: cs) hd hds (List.cons_ne_nil _ _)
            hok, h2, if_neg hm]
          by_cases hlt : digitsValue (c :: cs) < 2 ^ (bits - 1)
          · have hr : -((2 ^ (bits - 1) : Nat) : Int) ≤ (digitsValue (c :: cs) : Int) ∧
                (digitsValue (c :: cs) : Int) < ((2 ^ (bits - 1) : Nat) : Int) := by
              constructor <;> omega
            rw [if_pos hlt]
            simp only []
            rw [if_pos hr]
          · have hr : ¬ (-((2 ^ (bits - 1) : Nat) : Int) ≤ (digitsValue (c :: cs) : Int) ∧
                (digitsValue (c :: cs) : Int) < ((2 ^ (bits - 1) : Nat) : Int)) := by
              intro h
              omega
            rw [if_neg hlt]
            simp only []
            rw [if_neg hr]
        · have h2 : decimalInteger s = none := by
            unfold decimalInteger
            rw [hd]
            simp only [hm, if_false, hp]
            rw [if_neg hok]
          obtain ⟨e, he⟩ := ParseInt_not_digits s bits hb c cs (c :: cs) hd hds hok
          rw [he, h2]

/-- Claim C24. On every non-empty raw string the int converter succeeds exactly when the
string is an optionally signed decimal integer n (an optional `+` or `-`, then one or more
ASCII digits) with -2^31 ≤ n ≤ 2^31-1, the int64 converter exactly when -2^63 ≤ n ≤ 2^63-1,
each returning n; on any other non-empty string both fail. -/
theorem intConverter_width (raw : String) (hne : raw ≠ "") :
    intConverter raw =
      (match decimalInteger raw with
       | some n =>
         if -(2 : Int) ^ 31 ≤ n ∧ n ≤ (2 : Int) ^ 31 - 1 then (.int n, true) else (.nil, false)
       | none => (.nil, false)) ∧
    int64Converter raw =
      (match decimalInteger raw with
       | some n =>
         if -(2 : Int) ^ 63 ≤ n ∧ n ≤ (2 : Int) ^ 63 - 1 then (.int64 n, true)
         else (.nil, false)
       | none => (.nil, false)) := by
  have h32 := ParseInt_decimalInteger raw 32 (by decide) (by decide)
  have h64 := ParseInt_decimalInteger raw 64 (by decide) (by decide)
  constructor
  · unfold intConverter
    rw [if_neg hne]
    cases hp : ParseInt raw 32 with
    | error e =>
      rw [hp] at h32
      cases hdec : decimalInteger raw with
      | none => rfl
      | some n =>
        rw [hdec] at h32
        simp only [] at h32 ⊢
        by_cases hr : -(2 : Int) ^ 31 ≤ n ∧ n ≤ (2 : Int) ^ 31 - 1
        · have hr2 : -((2 ^ (32 - 1) : Nat) : Int) ≤ n ∧ n < ((2 ^ (32 - 1) : Nat) : Int) := by
            norm_num at hr ⊢
            constructor <;> omega
          rw [if_pos hr2] at h32
          exact Option.noConfusion h32
        · rw [if_neg hr]
    | ok i =>
      rw [hp] at h32
      cases hdec : decimalInteger raw with
      | none =>
        rw [hdec] at h32
        exact Option.noConfusion h32
      | some n =>
        rw [hdec] at h32
        simp only [] at h32 ⊢
        by_cases hr2 : -((2 ^ (32 - 1) : Nat) : Int) ≤ n ∧ n < ((2 ^ (32 - 1) : Nat) : Int)
        · rw [if_pos hr2] at h32
          have hr : -(2 : Int) ^ 31 ≤ n ∧ n ≤ (2 : Int) ^ 31 - 1 := by
            norm_num at hr2 ⊢
            constructor <;> omega
          rw [if_pos hr, Option.some.inj h32]
        · rw [if_neg hr2] at h32
          exact Option.noConfusion h32
  · unfold int64Converter
    rw [if_neg hne]
    cases hp : ParseInt raw 64 with
    | error e =>
      rw [hp] at h64
      cases hdec : decimalInteger raw with
      | none => rfl
      | some n =>
        rw [hdec] at h64
        simp only [] at h64 ⊢
        by_cases hr : -(2 : Int) ^ 63 ≤ n ∧ n ≤ (2 : Int) ^ 63 - 1
        · have hr2 : -((2 ^ (64 - 1) : Nat) : Int) ≤ n ∧ n < ((2 ^ (64 - 1) : Nat) : Int) := by
            norm_num at hr ⊢
            constructor <;> omega
          rw [if_pos hr2] at h64
          exact Option.noConfusion h64
        · rw [if_neg hr]
    | ok i =>
      rw [hp] at h64
      cases hdec : decimalInteger raw with
      | none =>
        rw [hdec] at h64
        exact Option.noConfusion h64
      | some n =>
        rw [hdec] at h64
        simp only [] at h64 ⊢
        by_cases hr2 : -((2 ^ (64 - 1) : Nat) : Int) ≤ n ∧ n < ((2 ^ (64 - 1) : Nat) : Int)
        · rw [if_pos hr2] at h64
          have hr : -(2 : Int) ^ 63 ≤ n ∧ n ≤ (2 : Int) ^ 63 - 1 := by
            norm_num at hr2 ⊢
            constructor <;> omega
          rw [if_pos hr, Option.some.inj h64]
        · rw [if_neg hr2] at h64
          exact Option.noConfusion h64

/-- Witness of C24: the bounds of both widths, a signed value, and texts that are not
decimal integers. -/
theorem intConverter_width_witness :
    intConverter "2147483647" = (.int 2147483647, true) ∧
    intConverter "2147483648" = (.nil, false) ∧
    intConverter "-2147483648" = (.int (-2147483648), true) ∧
    intConverter "-2147483649" = (.nil, false) ∧
    int64Converter "2147483648" = (.int64 2147483648, true) ∧
    int64Converter "9223372036854775807" = (.int64 9223372036854775807, true) ∧
    int64Converter "9223372036854775808" = (.nil, false) ∧
    int64Converter "-9223372036854775808" = (.int64 (-9223372036854775808), true) ∧
    intConverter "+12" = (.int 12, true) ∧
    intConverter "12a" = (.nil, false) ∧ int64Converter "1.5" = (.nil, false) ∧
    intConverter "-" = (.nil, false) ∧ int64Converter " 1" = (.nil, false) := by
  refine ⟨?_, ?_, ?_, ?_, ?_, ?_, ?_, ?_, ?_, ?_, ?_, ?_, ?_⟩
  · rw [(intConverter_width "2147483647" (by decide)).1]; decide
  · rw [(intConverter_width "2147483648" (by decide)).1]; decide
  · rw [(intConverter_width "-2147483648" (by decide)).1]; decide
  · rw [(intConverter_width "-2147483649" (by decide)).1]; decide
  · rw [(intConverter_width "2147483648" (by decide)).2]; decide
  · rw [(intConverter_width "9223372036854775807" (by decide)).2]; decide
  · rw [(intConverter_width "9223372036854775808" (by decide)).2]; decide
  · rw [(intConverter_width "-9223372036854775808" (by decide)).2]; decide
  · rw [(intConverter_width "+12" (by decide)).1]; decide
  · rw [(intConverter_width "12a" (by decide)).1]; decide
  · rw [(intConverter_width "1.5" (by decide)).2]; decide
  · rw [(intConverter_width "-" (by decide)).1]; decide
  · rw [(intConverter_width " 1" (by decide)).2]; decide

/-! ## Trimming of the raw values -/

/-- The first element left by `dropWhile` does not satisfy the predicate. -/
theorem dropWhile_head_not {α : Type} (p : α → Bool) : ∀ (l : List α) (x : α) (r : List α),
    l.dropWhile p = x :: r → p x = false
  | [], _, _, h => List.noConfusion h
  | a :: l, x, r, h => by
    cases hp : p a with
    | true =>
      rw [List.dropWhile_cons_of_pos hp] at h
      exact dropWhile_head_not p l x r h
    | false =>
      rw [List.dropWhile_cons_of_neg (by simp [hp])] at h
      rw [← (List.cons.inj h).1]
      exact hp

/-- Trimming is idempotent. -/
theorem TrimSpace_idem (s : String) : TrimSpace (TrimSpace s) = TrimSpace s := by
  have hm : ∀ l : List Char, (l.reverse.dropWhile isSpace).reverse = l.rdropWhile isSpace :=
    fun _ => rfl
  have hhead : ((s.data.dropWhile isSpace).rdropWhile isSpace).dropWhile isSpace =
      (s.data.dropWhile isSpace).rdropWhile isSpace := by
    obtain ⟨t, ht⟩ := List.rdropWhile_prefix isSpace (l := s.data.dropWhile isSpace)
    cases hmm : (s.data.dropWhile isSpace).rdropWhile isSpace with
    | nil => rfl
    | cons x m =>
      rw [hmm] at ht
      have hx : isSpace x = false :=
        dropWhile_head_not isSpace s.data x (m ++ t) (by rw [← ht]; rfl)
      exact List.dropWhile_cons_of_neg (by simp [hx])
  unfold TrimSpace
  simp only [hm]
  rw [hhead, List.rdropWhile_idempotent]

/-- Under the trim policy the loop reads every value through `TrimSpace`, so it cannot tell
a value source from its trimmed form. -/
theorem decodeLoop_trimmed (env : Env) (reg : Registry) (f : String → String)
    (htrim : env.DecodeFormTrimSpace = true) :
    ∀ (specs : List FormSpec) (errors : List GoError) (values : List (String × Value)),
      decodeLoop env reg (trimmedSource f) specs errors values =
        decodeLoop env reg f specs errors values
  | [], _, _ => rfl
  | spec :: rest, errors, values => by
    have ih := decodeLoop_trimmed env reg f htrim rest
    simp only [decodeLoop, trimmedSource, htrim, if_true, TrimSpace_idem, ih]

/-- Claim C23. With `DecodeFormTrimSpace` enabled, `DecodeForm` gives on every value source
and spec list the result it gives on the value source in which every value is replaced by
its trimmed form, and so does its loop from any state (same errors in the same order, same
values); the input of every spec is the trimmed value, and a required field whose value
trims to empty is reported as required. -/
theorem DecodeForm_trims_values {σ : Type} (env : Env) (reg : Registry)
    (unmarshal : String → σ → Except String σ) (f : String → String)
    (specs : List FormSpec) (target : σ) (htrim : env.DecodeFormTrimSpace = true) :
    DecodeForm env reg unmarshal f specs target =
      DecodeForm env reg unmarshal (trimmedSource f) specs target ∧
    (∀ errors values, decodeLoop env reg f specs errors values =
      decodeLoop env reg (trimmedSource f) specs errors values) ∧
    (∀ spec, fieldInput env f spec = TrimSpace (f spec.Key)) ∧
    (∀ spec rest errors values, spec.Required = true → TrimSpace (f spec.Key) = "" →
      decodeLoop env reg f (spec :: rest) errors values =
        decodeLoop env reg f rest (errors ++ [⟨spec.Name ++ " is required."⟩]) values) := by
  refine ⟨?_, ?_, ?_, ?_⟩
  · unfold DecodeForm
    rw [decodeLoop_trimmed env reg f htrim specs [] []]
  · intro errors values
    exact (decodeLoop_trimmed env reg f htrim specs errors values).symm
  · intro spec
    unfold fieldInput
    rw [if_pos htrim]
  · intro spec rest errors values hreq hempty
    simp only [decodeLoop, htrim, if_true, hreq, hempty, and_self]

/-- Witness of C23: a required field holding only white space is reported as required and
the value of `Test_DecodeForm_Success` is stored trimmed. -/
theorem DecodeForm_trims_values_witness :
    DecodeForm asciiEnv (formSpecTypeMap asciiEnv) storeJson
        (TestFormValuer [("req_string", "  another string\n\n\n"), ("foo", " \t\n ")])
        [requiredFoo, FormSpec.literal "req_string" "string" true "" "req_string"] [] =
      DecodeForm asciiEnv (formSpecTypeMap asciiEnv) storeJson
        (TestFormValuer [("req_string", "another string"), ("foo", "")])
        [requiredFoo, FormSpec.literal "req_string" "string" true "" "req_string"] [] ∧
    decodeLoop asciiEnv (formSpecTypeMap asciiEnv)
        (TestFormValuer [("req_string", "  another string\n\n\n"), ("foo", " \t\n ")])
        [requiredFoo, FormSpec.literal "req_string" "string" true "" "req_string"] [] [] =
      .ok ([⟨"foo is required."⟩], [("req_string", .string "another string")]) := by
  have h := (DecodeForm_trims_values asciiEnv (formSpecTypeMap asciiEnv) storeJson
    (TestFormValuer [("req_string", "  another string\n\n\n"), ("foo", " \t\n ")])
    [requiredFoo, FormSpec.literal "req_string" "string" true "" "req_string"] [] rfl).1
  refine ⟨?_, by decide⟩
  rw [h]
  decide

/-! ## IntRange -/

/-- Wrap-around is the identity on the 64-bit range and never leaves it. -/
theorem wrapInt_range (x : Int) :
    -(2 : Int) ^ 63 ≤ wrapInt x ∧ wrapInt x ≤ (2 : Int) ^ 63 - 1 ∧
    (-(2 : Int) ^ 63 ≤ x → x ≤ (2 : Int) ^ 63 - 1 → wrapInt x = x) := by
  unfold wrapInt
  norm_num
  omega

/-- The ascending loop up to the largest int never ends: its condition always holds. -/
theorem intRangeUp_MaxInt : ∀ (fuel : Nat) (i : Int) (r : List Int),
    i ≤ (2 : Int) ^ 63 - 1 → intRangeUp (2 ^ 63 - 1) fuel i r = none
  | 0, _, _, _ => rfl
  | fuel + 1, i, r, h => by
    unfold intRangeUp
    rw [if_pos h]
    exact intRangeUp_MaxInt fuel _ _ (wrapInt_range (i + 1)).2.1

/-- The descending loop down to the smallest int never ends. -/
theorem intRangeDown_MinInt : ∀ (fuel : Nat) (i : Int) (r : List Int),
    i ≥ -(2 : Int) ^ 63 → intRangeDown (-2 ^ 63) fuel i r = none
  | 0, _, _, _ => rfl
  | fuel + 1, i, r, h => by
    unfold intRangeDown
    rw [if_pos h]
    exact intRangeDown_MinInt fuel _ _ (wrapInt_range (i - 1)).1

/-- The ascending loop below the largest int returns the numbers from `i` to `b`. -/
theorem intRangeUp_eq (b : Int) (hb : b ≤ (2 : Int) ^ 63 - 2) :
    ∀ (fuel : Nat) (i : Int) (r : List Int), -(2 : Int) ^ 63 ≤ i → i ≤ b + 1 →
      (b + 1 - i).toNat < fuel →
      intRangeUp b fuel i r =
        some (r ++ (List.range (b + 1 - i).toNat).map (fun (k : Nat) => i + (k : Int)))
  | 0, _, _, _, _, hf => absurd hf (Nat.not_lt_zero _)
  | fuel + 1, i, r, hlo, hhi, hf => by
    unfold intRangeUp
    by_cases hle : i ≤ b
    · rw [if_pos hle]
      have hw : wrapInt (i + 1) = i + 1 :=
        (wrapInt_range (i + 1)).2.2 (by omega) (by omega)
      rw [hw, intRangeUp_eq b hb fuel (i + 1) (r ++ [i]) (by omega) (by omega) (by omega)]
      have hn : (b + 1 - i).toNat = (b + 1 - (i + 1)).toNat + 1 := by omega
      rw [hn, List.range_succ_eq_map, List.map_cons, List.map_map, List.append_assoc]
      congr 2
      simp
      intro k _
      omega
    · rw [if_neg hle]
      have hn : (b + 1 - i).toNat = 0 := by omega
      rw [hn]
      simp

/-- The descending loop above the smallest int returns the numbers from `i` down to `b`. -/
theorem intRangeDown_eq (b : Int) (hb : -(2 : Int) ^ 63 + 1 ≤ b) :
    ∀ (fuel : Nat) (i : Int) (r : List Int), i ≤ (2 : Int) ^ 63 - 1 → b - 1 ≤ i →
      (i + 1 - b).toNat < fuel →
      intRangeDown b fuel i r =
        some (r ++ (List.range (i + 1 - b).toNat).map (fun (k : Nat) => i - (k : Int)))
  | 0, _, _, _, _, hf => absurd hf (Nat.not_lt_zero _)
  | fuel + 1, i, r, hhi, hlo, hf => by
    unfold intRangeDown
    by_cases hge : i ≥ b
    · rw [if_pos hge]
      have hw : wrapInt (i - 1) = i - 1 :=
        (wrapInt_range (i - 1)).2.2 (by omega) (by omega)
      rw [hw, intRangeDown_eq b hb fuel (i - 1) (r ++ [i]) (by omega) (by omega) (by omega)]
      have hn : (i + 1 - b).toNat = (i - 1 + 1 - b).toNat + 1 := by omega
      rw [hn, List.range_succ_eq_map, List.map_cons, List.map_map, List.append_assoc]
      congr 2
      simp
      intro k _
      omega
    · rw [if_neg hge]
      have hn : (i + 1 - b).toNat = 0 := by omega
      rw [hn]
      simp

/-- Away from the two extreme ints, `IntRange a b` returns (given enough fuel for its
`|b - a| + 1` iterations) the `|b - a| + 1` numbers from `a` to `b`, ascending when `b ≥ a`
and descending otherwise. -/
theorem IntRange_inclusive (a b : Int) (fuel : Nat)
    (ha : -(2 : Int) ^ 63 + 1 ≤ a ∧ a ≤ (2 : Int) ^ 63 - 2)
    (hb : -(2 : Int) ^ 63 + 1 ≤ b ∧ b ≤ (2 : Int) ^ 63 - 2)
    (hf : (b - a).natAbs + 1 < fuel) :
    IntRange fuel a b =
      some ((List.range ((b - a).natAbs + 1)).map
        (fun (k : Nat) => if a ≤ b then a + (k : Int) else a - (k : Int))) := by
  unfold IntRange
  by_cases hab : a = b
  · subst hab
    simp [List.range_succ]
  · rw [if_neg hab]
    by_cases hgt : b > a
    · rw [if_pos hgt, intRangeUp_eq b hb.2 fuel a [] (by omega) (by omega) (by omega)]
      have hn : (b + 1 - a).toNat = (b - a).natAbs + 1 := by omega
      have hle : a ≤ b := by omega
      simp only [hn, List.nil_append, hle, if_true]
    · rw [if_neg hgt, intRangeDown_eq b hb.1 fuel a [] (by omega) (by omega) (by omega)]
      have hn : (a + 1 - b).toNat = (b - a).natAbs + 1 := by omega
      have hle : ¬ a ≤ b := by omega
      simp only [hn, List.nil_append, hle, if_false]

/-- Claim C25. `IntRange` does not return the inclusive range for all integers: when `b` is
the largest int and `a < b` the ascending loop `for i := a; i <= b; i++` never ends (after
`b` the counter wraps around to the smallest int, and `i <= b` holds for every int), so no
amount of fuel yields a result, and likewise downwards to the smallest int; the ranges of
`Test_IntRange` are returned as claimed. -/
theorem IntRange_never_returns_at_extremes :
    (∀ fuel, IntRange fuel (2 ^ 63 - 2) (2 ^ 63 - 1) = none) ∧
    (∀ fuel a, IntRange fuel (min a (2 ^ 63 - 2)) (2 ^ 63 - 1) = none) ∧
    (∀ fuel, IntRange fuel (-2 ^ 63 + 1) (-2 ^ 63) = none) ∧
    (∀ fuel a, IntRange fuel (max a (-2 ^ 63 + 1)) (-2 ^ 63) = none) ∧
    IntRange 1 4 4 = some [4] ∧ IntRange 6 1 4 = some [1, 2, 3, 4] ∧
    IntRange 6 4 1 = some [4, 3, 2, 1] ∧ IntRange 6 (-2) 1 = some [-2, -1, 0, 1] ∧
    IntRange 6 0 (-3) = some [0, -1, -2, -3] ∧
    IntRange 4 (2 ^ 63 - 3) (2 ^ 63 - 2) = some [2 ^ 63 - 3, 2 ^ 63 - 2] := by
  have hup : ∀ fuel a, IntRange fuel (min a (2 ^ 63 - 2)) (2 ^ 63 - 1) = none := by
    intro fuel a
    unfold IntRange
    have h1 : min a (2 ^ 63 - 2) ≠ (2 : Int) ^ 63 - 1 := by omega
    have h2 : (2 : Int) ^ 63 - 1 > min a (2 ^ 63 - 2) := by omega
    rw [if_neg h1, if_pos h2]
    exact intRangeUp_MaxInt fuel _ _ (by omega)
  have hdown : ∀ fuel a, IntRange fuel (max a (-2 ^ 63 + 1)) (-2 ^ 63) = none := by
    intro fuel a
    unfold IntRange
    have h1 : max a (-2 ^ 63 + 1) ≠ -(2 : Int) ^ 63 := by omega
    have h2 : ¬ (-(2 : Int) ^ 63 > max a (-2 ^ 63 + 1)) := by omega
    rw [if_neg h1, if_neg h2]
    exact intRangeDown_MinInt fuel _ _ (by omega)
  refine ⟨fun fuel => hup fuel (2 ^ 63 - 2), hup, fun fuel => hdown fuel (-2 ^ 63 + 1), hdown,
    by decide, by decide, by decide, by decide, by decide, by decide⟩

/-- Witness of C22 on the values of `Test_DecodeForm_Success`: a date is taken by the date
layouts, a datetime by the datetime layouts after the date layouts failed, and a text that
is neither is refused. -/
theorem dateFlexConverter_date_first_witness :
    dateFlexConverter dateEnv "2017.02.25" = dateConverter dateEnv "2017.02.25" ∧
    dateFlexConverter dateEnv "2017.02.25" = (.time ⟨0, 63623574000, some "CET"⟩, true) ∧
    dateConverter dateEnv "2017.02.27 16:30" = (.nil, false) ∧
    dateFlexConverter dateEnv "2017.02.27 16:30" = dateTimeConverter dateEnv "2017.02.27 16:30" ∧
    dateFlexConverter dateEnv "2017.02.27 16:30" = (.time ⟨0, 63623806200, some "CET"⟩, true) ∧
    dateFlexConverter dateEnv "tomorrow" = (.nil, false) := by
  have h1 := (dateFlexConverter_date_first dateEnv "2017.02.25").1
  have h2 := (dateFlexConverter_date_first dateEnv "2017.02.27 16:30").1
  refine ⟨?_, by decide, by decide, ?_, by decide, by decide⟩
  · rw [h1]
    decide
  · rw [h2]
    decide

/-! ## Optional fields left empty -/

/-- The loop step on an optional spec whose input is empty: the empty string is converted
and the validator is applied to the result; nothing is skipped. -/
theorem decodeLoop_optional_empty (env : Env) (reg : Registry) (f : String → String)
    (spec : FormSpec) (rest : List FormSpec) (errors : List GoError)
    (values : List (String × Value))
    (hopt : spec.Required = false) (hin : fieldInput env f spec = "") :
    decodeLoop env reg f (spec :: rest) errors values =
      match spec.Convert reg "" with
      | .error p => .error p
      | .ok (_, some err) => decodeLoop env reg f rest (errors ++ [err]) values
      | .ok (val, none) =>
        match spec.validate env val with
        | some err => decodeLoop env reg f rest (errors ++ [err]) values
        | none => decodeLoop env reg f rest errors (mapSet values spec.Key val) := by
  have hin2 : (if env.DecodeFormTrimSpace = true then TrimSpace (f spec.Key) else f spec.Key)
      = "" := hin
  have hreq : ¬ (spec.Required = true ∧ True) := by
    rw [hopt]
    exact fun h => Bool.noConfusion h.1
  simp only [decodeLoop, hin2]
  rw [if_neg hreq]
  cases hc : spec.Convert reg "" with
  | error p => rfl
  | ok r =>
    obtain ⟨val, oe⟩ := r
    cases oe with
    | some err => rfl
    | none =>
      simp only [FormSpec.validate]
      cases hv : spec.Validator with
      | none => rfl
      | some vf => rfl

/-- The error of an optional string spec whose input is empty is what its validator answers
on the empty string. -/
theorem fieldError_optional_empty_string (env : Env) (reg : Registry) (f : String → String)
    (fs : FormSpec) (e : GoError)
    (hstr : reg "string" = some ⟨stringConverter, some .stringValidator, false⟩)
    (htyp : fs.Typ = "string") (hopt : fs.Required = false)
    (hin : fieldInput env f fs = "")
    (hval : fs.validate env (.string "") = some e) :
    fieldError env reg f fs = some e := by
  have hreq : ¬ (fs.Required = true ∧ fieldInput env f fs = "") := by
    rw [hopt]
    exact fun h => Bool.noConfusion h.1
  unfold fieldError
  rw [if_neg hreq, htyp, hstr, hin]
  have hconv : ¬ ((stringConverter "").2 = false) := by
    intro h
    exact Bool.noConfusion h
  simp only []
  rw [if_neg hconv]
  exact hval

/-- With every spec type registered, a spec that fails makes `DecodeForm` return the
aggregate error, with that spec's error in it and the target untouched. -/
theorem DecodeForm_returns_field_error {σ : Type} (env : Env) (reg : Registry)
    (unmarshal : String → σ → Except String σ) (f : String → String)
    (pre post : List FormSpec) (fs : FormSpec) (target : σ) (e : GoError)
    (hreg : ∀ spec ∈ pre ++ fs :: post, (reg spec.Typ).isSome = true)
    (herr : fieldError env reg f fs = some e) :
    ∃ errs, DecodeForm env reg unmarshal f (pre ++ fs :: post) target =
        .returned (some ⟨errs⟩) target ∧ e ∈ errs := by
  have hmem : e ∈ (pre ++ fs :: post).filterMap (fieldError env reg f) :=
    List.mem_filterMap.mpr ⟨fs, by simp, herr⟩
  have hne : (pre ++ fs :: post).filterMap (fieldError env reg f) ≠ [] :=
    List.ne_nil_of_mem hmem
  refine ⟨_, ?_, hmem⟩
  rw [DecodeForm_eq env reg unmarshal f (pre ++ fs :: post) target hreg, if_neg hne]

/-- The string validator on a spec whose only constraint is a length range. -/
theorem stringValidator_range_only (env : Env) (fs : FormSpec) (s : String) (lo hi : Int)
    (hlen : fs.limitLength = 0) (hr : fs.limitRangeInt = [lo, hi])
    (hre : fs.limitRegexp = none) (hl : fs.limitListString = []) :
    stringValidator env fs (.string s) =
      if (env.GlyphLength s : Int) < lo then some ⟨fs.Name ++ " is too short."⟩
      else if hi < (env.GlyphLength s : Int) then some ⟨fs.Name ++ " is too long."⟩
      else none := by
  unfold stringValidator
  simp only [hlen, hr, hre, hl]
  by_cases h1 : (env.GlyphLength s : Int) < lo
  · simp [h1]
  · by_cases h2 : hi < (env.GlyphLength s : Int)
    · simp [h1, h2]
    · simp [h1, h2]

/-- Claim C31. An optional field left empty is still validated.  For a key whose input (as
the decode pass sees it) is empty: the loop step on any optional spec of that key converts
the empty string and applies the validator to the result; a fresh optional string spec with
the exact-length limit N (1 ≤ N < 2^31) is initialised, rejects the empty string with "wrong
length", and makes `DecodeForm` return the aggregate error holding that message, wherever
the spec stands in the list; and so does one with a length range `lo-hi` with 1 ≤ lo ≤ hi
(below 2^31), with "too short". -/
theorem optional_empty_field_is_validated {σ : Type} (env : Env) (reg : Registry)
    (unmarshal : String → σ → Except String σ) (f : String → String)
    (key name : String) (target : σ)
    (hstr : reg "string" = some ⟨stringConverter, some .stringValidator, false⟩)
    (hglyph : env.GlyphLength "" = 0)
    (hin : (if env.DecodeFormTrimSpace = true then TrimSpace (f key) else f key) = "") :
    (∀ (spec : FormSpec) (rest : List FormSpec) (errors : List GoError)
        (values : List (String × Value)), spec.Key = key → spec.Required = false →
      decodeLoop env reg f (spec :: rest) errors values =
        match spec.Convert reg "" with
        | .error p => .error p
        | .ok (_, some err) => decodeLoop env reg f rest (errors ++ [err]) values
        | .ok (val, none) =>
          match spec.validate env val with
          | some err => decodeLoop env reg f rest (errors ++ [err]) values
          | none => decodeLoop env reg f rest errors (mapSet values spec.Key val)) ∧
    (∀ N : Nat, 1 ≤ N → N < 2 ^ 31 →
      ∃ fs, (FormSpec.literal key "string" false (formatNat N) name).Init env reg = .ok fs ∧
        fs.limitLength = (N : Int) ∧
        (fs.Convert reg "" = .ok (.string "", none)) ∧
        fs.validate env (.string "") = some ⟨name ++ " has the wrong length."⟩ ∧
        ∀ pre post : List FormSpec, (∀ spec ∈ pre ++ post, (reg spec.Typ).isSome = true) →
          ∃ errs, DecodeForm env reg unmarshal f (pre ++ fs :: post) target =
              .returned (some ⟨errs⟩) target ∧
            (⟨name ++ " has the wrong length."⟩ : GoError) ∈ errs) ∧
    (∀ lo hi : String, (lo.data ≠ [] ∧ lo.data.all isDigit = true) →
      (hi.data ≠ [] ∧ hi.data.all isDigit = true) → 1 ≤ digitsValue lo.data →
      digitsValue lo.data ≤ digitsValue hi.data → digitsValue hi.data < 2 ^ 31 →
      ∃ fs, (FormSpec.literal key "string" false (lo ++ "-" ++ hi) name).Init env reg = .ok fs ∧
        fs.limitRangeInt = [(digitsValue lo.data : Int), (digitsValue hi.data : Int)] ∧
        (fs.Convert reg "" = .ok (.string "", none)) ∧
        fs.validate env (.string "") = some ⟨name ++ " is too short."⟩ ∧
        ∀ pre post : List FormSpec, (∀ spec ∈ pre ++ post, (reg spec.Typ).isSome = true) →
          ∃ errs, DecodeForm env reg unmarshal f (pre ++ fs :: post) target =
              .returned (some ⟨errs⟩) target ∧
            (⟨name ++ " is too short."⟩ : GoError) ∈ errs) := by
  have hall : ∀ (fs : FormSpec) (e : GoError), fs.Key = key → fs.Typ = "string" →
      fs.Required = false → fs.validate env (.string "") = some e →
      (fs.Convert reg "" = .ok (.string "", none)) ∧
      ∀ pre post : List FormSpec, (∀ spec ∈ pre ++ post, (reg spec.Typ).isSome = true) →
        ∃ errs, DecodeForm env reg unmarshal f (pre ++ fs :: post) target =
            .returned (some ⟨errs⟩) target ∧ e ∈ errs := by
    intro fs e hkey htyp hopt hval
    have hfin : fieldInput env f fs = "" := by
      unfold fieldInput
      rw [hkey]
      exact hin
    constructor
    · unfold FormSpec.Convert
      rw [htyp, hstr]
      rfl
    · intro pre post hreg
      have hreg2 : ∀ spec ∈ pre ++ fs :: post, (reg spec.Typ).isSome = true := by
        intro spec hs
        rcases List.mem_append.mp hs with h | h
        · exact hreg spec (List.mem_append.mpr (Or.inl h))
        · rcases List.mem_cons.mp h with h | h
          · rw [h, htyp, hstr]
            rfl
          · exact hreg spec (List.mem_append.mpr (Or.inr h))
      exact DecodeForm_returns_field_error env reg unmarshal f pre post fs target e hreg2
        (fieldError_optional_empty_string env reg f fs e hstr htyp hopt hfin hval)
  refine ⟨?_, ?_, ?_⟩
  · intro spec rest errors values hkey hopt
    have hfin : fieldInput env f spec = "" := by
      unfold fieldInput
      rw [hkey]
      exact hin
    exact decodeLoop_optional_empty env reg f spec rest errors values hopt hfin
  · intro N h1 hfit
    obtain ⟨c, cs, hd, hlo, hhi, hdig, hvalue⟩ := formatNat_data N h1
    have hlim := initLimit_length env (FormSpec.literal key "string" false (formatNat N) name)
      c cs hd hlo hhi hdig (Or.inl rfl) (by rw [hvalue]; exact hfit)
    rw [hvalue] at hlim
    have hinit : (FormSpec.literal key "string" false (formatNat N) name).Init env reg =
        .ok { FormSpec.literal key "string" false (formatNat N) name with
              limitLength := (N : Int), Validator := some .stringValidator } := by
      rw [Init_standard env reg (FormSpec.literal key "string" false (formatNat N) name) _
        hstr rfl, hlim]
      rfl
    have hval : FormSpec.validate env
        { FormSpec.literal key "string" false (formatNat N) name with
          limitLength := (N : Int), Validator := some .stringValidator } (.string "") =
        some ⟨name ++ " has the wrong length."⟩ := by
      simp only [FormSpec.validate, ValidatorFn.call]
      rw [stringValidator_length_only env _ "" rfl rfl rfl]
      have hcond : ((N : Int) > 0 ∧ ((env.GlyphLength "" : Nat) : Int) ≠ (N : Int)) := by
        rw [hglyph]
        constructor <;> omega
      exact if_pos hcond
    obtain ⟨hconv, hdec⟩ := hall _ _ rfl rfl rfl hval
    exact ⟨_, hinit, rfl, hconv, hval, hdec⟩
  · intro lo hi hlo hhi h1 hle hfit
    have hlim := initLimit_rangeInt env
      (FormSpec.literal key "string" false (lo ++ "-" ++ hi) name)
      lo hi rfl hlo hhi hle (by simpa [FormSpec.literal] using hfit)
    have hinit : (FormSpec.literal key "string" false (lo ++ "-" ++ hi) name).Init env reg =
        .ok { FormSpec.literal key "string" false (lo ++ "-" ++ hi) name with
              limitRangeInt := [(digitsValue lo.data : Int), (digitsValue hi.data : Int)],
              Validator := some .stringValidator } := by
      rw [Init_standard env reg (FormSpec.literal key "string" false (lo ++ "-" ++ hi) name) _
        hstr rfl, hlim]
      rfl
    have hval : FormSpec.validate env
        { FormSpec.literal key "string" false (lo ++ "-" ++ hi) name with
          limitRangeInt := [(digitsValue lo.data : Int), (digitsValue hi.data : Int)],
          Validator := some .stringValidator } (.string "") =
        some ⟨name ++ " is too short."⟩ := by
      simp only [FormSpec.validate, ValidatorFn.call]
      rw [stringValidator_range_only env _ "" _ _ rfl rfl rfl rfl]
      have hcond : ((env.GlyphLength "" : Nat) : Int) < (digitsValue lo.data : Int) := by
        rw [hglyph]
        omega
      exact if_pos hcond
    obtain ⟨hconv, hdec⟩ := hall _ _ rfl rfl rfl hval
    exact ⟨_, hinit, rfl, hconv, hval, hdec⟩

/-- Witness of C31: an optional string field "foo" of exact length 6, or of length 3 to 8,
with a missing or blank input makes `DecodeForm` fail with the length error although the
other field passes. -/
theorem optional_empty_field_is_validated_witness :
    DecodeForm asciiEnv (formSpecTypeMap asciiEnv) storeJson
        (TestFormValuer [("bar", "23")])
        [{ FormSpec.literal "foo" "string" false "6" "Foo" with
            limitLength := 6, Validator := some .stringValidator }, exampleBar]
        [("foo", "old")] =
      .returned (some ⟨[⟨"Foo has the wrong length."⟩]⟩) [("foo", "old")] ∧
    DecodeForm asciiEnv (formSpecTypeMap asciiEnv) storeJson
        (TestFormValuer [("bar", "23"), ("foo", " \t ")])
        [exampleBar, { FormSpec.literal "foo" "string" false "3-8" "Foo" with
            limitRangeInt := [3, 8], Validator := some .stringValidator }]
        [("foo", "old")] =
      .returned (some ⟨[⟨"Foo is too short."⟩]⟩) [("foo", "old")] ∧
    (∃ fs, (FormSpec.literal "foo" "string" false (formatNat 6) "Foo").Init asciiEnv
        (formSpecTypeMap asciiEnv) = .ok fs ∧ fs.limitLength = ((6 : Nat) : Int) ∧
      fs.validate asciiEnv (.string "") = some ⟨"Foo" ++ " has the wrong length."⟩) ∧
    (∃ fs, (FormSpec.literal "foo" "string" false ("3" ++ "-" ++ "8") "Foo").Init asciiEnv
        (formSpecTypeMap asciiEnv) = .ok fs ∧
      fs.validate asciiEnv (.string "") = some ⟨"Foo" ++ " is too short."⟩) := by
  have h := optional_empty_field_is_validated asciiEnv (formSpecTypeMap asciiEnv) storeJson
    (TestFormValuer [("bar", "23")]) "foo" "Foo" [("foo", "old")] rfl (by decide) (by decide)
  refine ⟨by decide, by decide, ?_, ?_⟩
  · obtain ⟨fs, h1, h2, _, h4, _⟩ := h.2.1 6 (by decide) (by decide)
    exact ⟨fs, h1, h2, h4⟩
  · obtain ⟨fs, h1, _, _, h4, _⟩ := h.2.2 "3" "8" (by decide) (by decide) (by decide)
      (by decide) (by decide)
    exact ⟨fs, h1, h4⟩

/-! ## The type check of the 64-bit validator -/

/-- Unless the spec's type is "int", the 64-bit validator treats a value of any other type
as the integer 0. -/
theorem int64Validator_wrong_type_as_zero (fs : FormSpec) (v : Value)
    (htyp : fs.Typ ≠ "int") (hv : ∀ i, v ≠ .int64 i) :
    int64Validator fs v = int64Validator fs (.int64 0) := by
  have hguard : ∀ b : Bool, ¬ ((!b) = true ∧ fs.Typ = "int") := fun _ h => htyp h.2
  cases v with
  | int64 i => exact absurd rfl (hv i)
  | nil => simp only [int64Validator, hguard, if_false]
  | bool b => simp only [int64Validator, hguard, if_false]
  | int i => simp only [int64Validator, hguard, if_false]
  | float64 x => simp only [int64Validator, hguard, if_false]
  | string s => simp only [int64Validator, hguard, if_false]
  | time t => simp only [int64Validator, hguard, if_false]
  | other a b => simp only [int64Validator, hguard, if_false]

/-- Claim C32 (evaluation). On a spec of type int64 the 64-bit validator never reports a
wrong type: its type check also asks for the spec's type to be "int", so a string, a float
or any other value is validated as if it were 0.  Without a limit every such value is
accepted; with the range "0-10" the string "hello" and the float 1.5 are accepted; with the
range "1-10" they are rejected as "too low", the answer for 0.  Only on a spec of type "int"
does the validator answer "is not a 64-bit integer". -/
theorem int64Validator_skips_type_check :
    (∀ (fs : FormSpec) (v : Value),
      int64Validator { fs with Typ := "int64" } v =
        int64Validator { fs with Typ := "int64" }
          (.int64 (match v with
            | .int64 i => i
            | _ => 0))) ∧
    (∀ v : Value, int64Validator (FormSpec.literal "n" "int64" false "" "N") v = none) ∧
    (∃ fs, (FormSpec.literal "n" "int64" false "0-10" "N").Init asciiEnv
        (formSpecTypeMap asciiEnv) = .ok fs ∧ fs.Typ = "int64" ∧
      fs.Validator = some .int64Validator ∧
      fs.validate asciiEnv (.string "hello") = none ∧
      fs.validate asciiEnv (.float64 ⟨0x3FF8000000000000⟩) = none ∧
      fs.validate asciiEnv (.int64 11) = some ⟨"N is too high."⟩) ∧
    (∃ fs, (FormSpec.literal "n" "int64" false "1-10" "N").Init asciiEnv
        (formSpecTypeMap asciiEnv) = .ok fs ∧
      fs.validate asciiEnv (.string "hello") = some ⟨"N is too low."⟩ ∧
      fs.validate asciiEnv (.int64 0) = some ⟨"N is too low."⟩) ∧
    int64Validator (FormSpec.literal "n" "int" false "" "N") (.string "hello") =
      some ⟨"N (string) is not a 64-bit integer."⟩ := by
  have hne : ("int64" : String) ≠ "int" := by decide
  refine ⟨?_, ?_, ⟨_, rfl, by decide, by decide, by decide, by decide, by decide⟩,
    ⟨_, rfl, by decide, by decide⟩, by decide⟩
  · intro fs v
    cases v with
    | int64 i => rfl
    | nil => exact int64Validator_wrong_type_as_zero _ _ hne (fun _ h => Value.noConfusion h)
    | bool b => exact int64Validator_wrong_type_as_zero _ _ hne (fun _ h => Value.noConfusion h)
    | int i => exact int64Validator_wrong_type_as_zero _ _ hne (fun _ h => Value.noConfusion h)
    | float64 x =>
      exact int64Validator_wrong_type_as_zero _ _ hne (fun _ h => Value.noConfusion h)
    | string s =>
      exact int64Validator_wrong_type_as_zero _ _ hne (fun _ h => Value.noConfusion h)
    | time t => exact int64Validator_wrong_type_as_zero _ _ hne (fun _ h => Value.noConfusion h)
    | other a b =>
      exact int64Validator_wrong_type_as_zero _ _ hne (fun _ h => Value.noConfusion h)
  · intro v
    have h0 : int64Validator (FormSpec.literal "n" "int64" false "" "N") (.int64 0) = none := by
      decide
    have hlen : ∀ i : Int, int64Validator (FormSpec.literal "n" "int64" false "" "N")
        (.int64 i) = none := by
      intro i
      simp [int64Validator, FormSpec.literal]
    by_cases hv : ∃ i, v = .int64 i
    · obtain ⟨i, rfl⟩ := hv
      exact hlen i
    · rw [int64Validator_wrong_type_as_zero _ v (by decide) (fun i h => hv ⟨i, h⟩)]
      exact h0

/-! ## Panics of the decode pass -/

/-- Claim C1 (counterexample). With the demo's optional float spec and the form value
`strength=NaN` no spec fails (the value converts and passes the validator), yet
`DecodeForm` does not return nil: `json.Marshal` refuses the NaN and the call panics.
Likewise an optional spec of an unregistered type makes the call panic in `Convert`. -/
theorem DecodeForm_collects_all_errors_counterexample :
    (FormSpec.literal "strength" "float" false "" "Flubber strength").Init nanEnv
        (formSpecTypeMap nanEnv) =
      .ok { FormSpec.literal "strength" "float" false "" "Flubber strength" with
            Validator := some .floatValidator } ∧
    fieldError nanEnv (formSpecTypeMap nanEnv) (TestFormValuer [("strength", "NaN")])
      { FormSpec.literal "strength" "float" false "" "Flubber strength" with
        Validator := some .floatValidator } = none ∧
    decodeLoop nanEnv (formSpecTypeMap nanEnv) (TestFormValuer [("strength", "NaN")])
      [{ FormSpec.literal "strength" "float" false "" "Flubber strength" with
         Validator := some .floatValidator }] [] [] =
      .ok ([], [("strength", .float64 ⟨0x7FF8000000000001⟩)]) ∧
    DecodeForm nanEnv (formSpecTypeMap nanEnv) storeJson
      (TestFormValuer [("strength", "NaN")])
      [{ FormSpec.literal "strength" "float" false "" "Flubber strength" with
         Validator := some .floatValidator }] [] =
      .panic "Could not marshal values to JSON: json: unsupported value: NaN" ∧
    DecodeForm asciiEnv (formSpecTypeMap asciiEnv) storeJson (TestFormValuer [("x", "1")])
      [FormSpec.literal "x" "NoSuchType" false "" "x"] [] =
      .panic "runtime error: invalid memory address or nil pointer dereference" := by
  refine ⟨by decide, by decide, by decide, by decide, by decide⟩

/-! ## The decimal form of an integer -/

/-- The digits produced for a positive number are as many as its decimal digits. -/
theorem natDigitsRev_length : ∀ (fuel n : Nat), n < fuel → 1 ≤ n →
    (natDigitsRev fuel n).length = (Nat.digits 10 n).length
  | 0, _, h, _ => absurd h (Nat.not_lt_zero _)
  | fuel + 1, n, h, h1 => by
    unfold natDigitsRev
    by_cases h10 : n < 10
    · rw [if_pos h10, Nat.digits_of_lt 10 n (by omega) h10]
      rfl
    · rw [if_neg h10, Nat.digits_def' (by omega) (by omega), List.length_cons,
        List.length_cons, natDigitsRev_length fuel (n / 10) (by omega) (by omega)]

/-- The decimal form of a natural number has one character per decimal digit, one for 0. -/
theorem formatNat_length (n : Nat) :
    (formatNat n).length = max 1 (Nat.digits 10 n).length := by
  by_cases h0 : n = 0
  · subst h0
    simp [formatNat, natDigitsRev, String.length]
  · have hlen : (formatNat n).length = (natDigitsRev (n + 1) n).length := by
      unfold formatNat
      simp [String.length]
    have hpos : 1 ≤ (Nat.digits 10 n).length := by
      rw [Nat.digits_def' (by omega) (by omega), List.length_cons]
      omega
    rw [hlen, natDigitsRev_length (n + 1) n (by omega) (by omega), Nat.max_eq_right hpos]

/-- The decimal form of an integer has `decimalWidth` characters: its digits, and the minus
sign of a negative number. -/
theorem formatInt_length (v : Int) : (formatInt v).length = decimalWidth v := by
  cases v with
  | ofNat n =>
    have hneg : ¬ (Int.ofNat n < 0) := Int.not_lt.mpr (Int.ofNat_nonneg n)
    unfold formatInt decimalWidth
    rw [if_neg hneg, formatNat_length]
    simp
  | negSucc n =>
    have hneg : Int.negSucc n < 0 := Int.negSucc_lt_zero n
    unfold formatInt decimalWidth
    rw [if_pos hneg, String.length_append, formatNat_length]
    rfl

/-- The decimal form of an integer reads back as that integer: it is an optional minus sign
followed by decimal digits with that value. -/
theorem formatInt_denotes (v : Int) : decimalInteger (formatInt v) = some v := by
  have hnat : ∀ n : Nat, decimalInteger (formatNat n) = some (n : Int) := by
    intro n
    by_cases h0 : n = 0
    · subst h0
      decide
    · obtain ⟨c, cs, hd, _, _, hall, hval⟩ := formatNat_data n (by omega)
      have hc : isDigit c = true := by
        simp only [List.all_cons, Bool.and_eq_true] at hall
        exact hall.1
      obtain ⟨hm, hp⟩ := isDigit_ne_sign c hc
      unfold decimalInteger
      rw [hd]
      simp only [hm, hp, if_false]
      rw [if_pos hall, hval]
  cases v with
  | ofNat n => exact hnat n
  | negSucc n =>
    obtain ⟨c, cs, hd, _, _, hall, hval⟩ := formatNat_data (n + 1) (by omega)
    have hdata : (formatInt (Int.negSucc n)).data = '-' :: c :: cs := by
      unfold formatInt
      rw [String.data_append, hd]
      rfl
    unfold decimalInteger
    rw [hdata]
    simp only [if_true]
    rw [if_pos ⟨List.cons_ne_nil _ _, hall⟩, hval]
    rfl

/-! ## The int validator -/

/-- Claim C29. On every spec and every int value the validator of type int returns exactly
what the 64-bit validator returns on the widened value, which is the ordered checks, first
failure winning: "wrong length" when an exact length is set and the decimal form of the
value (minus sign included) has another length; else "too low" or "too high" when a range
is set and the value is outside it; else "wrong value" when a non-empty integer list is
set and does not hold the value; else acceptance.  The text the validator measures is the
decimal form: it reads back as the value, and its length is the number of decimal digits of
the absolute value plus one for the minus sign of a negative value. -/
theorem intValidator_is_int64Validator (fs : FormSpec) (v : Int) :
    intValidator fs (.int v) = int64Validator fs (.int64 v) ∧
    int64Validator fs (.int64 v) = integerChecks fs v ∧
    intValidator fs (.int v) = integerChecks fs v ∧
    decimalInteger (formatInt v) = some v ∧
    (formatInt v).length = decimalWidth v ∧
    decimalWidth v = (if v < 0 then 1 else 0) + max 1 (Nat.digits 10 v.natAbs).length := by
  have hmem : (∀ x ∈ fs.limitListInt, ¬ v = x) ↔ v ∉ fs.limitListInt := by
    constructor
    · intro h hm
      exact h v hm rfl
    · intro h x hx hsx
      exact h (hsx ▸ hx)
  have hlist : (0 < fs.limitListInt.length) ↔ fs.limitListInt ≠ [] := List.length_pos
  have h1 : intValidator fs (.int v) = int64Validator fs (.int64 v) := by
    simp [intValidator]
  have h2 : int64Validator fs (.int64 v) = integerChecks fs v := by
    unfold int64Validator integerChecks
    simp only [formatInt_length v]
    by_cases hlen : 0 < fs.limitLength ∧ ((decimalWidth v : Nat) : Int) ≠ fs.limitLength
    · have hlen2 : fs.limitLength > 0 ∧ ((decimalWidth v : Nat) : Int) ≠ fs.limitLength := hlen
      simp only [Bool.not_true, Bool.false_eq_true, false_and, if_false]
      rw [if_pos hlen]
      try rw [if_pos hlen2]
    · have hlen2 : ¬ (fs.limitLength > 0 ∧ ((decimalWidth v : Nat) : Int) ≠ fs.limitLength) :=
        hlen
      simp only [Bool.not_true, Bool.false_eq_true, false_and, if_false]
      rw [if_neg hlen]
      try rw [if_neg hlen2]
      rcases hr : fs.limitRangeInt with _ | ⟨lo, _ | ⟨hi, _ | ⟨x, rest⟩⟩⟩
      · simp [hmem, hlist]
      · simp [hmem, hlist]
      · by_cases h1 : v < lo
        · simp [h1]
        · by_cases h2 : v > hi
          · have h2' : hi < v := h2
            simp [h1, h2']
          · have h2' : ¬ hi < v := h2
            simp [h1, h2', hmem, hlist]
      · simp [hmem, hlist]
  exact ⟨h1, h2, h1.trans h2, formatInt_denotes v, formatInt_length v, rfl⟩

/-- Evaluation for C29: the decimal forms of 0, 7, -5, 12345 and -10, their widths, and an
int spec of exact length 2, which accepts -5 and 42 and rejects 5, -42 and 0 with "wrong
length". -/
theorem intValidator_is_int64Validator_witness :
    formatInt 0 = "0" ∧ formatInt 7 = "7" ∧ formatInt (-5) = "-5" ∧
    formatInt 12345 = "12345" ∧ formatInt (-10) = "-10" ∧
    decimalWidth 0 = 1 ∧ decimalWidth (-5) = 2 ∧ decimalWidth 12345 = 5 ∧
    decimalWidth (-10) = 3 ∧
    (FormSpec.literal "n" "int" false "2" "N").Init asciiEnv (formSpecTypeMap asciiEnv) =
      .ok { FormSpec.literal "n" "int" false "2" "N" with
            limitLength := 2, Validator := some .intValidator } ∧
    integerChecks { FormSpec.literal "n" "int" false "2" "N" with limitLength := 2 } (-5) =
      none ∧
    integerChecks { FormSpec.literal "n" "int" false "2" "N" with limitLength := 2 } 42 =
      none ∧
    integerChecks { FormSpec.literal "n" "int" false "2" "N" with limitLength := 2 } 5 =
      some ⟨"N has the wrong length."⟩ ∧
    integerChecks { FormSpec.literal "n" "int" false "2" "N" with limitLength := 2 } (-42) =
      some ⟨"N has the wrong length."⟩ ∧
    integerChecks { FormSpec.literal "n" "int" false "2" "N" with limitLength := 2 } 0 =
      some ⟨"N has the wrong length."⟩ := by
  have hw : ∀ v : Int, decimalWidth v = (formatInt v).length := fun v =>
    (intValidator_is_int64Validator (FormSpec.literal "n" "int" false "2" "N") v).2.2.2.2.1.symm
  have hc : ∀ v : Int,
      integerChecks { FormSpec.literal "n" "int" false "2" "N" with limitLength := 2 } v =
      intValidator { FormSpec.literal "n" "int" false "2" "N" with limitLength := 2 }
        (.int v) := fun v =>
    (intValidator_is_int64Validator
      { FormSpec.literal "n" "int" false "2" "N" with limitLength := 2 } v).2.2.1.symm
  refine ⟨by decide, by decide, by decide, by decide, by decide, ?_, ?_, ?_, ?_, by decide,
    ?_, ?_, ?_, ?_, ?_⟩
  · rw [hw]; decide
  · rw [hw]; decide
  · rw [hw]; decide
  · rw [hw]; decide
  · rw [hc]; decide
  · rw [hc]; decide
  · rw [hc]; decide
  · rw [hc]; decide
  · rw [hc]; decide

/-! ## Integer lists in limits -/

end Vebben
